import Mathlib

/-!
# IPCrypt2: a shallow embedding of `src/ipcrypt2.c`

Bytes are `Fin 256` (a `uint8_t`), a 128-bit vector register (`BlockVec`) is a record of its
sixteen bytes in memory order (little-endian lane layout: byte `i` of the register is the byte
that `LOAD128` reads from offset `i`), and caller-supplied buffers are lists of bytes.

The C file is compiled for one of two instruction sets; the `#ifdef` branches are selected here
by a `Backend` argument.
-/

namespace IPCrypt2

/-- A `uint8_t`. -/
abbrev Byte := Fin 256

/-- The two instruction-set branches of the source (`#ifdef __aarch64__` and its `#else`, which
covers AES-NI and the portable emulation of the same intrinsics). -/
inductive Backend where
  | aarch64
  | x86
deriving DecidableEq, Repr

/-- A 128-bit vector register (`BlockVec`), as its sixteen bytes in memory order. -/
structure Block where
  b0 : Byte
  b1 : Byte
  b2 : Byte
  b3 : Byte
  b4 : Byte
  b5 : Byte
  b6 : Byte
  b7 : Byte
  b8 : Byte
  b9 : Byte
  b10 : Byte
  b11 : Byte
  b12 : Byte
  b13 : Byte
  b14 : Byte
  b15 : Byte
deriving DecidableEq, Repr

namespace Block

/-- Byte `i` of the register (zero past the end). -/
def get (x : Block) : Nat → Byte
  | 0 => x.b0
  | 1 => x.b1
  | 2 => x.b2
  | 3 => x.b3
  | 4 => x.b4
  | 5 => x.b5
  | 6 => x.b6
  | 7 => x.b7
  | 8 => x.b8
  | 9 => x.b9
  | 10 => x.b10
  | 11 => x.b11
  | 12 => x.b12
  | 13 => x.b13
  | 14 => x.b14
  | 15 => x.b15
  | _ => 0

/-- The register whose byte `i` is `f i`. -/
def ofFn (f : Nat → Byte) : Block :=
  ⟨f 0, f 1, f 2, f 3, f 4, f 5, f 6, f 7, f 8, f 9, f 10, f 11, f 12, f 13, f 14, f 15⟩

/-- The sixteen bytes of the register, in memory order. -/
def toList (x : Block) : List Byte :=
  [x.b0, x.b1, x.b2, x.b3, x.b4, x.b5, x.b6, x.b7, x.b8, x.b9, x.b10, x.b11, x.b12, x.b13, x.b14, x.b15]

/-- The all-zero register. -/
def zero : Block := ofFn fun _ => 0

end Block

/-! ## The AES byte and state transformations (FIPS 197)

The vector AES instructions used by the source are defined by the instruction-set manuals in
terms of the FIPS 197 transformations on the 4x4 byte state, whose entry in row `r` and column
`c` is byte `r + 4 * c` of the register. -/

def sbox_table : List Byte :=
  [
   0x63, 0x7c, 0x77, 0x7b, 0xf2, 0x6b, 0x6f, 0xc5, 0x30, 0x01, 0x67, 0x2b, 0xfe, 0xd7, 0xab, 0x76,
   0xca, 0x82, 0xc9, 0x7d, 0xfa, 0x59, 0x47, 0xf0, 0xad, 0xd4, 0xa2, 0xaf, 0x9c, 0xa4, 0x72, 0xc0,
   0xb7, 0xfd, 0x93, 0x26, 0x36, 0x3f, 0xf7, 0xcc, 0x34, 0xa5, 0xe5, 0xf1, 0x71, 0xd8, 0x31, 0x15,
   0x04, 0xc7, 0x23, 0xc3, 0x18, 0x96, 0x05, 0x9a, 0x07, 0x12, 0x80, 0xe2, 0xeb, 0x27, 0xb2, 0x75,
   0x09, 0x83, 0x2c, 0x1a, 0x1b, 0x6e, 0x5a, 0xa0, 0x52, 0x3b, 0xd6, 0xb3, 0x29, 0xe3, 0x2f, 0x84,
   0x53, 0xd1, 0x00, 0xed, 0x20, 0xfc, 0xb1, 0x5b, 0x6a, 0xcb, 0xbe, 0x39, 0x4a, 0x4c, 0x58, 0xcf,
   0xd0, 0xef, 0xaa, 0xfb, 0x43, 0x4d, 0x33, 0x85, 0x45, 0xf9, 0x02, 0x7f, 0x50, 0x3c, 0x9f, 0xa8,
   0x51, 0xa3, 0x40, 0x8f, 0x92, 0x9d, 0x38, 0xf5, 0xbc, 0xb6, 0xda, 0x21, 0x10, 0xff, 0xf3, 0xd2,
   0xcd, 0x0c, 0x13, 0xec, 0x5f, 0x97, 0x44, 0x17, 0xc4, 0xa7, 0x7e, 0x3d, 0x64, 0x5d, 0x19, 0x73,
   0x60, 0x81, 0x4f, 0xdc, 0x22, 0x2a, 0x90, 0x88, 0x46, 0xee, 0xb8, 0x14, 0xde, 0x5e, 0x0b, 0xdb,
   0xe0, 0x32, 0x3a, 0x0a, 0x49, 0x06, 0x24, 0x5c, 0xc2, 0xd3, 0xac, 0x62, 0x91, 0x95, 0xe4, 0x79,
   0xe7, 0xc8, 0x37, 0x6d, 0x8d, 0xd5, 0x4e, 0xa9, 0x6c, 0x56, 0xf4, 0xea, 0x65, 0x7a, 0xae, 0x08,
   0xba, 0x78, 0x25, 0x2e, 0x1c, 0xa6, 0xb4, 0xc6, 0xe8, 0xdd, 0x74, 0x1f, 0x4b, 0xbd, 0x8b, 0x8a,
   0x70, 0x3e, 0xb5, 0x66, 0x48, 0x03, 0xf6, 0x0e, 0x61, 0x35, 0x57, 0xb9, 0x86, 0xc1, 0x1d, 0x9e,
   0xe1, 0xf8, 0x98, 0x11, 0x69, 0xd9, 0x8e, 0x94, 0x9b, 0x1e, 0x87, 0xe9, 0xce, 0x55, 0x28, 0xdf,
   0x8c, 0xa1, 0x89, 0x0d, 0xbf, 0xe6, 0x42, 0x68, 0x41, 0x99, 0x2d, 0x0f, 0xb0, 0x54, 0xbb, 0x16
  ]

def inv_sbox_table : List Byte :=
  [
   0x52, 0x09, 0x6a, 0xd5, 0x30, 0x36, 0xa5, 0x38, 0xbf, 0x40, 0xa3, 0x9e, 0x81, 0xf3, 0xd7, 0xfb,
   0x7c, 0xe3, 0x39, 0x82, 0x9b, 0x2f, 0xff, 0x87, 0x34, 0x8e, 0x43, 0x44, 0xc4, 0xde, 0xe9, 0xcb,
   0x54, 0x7b, 0x94, 0x32, 0xa6, 0xc2, 0x23, 0x3d, 0xee, 0x4c, 0x95, 0x0b, 0x42, 0xfa, 0xc3, 0x4e,
   0x08, 0x2e, 0xa1, 0x66, 0x28, 0xd9, 0x24, 0xb2, 0x76, 0x5b, 0xa2, 0x49, 0x6d, 0x8b, 0xd1, 0x25,
   0x72, 0xf8, 0xf6, 0x64, 0x86, 0x68, 0x98, 0x16, 0xd4, 0xa4, 0x5c, 0xcc, 0x5d, 0x65, 0xb6, 0x92,
   0x6c, 0x70, 0x48, 0x50, 0xfd, 0xed, 0xb9, 0xda, 0x5e, 0x15, 0x46, 0x57, 0xa7, 0x8d, 0x9d, 0x84,
   0x90, 0xd8, 0xab, 0x00, 0x8c, 0xbc, 0xd3, 0x0a, 0xf7, 0xe4, 0x58, 0x05, 0xb8, 0xb3, 0x45, 0x06,
   0xd0, 0x2c, 0x1e, 0x8f, 0xca, 0x3f, 0x0f, 0x02, 0xc1, 0xaf, 0xbd, 0x03, 0x01, 0x13, 0x8a, 0x6b,
   0x3a, 0x91, 0x11, 0x41, 0x4f, 0x67, 0xdc, 0xea, 0x97, 0xf2, 0xcf, 0xce, 0xf0, 0xb4, 0xe6, 0x73,
   0x96, 0xac, 0x74, 0x22, 0xe7, 0xad, 0x35, 0x85, 0xe2, 0xf9, 0x37, 0xe8, 0x1c, 0x75, 0xdf, 0x6e,
   0x47, 0xf1, 0x1a, 0x71, 0x1d, 0x29, 0xc5, 0x89, 0x6f, 0xb7, 0x62, 0x0e, 0xaa, 0x18, 0xbe, 0x1b,
   0xfc, 0x56, 0x3e, 0x4b, 0xc6, 0xd2, 0x79, 0x20, 0x9a, 0xdb, 0xc0, 0xfe, 0x78, 0xcd, 0x5a, 0xf4,
   0x1f, 0xdd, 0xa8, 0x33, 0x88, 0x07, 0xc7, 0x31, 0xb1, 0x12, 0x10, 0x59, 0x27, 0x80, 0xec, 0x5f,
   0x60, 0x51, 0x7f, 0xa9, 0x19, 0xb5, 0x4a, 0x0d, 0x2d, 0xe5, 0x7a, 0x9f, 0x93, 0xc9, 0x9c, 0xef,
   0xa0, 0xe0, 0x3b, 0x4d, 0xae, 0x2a, 0xf5, 0xb0, 0xc8, 0xeb, 0xbb, 0x3c, 0x83, 0x53, 0x99, 0x61,
   0x17, 0x2b, 0x04, 0x7e, 0xba, 0x77, 0xd6, 0x26, 0xe1, 0x69, 0x14, 0x63, 0x55, 0x21, 0x0c, 0x7d
  ]

/-- Truncation of an unsigned integer to a `uint8_t`. -/
def Byte.ofNat (n : Nat) : Byte := ⟨n % 256, Nat.mod_lt n (by decide)⟩

/-- FIPS 197 `SubBytes` on a single byte: the S-box. -/
def SubByte (b : Byte) : Byte := sbox_table.getD b.val 0

/-- FIPS 197 `InvSubBytes` on a single byte: the inverse S-box. -/
def InvSubByte (b : Byte) : Byte := inv_sbox_table.getD b.val 0

/-- FIPS 197 `xtime`: multiplication by `x` (that is, `{02}`) in GF(2^8), modulo
`x^8 + x^4 + x^3 + x + 1`. -/
def xtime (b : Byte) : Byte :=
  Byte.ofNat ((b.val <<< 1) ^^^ ((b.val >>> 7) * 0x1b))

/-- Multiplication by `{03}` in GF(2^8). -/
def mul3 (b : Byte) : Byte := xtime b ^^^ b

/-- Multiplication by `{09}` in GF(2^8). -/
def mul9 (b : Byte) : Byte := xtime (xtime (xtime b)) ^^^ b

/-- Multiplication by `{0b}` in GF(2^8). -/
def mul11 (b : Byte) : Byte := xtime (xtime (xtime b)) ^^^ xtime b ^^^ b

/-- Multiplication by `{0d}` in GF(2^8). -/
def mul13 (b : Byte) : Byte := xtime (xtime (xtime b)) ^^^ xtime (xtime b) ^^^ b

/-- Multiplication by `{0e}` in GF(2^8). -/
def mul14 (b : Byte) : Byte := xtime (xtime (xtime b)) ^^^ xtime (xtime b) ^^^ xtime b

/-- FIPS 197 `SubBytes`. -/
def SubBytes (x : Block) : Block := Block.ofFn fun i => SubByte (x.get i)

/-- FIPS 197 `InvSubBytes`. -/
def InvSubBytes (x : Block) : Block := Block.ofFn fun i => InvSubByte (x.get i)

/-- FIPS 197 `ShiftRows`: row `r` is rotated left by `r` columns. -/
def ShiftRows (x : Block) : Block :=
  Block.ofFn fun i => x.get (i % 4 + 4 * ((i / 4 + i % 4) % 4))

/-- FIPS 197 `InvShiftRows`: row `r` is rotated right by `r` columns. -/
def InvShiftRows (x : Block) : Block :=
  Block.ofFn fun i => x.get (i % 4 + 4 * ((i / 4 + 4 - i % 4) % 4))

/-- FIPS 197 `MixColumns`: every column is multiplied by `{03}x^3 + {01}x^2 + {01}x + {02}`. -/
def MixColumns (x : Block) : Block :=
  Block.ofFn fun i =>
    let c := 4 * (i / 4)
    let r := i % 4
    xtime (x.get (c + r)) ^^^ mul3 (x.get (c + (r + 1) % 4))
      ^^^ x.get (c + (r + 2) % 4) ^^^ x.get (c + (r + 3) % 4)

/-- FIPS 197 `InvMixColumns`: every column is multiplied by
`{0b}x^3 + {0d}x^2 + {09}x + {0e}`. -/
def InvMixColumns (x : Block) : Block :=
  Block.ofFn fun i =>
    let c := 4 * (i / 4)
    let r := i % 4
    mul14 (x.get (c + r)) ^^^ mul11 (x.get (c + (r + 1) % 4))
      ^^^ mul13 (x.get (c + (r + 2) % 4)) ^^^ mul9 (x.get (c + (r + 3) % 4))

/-- Bytewise exclusive or of two registers. -/
def Block.xor (a b : Block) : Block := Block.ofFn fun i => a.get i ^^^ b.get i

/-! ## Buffers and constants -/

/-- A byte buffer in memory, from the address a pointer holds onwards; the pointer `p + k` is
`p.drop k`. -/
abbrev Bytes := List Byte

/-- The contents of `dst` after `memcpy(dst, src, n)`. -/
def memcpy (dst src : Bytes) (n : Nat) : Bytes := src.take n ++ dst.drop n

/-- The contents of `buf` after an operation that works in place on `buf + off`. -/
def atOffset (buf : Bytes) (off : Nat) (f : Bytes → Bytes) : Bytes :=
  buf.take off ++ f (buf.drop off)

/-- The register holding the first sixteen bytes of a buffer. -/
def Block.ofList (l : Bytes) : Block := Block.ofFn fun i => l.getD i 0

/-- The `n` bytes of an unsigned integer, least significant first. -/
def le_bytes (n : Nat) (v : Nat) : Bytes :=
  (List.range n).map fun j => Byte.ofNat (v >>> (8 * j))

/-- The loop `for (i = lo; i < hi; i++) s = body(i, s);`. -/
def forUp {σ : Type} (lo hi : Nat) (body : Nat → σ → σ) (s : σ) : σ :=
  (List.range' lo (hi - lo)).foldl (fun s i => body i s) s

/-- The loop `for (i = hi; i > lo; i--) s = body(i, s);`. -/
def forDown {σ : Type} (hi lo : Nat) (body : Nat → σ → σ) (s : σ) : σ :=
  (List.range' (lo + 1) (hi - lo)).reverse.foldl (fun s i => body i s) s

/-- Number of AES rounds (`#define ROUNDS 10`). -/
abbrev ROUNDS : Nat := 10

/-- Modelled from the spec: `IPCRYPT_KEYBYTES` is declared in `include/ipcrypt2.h`, which is not
among the sources; the spec gives key-D = 16 bytes. -/
abbrev IPCRYPT_KEYBYTES : Nat := 16

/-- Modelled from the spec: `IPCRYPT_TWEAKBYTES` is declared in `include/ipcrypt2.h`, which is
not among the sources; the spec gives tweak-ND = 8 bytes. -/
abbrev IPCRYPT_TWEAKBYTES : Nat := 8

/-- Modelled from the spec: `IPCRYPT_NDIP_BYTES` is declared in `include/ipcrypt2.h`, which is
not among the sources; the spec gives bundle-ND = 24 bytes, and the source asserts that it is
`16 + IPCRYPT_TWEAKBYTES`. -/
abbrev IPCRYPT_NDIP_BYTES : Nat := 16 + IPCRYPT_TWEAKBYTES

/-- Modelled from the spec: `IPCRYPT_NDX_KEYBYTES` is declared in `include/ipcrypt2.h`, which is
not among the sources; the spec gives key-NDX = 32 bytes. -/
abbrev IPCRYPT_NDX_KEYBYTES : Nat := 32

/-- Modelled from the spec: `IPCRYPT_NDX_TWEAKBYTES` is declared in `include/ipcrypt2.h`, which
is not among the sources; the spec gives tweak-NDX = 16 bytes, and the source asserts that it is
16. -/
abbrev IPCRYPT_NDX_TWEAKBYTES : Nat := 16

/-- Modelled from the spec: `IPCRYPT_NDX_NDIP_BYTES` is declared in `include/ipcrypt2.h`, which
is not among the sources; the spec gives bundle-NDX = 32 bytes, and the source asserts that it
is `16 + IPCRYPT_NDX_TWEAKBYTES`. -/
abbrev IPCRYPT_NDX_NDIP_BYTES : Nat := 16 + IPCRYPT_NDX_TWEAKBYTES

/-! ## The x86 intrinsics (Intel SDM / Intrinsics Guide semantics) -/

namespace X86

/-- Intrinsic `_mm_loadu_si128`: load 16 bytes. -/
def _mm_loadu_si128 (p : Bytes) : Block := Block.ofList p

/-- Intrinsic `_mm_storeu_si128`: store 16 bytes; the result is the buffer afterwards. -/
def _mm_storeu_si128 (p : Bytes) (a : Block) : Bytes := a.toList ++ p.drop 16

/-- Intrinsic `_mm_xor_si128`. -/
def _mm_xor_si128 (a b : Block) : Block := a.xor b

/-- Intrinsic `_mm_aesenc_si128` (AESENC): ShiftRows, SubBytes, MixColumns, then the round key
is xored in. -/
def _mm_aesenc_si128 (a RoundKey : Block) : Block :=
  (MixColumns (SubBytes (ShiftRows a))).xor RoundKey

/-- Intrinsic `_mm_aesenclast_si128` (AESENCLAST): ShiftRows, SubBytes, then the round key is
xored in. -/
def _mm_aesenclast_si128 (a RoundKey : Block) : Block :=
  (SubBytes (ShiftRows a)).xor RoundKey

/-- Intrinsic `_mm_aesdec_si128` (AESDEC): InvShiftRows, InvSubBytes, InvMixColumns, then the
round key is xored in. -/
def _mm_aesdec_si128 (a RoundKey : Block) : Block :=
  (InvMixColumns (InvSubBytes (InvShiftRows a))).xor RoundKey

/-- Intrinsic `_mm_aesdeclast_si128` (AESDECLAST): InvShiftRows, InvSubBytes, then the round key
is xored in. -/
def _mm_aesdeclast_si128 (a RoundKey : Block) : Block :=
  (InvSubBytes (InvShiftRows a)).xor RoundKey

/-- Intrinsic `_mm_aesimc_si128` (AESIMC): InvMixColumns. -/
def _mm_aesimc_si128 (a : Block) : Block := InvMixColumns a

/-- Intrinsic `_mm_aeskeygenassist_si128` (AESKEYGENASSIST). With `X0 .. X3` the four doublewords
of `a`, the result holds `SubWord(X1)`, `RotWord(SubWord(X1)) xor RCON`, `SubWord(X3)`,
`RotWord(SubWord(X3)) xor RCON`, where `RCON` is the zero-extended immediate and `RotWord` moves
byte `k + 1` of the doubleword to byte `k`. -/
def _mm_aeskeygenassist_si128 (a : Block) (imm8 : Nat) : Block :=
  ⟨SubByte a.b4, SubByte a.b5, SubByte a.b6, SubByte a.b7,
   SubByte a.b5 ^^^ Byte.ofNat imm8, SubByte a.b6, SubByte a.b7, SubByte a.b4,
   SubByte a.b12, SubByte a.b13, SubByte a.b14, SubByte a.b15,
   SubByte a.b13 ^^^ Byte.ofNat imm8, SubByte a.b14, SubByte a.b15, SubByte a.b12⟩

/-- Intrinsic `_mm_set_epi64x`: `e0` in the low and `e1` in the high 64 bits. -/
def _mm_set_epi64x (e1 e0 : Nat) : Block := Block.ofList (le_bytes 8 e0 ++ le_bytes 8 e1)

/-- Intrinsic `_mm_slli_si128`: shift left by `imm8` bytes, shifting in zeros. -/
def _mm_slli_si128 (a : Block) (imm8 : Nat) : Block :=
  Block.ofFn fun i => if imm8 ≤ i then a.get (i - imm8) else 0

/-- The selector built by `_MM_SHUFFLE(z, y, x, w)`. -/
def _MM_SHUFFLE (z y x w : Nat) : Nat := (z <<< 6) ||| (y <<< 4) ||| (x <<< 2) ||| w

/-- Intrinsic `_mm_shuffle_epi32`: doubleword `j` of the result is the doubleword of `a` selected
by bits `2j+1 : 2j` of the immediate. -/
def _mm_shuffle_epi32 (a : Block) (imm8 : Nat) : Block :=
  Block.ofFn fun i => a.get (4 * ((imm8 >>> (2 * (i / 4))) % 4) + i % 4)

/-- Intrinsic `_mm_loadu_si64`: load 8 bytes into the low half, zero in the high half. -/
def _mm_loadu_si64 (p : Bytes) : Block := Block.ofFn fun i => if i < 8 then p.getD i 0 else 0

/-- Intrinsic `_mm_setr_epi8`: the sixteen bytes in memory order. -/
def _mm_setr_epi8 (e0 e1 e2 e3 e4 e5 e6 e7 e8 e9 e10 e11 e12 e13 e14 e15 : Byte) : Block :=
  ⟨e0, e1, e2, e3, e4, e5, e6, e7, e8, e9, e10, e11, e12, e13, e14, e15⟩

/-- Intrinsic `_mm_shuffle_epi8` (PSHUFB): byte `i` of the result is zero when bit 7 of byte `i`
of `b` is set, and is otherwise the byte of `a` selected by the low four bits of that byte. -/
def _mm_shuffle_epi8 (a b : Block) : Block :=
  Block.ofFn fun i =>
    if (b.get i).val &&& 0x80 ≠ 0 then 0 else a.get ((b.get i).val &&& 0x0f)

end X86

/-! ## The AArch64 intrinsics (Arm ARM / ACLE semantics, little-endian) -/

namespace AArch64

/-- Intrinsic `vld1q_u64`: load 16 bytes. -/
def vld1q_u64 (p : Bytes) : Block := Block.ofList p

/-- Intrinsic `vst1q_u64`: store 16 bytes; the result is the buffer afterwards. -/
def vst1q_u64 (p : Bytes) (a : Block) : Bytes := a.toList ++ p.drop 16

/-- Intrinsic `veorq_u64`. -/
def veorq_u64 (a b : Block) : Block := a.xor b

/-- Intrinsic `vaeseq_u8` (AESE): the operands are xored, then ShiftRows and SubBytes. -/
def vaeseq_u8 (data key : Block) : Block := SubBytes (ShiftRows (data.xor key))

/-- Intrinsic `vaesmcq_u8` (AESMC): MixColumns. -/
def vaesmcq_u8 (data : Block) : Block := MixColumns data

/-- Intrinsic `vaesdq_u8` (AESD): the operands are xored, then InvShiftRows and InvSubBytes. -/
def vaesdq_u8 (data key : Block) : Block := InvSubBytes (InvShiftRows (data.xor key))

/-- Intrinsic `vaesimcq_u8` (AESIMC): InvMixColumns. -/
def vaesimcq_u8 (data : Block) : Block := InvMixColumns data

/-- Intrinsic `vmovq_n_u8` / `vdupq_n_s8`: every byte is `value`. -/
def vmovq_n_u8 (value : Byte) : Block := Block.ofFn fun _ => value

/-- Intrinsic `vmovq_n_u64`: both 64-bit lanes are `value`. -/
def vmovq_n_u64 (value : Nat) : Block := Block.ofList (le_bytes 8 value ++ le_bytes 8 value)

/-- Intrinsic `vsetq_lane_u64`: the vector `v` with 64-bit lane `lane` replaced by `a`. -/
def vsetq_lane_u64 (a : Nat) (v : Block) (lane : Nat) : Block :=
  Block.ofFn fun i => if i / 8 = lane then (le_bytes 8 a).getD (i % 8) 0 else v.get i

/-- Intrinsic `vextq_s8`: sixteen bytes of the concatenation of `a` and `b`, from byte `n`. -/
def vextq_s8 (a b : Block) (n : Nat) : Block :=
  Block.ofFn fun i => if i + n < 16 then a.get (i + n) else b.get (i + n - 16)

/-- Builtin `__builtin_shufflevector` on two vectors of four 32-bit lanes: lane `j` of the
result is lane `idx j` of the concatenation of `v1` and `v2`. -/
def __builtin_shufflevector_u32x4 (v1 v2 : Block) (a b c d : Nat) : Block :=
  Block.ofFn fun i =>
    let idx := [a, b, c, d].getD (i / 4) 0
    if idx < 4 then v1.get (4 * idx + i % 4) else v2.get (4 * (idx - 4) + i % 4)

/-- Builtin `__builtin_shufflevector` on two vectors of sixteen bytes: byte `i` of the result is
byte `idx i` of the concatenation of `v1` and `v2`. -/
def __builtin_shufflevector_u8x16 (v1 v2 : Block) (idx : List Nat) : Block :=
  Block.ofFn fun i =>
    let k := idx.getD i 0
    if k < 16 then v1.get k else v2.get (k - 16)

/-- Intrinsic `vld1_u16`: load four 16-bit lanes (little-endian) from 8 bytes. -/
def vld1_u16 (p : Bytes) : List Nat :=
  (List.range 4).map fun k => (p.getD (2 * k) 0).val + 256 * (p.getD (2 * k + 1) 0).val

/-- Intrinsic `vmovl_u16`: zero-extend four 16-bit lanes to four 32-bit lanes. -/
def vmovl_u16 (v : List Nat) : Block :=
  Block.ofList ((List.range 4).map (fun k => le_bytes 4 (v.getD k 0))).flatten

end AArch64

/-! ## The helper definitions of `ipcrypt2.c`, per instruction set -/

open X86 AArch64

/-- `LOAD128(a)`: load 16 bytes from memory into a register. -/
def LOAD128 (arch : Backend) (a : Bytes) : Block :=
  match arch with
  | .aarch64 => vld1q_u64 a
  | .x86 => _mm_loadu_si128 a

/-- `STORE128(a, b)`: store the register `b` to memory at `a`. -/
def STORE128 (arch : Backend) (a : Bytes) (b : Block) : Bytes :=
  match arch with
  | .aarch64 => vst1q_u64 a b
  | .x86 => _mm_storeu_si128 a b

/-- `AES_XENCRYPT(block_vec, rkey)` (AArch64): one round with the key xored in first. -/
def AES_XENCRYPT (block_vec rkey : Block) : Block := vaesmcq_u8 (vaeseq_u8 rkey block_vec)

/-- `AES_XENCRYPTLAST(block_vec, rkey)` (AArch64): the round without MixColumns. -/
def AES_XENCRYPTLAST (block_vec rkey : Block) : Block := vaeseq_u8 rkey block_vec

/-- `AES_XDECRYPT(block_vec, rkey)` (AArch64): one inverse round with the key xored in first. -/
def AES_XDECRYPT (block_vec rkey : Block) : Block := vaesimcq_u8 (vaesdq_u8 rkey block_vec)

/-- `AES_XDECRYPTLAST(block_vec, rkey)` (AArch64): the inverse round without InvMixColumns. -/
def AES_XDECRYPTLAST (block_vec rkey : Block) : Block := vaesdq_u8 rkey block_vec

/-- `AES_ENCRYPT(block_vec, rkey)` (x86): a standard AES round. -/
def AES_ENCRYPT (block_vec rkey : Block) : Block := _mm_aesenc_si128 block_vec rkey

/-- `AES_ENCRYPTLAST(block_vec, rkey)` (x86): the final AES round. -/
def AES_ENCRYPTLAST (block_vec rkey : Block) : Block := _mm_aesenclast_si128 block_vec rkey

/-- `AES_DECRYPT(block_vec, rkey)` (x86): a standard AES decryption round. -/
def AES_DECRYPT (block_vec rkey : Block) : Block := _mm_aesdec_si128 block_vec rkey

/-- `AES_DECRYPTLAST(block_vec, rkey)` (x86): the final AES decryption round. -/
def AES_DECRYPTLAST (block_vec rkey : Block) : Block := _mm_aesdeclast_si128 block_vec rkey

/-- `XOR128(a, b)`: xor of two 128-bit blocks. -/
def XOR128 (arch : Backend) (a b : Block) : Block :=
  match arch with
  | .aarch64 => veorq_u64 a b
  | .x86 => _mm_xor_si128 a b

/-- `XOR128_3(a, b, c)`: xor of three 128-bit blocks. -/
def XOR128_3 (arch : Backend) (a b c : Block) : Block :=
  match arch with
  | .aarch64 => veorq_u64 (veorq_u64 a b) c
  | .x86 => _mm_xor_si128 (_mm_xor_si128 a b) c

/-- `SET64x2(a, b)`: the register with `b` in the low and `a` in the high 64-bit lane. -/
def SET64x2 (arch : Backend) (a b : Nat) : Block :=
  match arch with
  | .aarch64 => vsetq_lane_u64 (a % 2 ^ 64) (vmovq_n_u64 (b % 2 ^ 64)) 1
  | .x86 => _mm_set_epi64x (a % 2 ^ 64) (b % 2 ^ 64)

/-- `BYTESHL128(a, b)`: shift a register left by `b` bytes, zero-filling. -/
def BYTESHL128 (arch : Backend) (a : Block) (b : Nat) : Block :=
  match arch with
  | .aarch64 => vextq_s8 (vmovq_n_u8 0) a (16 - b)
  | .x86 => _mm_slli_si128 a b

/-- `SHUFFLE32x4(x, a, b, c, d)`: reorder the 32-bit lanes of a register. -/
def SHUFFLE32x4 (arch : Backend) (x : Block) (a b c d : Nat) : Block :=
  match arch with
  | .aarch64 => __builtin_shufflevector_u32x4 x x a b c d
  | .x86 => _mm_shuffle_epi32 x (_MM_SHUFFLE d c b a)

/-- `RKINVERT(rkey)`: invert an AES round key for decryption. -/
def RKINVERT (arch : Backend) (rkey : Block) : Block :=
  match arch with
  | .aarch64 => vaesimcq_u8 rkey
  | .x86 => _mm_aesimc_si128 rkey

/-- `TWEAK_EXPAND(tweak)`: expand the 8-byte tweak into a 128-bit register. -/
def TWEAK_EXPAND (arch : Backend) (tweak : Bytes) : Block :=
  match arch with
  | .aarch64 => vmovl_u16 (vld1_u16 tweak)
  | .x86 =>
    _mm_shuffle_epi8 (_mm_loadu_si64 tweak)
      (_mm_setr_epi8 0x00 0x01 0x80 0x80 0x02 0x03 0x80 0x80 0x04 0x05 0x80 0x80 0x06 0x07
        0x80 0x80)

/-- `AES_KEYGEN(block_vec, rc)`: the key-generation assist. On AArch64 it is a function that
runs an AES round with a zero key, shuffles the bytes and xors in the round constant; on x86 it
is the AESKEYGENASSIST instruction. -/
def AES_KEYGEN (arch : Backend) (block_vec : Block) (rc : Nat) : Block :=
  match arch with
  | .aarch64 =>
    let a := vaeseq_u8 block_vec (vmovq_n_u8 0)
    let b := __builtin_shufflevector_u8x16 a a [4, 1, 14, 11, 1, 14, 11, 4, 12, 9, 6, 3, 9, 6, 3, 12]
    let c := SET64x2 .aarch64 (rc <<< 32) (rc <<< 32)
    XOR128 .aarch64 b c
  | .x86 => _mm_aeskeygenassist_si128 block_vec rc

/-- `KeySchedule`: an array of `1 + ROUNDS` 128-bit blocks. -/
abbrev KeySchedule := List Block

/-- `InvKeySchedule`: an array of `ROUNDS - 1` 128-bit blocks. -/
abbrev InvKeySchedule := List Block

/-- The array element `rkeys[i]`. -/
def KeySchedule.at (rkeys : KeySchedule) (i : Nat) : Block := rkeys.getD i Block.zero

/-- The array element `rkeys_inv[i]`. -/
def InvKeySchedule.at (rkeys_inv : InvKeySchedule) (i : Nat) : Block :=
  rkeys_inv.getD i Block.zero

/-- `AesState` holds the expanded round keys. -/
structure AesState where
  rkeys : KeySchedule
deriving DecidableEq, Repr

/-- `NDXState` holds the expanded tweak round keys and the encryption round keys. -/
structure NDXState where
  tkeys : KeySchedule
  rkeys : KeySchedule
deriving DecidableEq, Repr

/-- The variables `rkeys`, `t` and `i` of `expand_key`, which `EXPAND_KEY` updates. -/
structure ExpandVars where
  rkeys : KeySchedule
  t : Block
  i : Nat

/-- The statement sequence `EXPAND_KEY(RC)` of `expand_key`. -/
def EXPAND_KEY (arch : Backend) (RC : Nat) (v : ExpandVars) : ExpandVars :=
  let rkeys := v.rkeys.set v.i v.t
  let i := v.i + 1
  let s := AES_KEYGEN arch v.t RC
  let t := XOR128 arch v.t (BYTESHL128 arch v.t 4)
  let t := XOR128 arch t (BYTESHL128 arch t 8)
  let t := XOR128 arch t (SHUFFLE32x4 arch s 3 3 3 3)
  ⟨rkeys, t, i⟩

/-- `expand_key` expands a 16-byte AES key into the round keys; `rkeys` is the array it fills
and the result is that array afterwards. -/
def expand_key (arch : Backend) (rkeys : KeySchedule) (key : Bytes) : KeySchedule :=
  let v : ExpandVars := ⟨rkeys, LOAD128 arch key, 0⟩
  let v := EXPAND_KEY arch 0x01 v
  let v := EXPAND_KEY arch 0x02 v
  let v := EXPAND_KEY arch 0x04 v
  let v := EXPAND_KEY arch 0x08 v
  let v := EXPAND_KEY arch 0x10 v
  let v := EXPAND_KEY arch 0x20 v
  let v := EXPAND_KEY arch 0x40 v
  let v := EXPAND_KEY arch 0x80 v
  let v := EXPAND_KEY arch 0x1b v
  let v := EXPAND_KEY arch 0x36 v
  v.rkeys.set v.i v.t

/-- `aes_encrypt` encrypts the 16-byte block at `x` in place; the result is the buffer
afterwards. -/
def aes_encrypt (arch : Backend) (x : Bytes) (st : AesState) : Bytes :=
  let rkeys := st.rkeys
  match arch with
  | .aarch64 =>
    let t := AES_XENCRYPT (LOAD128 arch x) (rkeys.at 0)
    let t := forUp 1 (ROUNDS - 1) (fun i t => AES_XENCRYPT t (rkeys.at i)) t
    -- the loop leaves `i = ROUNDS - 1`
    let t := AES_XENCRYPTLAST t (rkeys.at (ROUNDS - 1))
    let t := XOR128 arch t (rkeys.at ROUNDS)
    STORE128 arch x t
  | .x86 =>
    let t := XOR128 arch (LOAD128 arch x) (rkeys.at 0)
    let t := forUp 1 ROUNDS (fun i t => AES_ENCRYPT t (rkeys.at i)) t
    let t := AES_ENCRYPTLAST t (rkeys.at ROUNDS)
    STORE128 arch x t

/-- The first loop of `aes_decrypt` and `aes_decrypt_with_tweak`, which fills `rkeys_inv`. -/
def invert_keys (arch : Backend) (rkeys : KeySchedule) : InvKeySchedule :=
  forUp 0 (ROUNDS - 1) (fun i rkeys_inv => rkeys_inv.set i (RKINVERT arch (rkeys.at (ROUNDS - 1 - i))))
    (List.replicate (ROUNDS - 1) Block.zero)

/-- `aes_decrypt` decrypts the 16-byte block at `x` in place; the result is the buffer
afterwards. -/
def aes_decrypt (arch : Backend) (x : Bytes) (st : AesState) : Bytes :=
  let rkeys := st.rkeys
  let rkeys_inv := invert_keys arch rkeys
  match arch with
  | .aarch64 =>
    let t := AES_XDECRYPT (LOAD128 arch x) (rkeys.at ROUNDS)
    let t := forUp 0 (ROUNDS - 2) (fun i t => AES_XDECRYPT t (rkeys_inv.at i)) t
    -- the loop leaves `i = ROUNDS - 2`
    let t := AES_XDECRYPTLAST t (rkeys_inv.at (ROUNDS - 2))
    let t := XOR128 arch t (rkeys.at 0)
    STORE128 arch x t
  | .x86 =>
    let t := XOR128 arch (LOAD128 arch x) (rkeys.at ROUNDS)
    let t := forUp 0 (ROUNDS - 1) (fun i t => AES_DECRYPT t (rkeys_inv.at i)) t
    let t := AES_DECRYPTLAST t (rkeys.at 0)
    STORE128 arch x t

/-- `aes_encrypt_with_tweak` encrypts the 16-byte block at `x` in place with an 8-byte tweak,
which is xored into each round key. -/
def aes_encrypt_with_tweak (arch : Backend) (x : Bytes) (st : AesState) (tweak : Bytes) : Bytes :=
  let rkeys := st.rkeys
  let tweak_block := TWEAK_EXPAND arch tweak
  match arch with
  | .aarch64 =>
    let t := AES_XENCRYPT (LOAD128 arch x) (XOR128 arch tweak_block (rkeys.at 0))
    let t := forUp 1 (ROUNDS - 1) (fun i t => AES_XENCRYPT t (XOR128 arch tweak_block (rkeys.at i))) t
    let t := AES_XENCRYPTLAST t (XOR128 arch tweak_block (rkeys.at (ROUNDS - 1)))
    let t := XOR128 arch t (XOR128 arch tweak_block (rkeys.at ROUNDS))
    STORE128 arch x t
  | .x86 =>
    let t := XOR128_3 arch (LOAD128 arch x) tweak_block (rkeys.at 0)
    let t := forUp 1 ROUNDS (fun i t => AES_ENCRYPT t (XOR128 arch tweak_block (rkeys.at i))) t
    let t := AES_ENCRYPTLAST t (XOR128 arch tweak_block (rkeys.at ROUNDS))
    STORE128 arch x t

/-- `aes_decrypt_with_tweak` decrypts the 16-byte block at `x` in place with an 8-byte tweak. -/
def aes_decrypt_with_tweak (arch : Backend) (x : Bytes) (st : AesState) (tweak : Bytes) : Bytes :=
  let rkeys := st.rkeys
  let tweak_block := TWEAK_EXPAND arch tweak
  let tweak_block_inv := RKINVERT arch tweak_block
  let rkeys_inv := invert_keys arch rkeys
  match arch with
  | .aarch64 =>
    let t := AES_XDECRYPT (LOAD128 arch x) (XOR128 arch tweak_block (rkeys.at ROUNDS))
    let t := forUp 0 (ROUNDS - 2)
      (fun i t => AES_XDECRYPT t (XOR128 arch tweak_block_inv (rkeys_inv.at i))) t
    let t := AES_XDECRYPTLAST t (XOR128 arch tweak_block_inv (rkeys_inv.at (ROUNDS - 2)))
    let t := XOR128 arch t (XOR128 arch tweak_block (rkeys.at 0))
    STORE128 arch x t
  | .x86 =>
    let t := XOR128_3 arch (LOAD128 arch x) tweak_block (rkeys.at ROUNDS)
    let t := forUp 0 (ROUNDS - 1)
      (fun i t => AES_DECRYPT t (XOR128 arch tweak_block_inv (rkeys_inv.at i))) t
    let t := AES_DECRYPTLAST t (XOR128 arch tweak_block (rkeys.at 0))
    STORE128 arch x t

/-- `aes_xex_tweak` encrypts the 16-byte tweak under the tweak key schedule. -/
def aes_xex_tweak (arch : Backend) (st : NDXState) (tweak : Bytes) : Block :=
  let tkeys := st.tkeys
  match arch with
  | .aarch64 =>
    let tt := AES_XENCRYPT (LOAD128 arch tweak) (tkeys.at 0)
    let tt := forUp 1 (ROUNDS - 1) (fun i tt => AES_XENCRYPT tt (tkeys.at i)) tt
    let tt := AES_XENCRYPTLAST tt (tkeys.at (ROUNDS - 1))
    XOR128 arch tt (tkeys.at ROUNDS)
  | .x86 =>
    let tt := XOR128 arch (LOAD128 arch tweak) (tkeys.at 0)
    let tt := forUp 1 ROUNDS (fun i tt => AES_ENCRYPT tt (tkeys.at i)) tt
    AES_ENCRYPTLAST tt (tkeys.at ROUNDS)

/-- `aes_xex_encrypt` encrypts the 16-byte block at `x` in place, masked before and after with
the encrypted tweak. -/
def aes_xex_encrypt (arch : Backend) (x : Bytes) (st : NDXState) (tweak : Bytes) : Bytes :=
  let tt := aes_xex_tweak arch st tweak
  let rkeys := st.rkeys
  match arch with
  | .aarch64 =>
    let t := AES_XENCRYPT (XOR128 arch (LOAD128 arch x) tt) (rkeys.at 0)
    let t := forUp 1 (ROUNDS - 1) (fun i t => AES_XENCRYPT t (rkeys.at i)) t
    let t := AES_XENCRYPTLAST t (rkeys.at (ROUNDS - 1))
    let t := XOR128_3 arch t (rkeys.at ROUNDS) tt
    STORE128 arch x t
  | .x86 =>
    let t := XOR128 arch (XOR128 arch (LOAD128 arch x) tt) (rkeys.at 0)
    let t := forUp 1 ROUNDS (fun i t => AES_ENCRYPT t (rkeys.at i)) t
    let t := AES_ENCRYPTLAST t (XOR128 arch (rkeys.at ROUNDS) tt)
    STORE128 arch x t

/-- `aes_ndx_decrypt` decrypts the 16-byte block at `x` in place, masked before and after with
the encrypted tweak. -/
def aes_ndx_decrypt (arch : Backend) (x : Bytes) (st : NDXState) (tweak : Bytes) : Bytes :=
  let tt := aes_xex_tweak arch st tweak
  let rkeys := st.rkeys
  match arch with
  | .aarch64 =>
    let t := AES_XDECRYPT (XOR128 arch (LOAD128 arch x) tt) (rkeys.at ROUNDS)
    let t := forDown (ROUNDS - 1) 1 (fun i t => AES_XDECRYPT t (RKINVERT arch (rkeys.at i))) t
    let t := AES_XDECRYPTLAST t (RKINVERT arch (rkeys.at 1))
    let t := XOR128_3 arch t (rkeys.at 0) tt
    STORE128 arch x t
  | .x86 =>
    let t := XOR128 arch (XOR128 arch (LOAD128 arch x) tt) (rkeys.at ROUNDS)
    let t := forDown (ROUNDS - 1) 0 (fun i t => AES_DECRYPT t (RKINVERT arch (rkeys.at i))) t
    let t := AES_DECRYPTLAST t (XOR128 arch (rkeys.at 0) tt)
    STORE128 arch x t

/-! ## Contexts and the 16-byte operations -/

/-- `sizeof (AesState)`: `1 + ROUNDS` blocks of 16 bytes. -/
abbrev AesState.sizeof : Nat := 16 * (1 + ROUNDS)

/-- The object representation of an `AesState`, which `memcpy` reads. -/
def AesState.toBytes (st : AesState) : Bytes := (st.rkeys.map Block.toList).flatten

/-- The `AesState` whose object representation a buffer starts with. -/
def AesState.ofBytes (b : Bytes) : AesState :=
  ⟨(List.range (1 + ROUNDS)).map fun i => Block.ofList (b.drop (16 * i))⟩

/-- An `AesState` local variable before it is assigned; every function below overwrites all of
it before reading it. -/
def AesState.uninit : AesState := ⟨List.replicate (1 + ROUNDS) Block.zero⟩

/-- `sizeof (NDXState)`: two key schedules. -/
abbrev NDXState.sizeof : Nat := 2 * AesState.sizeof

/-- The object representation of an `NDXState`: `tkeys`, then `rkeys`. -/
def NDXState.toBytes (st : NDXState) : Bytes :=
  (st.tkeys.map Block.toList).flatten ++ (st.rkeys.map Block.toList).flatten

/-- The `NDXState` whose object representation a buffer starts with. -/
def NDXState.ofBytes (b : Bytes) : NDXState :=
  ⟨(List.range (1 + ROUNDS)).map fun i => Block.ofList (b.drop (16 * i)),
   (List.range (1 + ROUNDS)).map fun i => Block.ofList (b.drop (AesState.sizeof + 16 * i))⟩

/-- An `NDXState` local variable before it is assigned. -/
def NDXState.uninit : NDXState :=
  ⟨List.replicate (1 + ROUNDS) Block.zero, List.replicate (1 + ROUNDS) Block.zero⟩

/-- The context `IPCrypt`: its byte array (named `opaque` in the source), which the source
asserts to be at least as large as an `AesState`. -/
structure IPCrypt where
  opaque_ : Bytes
deriving DecidableEq, Repr

/-- The context `IPCryptNDX`: its byte array (named `opaque` in the source), which the source
asserts to be at least as large as an `NDXState`. -/
structure IPCryptNDX where
  opaque_ : Bytes
deriving DecidableEq, Repr

/-- `ipcrypt_init` initialises a context with a 16-byte key; the result is the context
afterwards. -/
def ipcrypt_init (arch : Backend) (ipcrypt : IPCrypt) (key : Bytes) : IPCrypt :=
  let st : AesState := AesState.uninit
  let st : AesState := ⟨expand_key arch st.rkeys key⟩
  ⟨memcpy ipcrypt.opaque_ st.toBytes AesState.sizeof⟩

/-- `ipcrypt_ndx_init` initialises an NDX context with a 32-byte key; the result is the context
afterwards. -/
def ipcrypt_ndx_init (arch : Backend) (ipcrypt : IPCryptNDX) (key : Bytes) : IPCryptNDX :=
  let st : NDXState := NDXState.uninit
  let st : NDXState := ⟨expand_key arch st.tkeys (key.drop 16), st.rkeys⟩
  let st : NDXState := ⟨st.tkeys, expand_key arch st.rkeys key⟩
  ⟨memcpy ipcrypt.opaque_ st.toBytes NDXState.sizeof⟩

/-- `ipcrypt_encrypt_ip16` encrypts the 16-byte buffer `ip16` in place; the result is the buffer
afterwards. -/
def ipcrypt_encrypt_ip16 (arch : Backend) (ipcrypt : IPCrypt) (ip16 : Bytes) : Bytes :=
  let st := AesState.ofBytes (memcpy AesState.uninit.toBytes ipcrypt.opaque_ AesState.sizeof)
  aes_encrypt arch ip16 st

/-- `ipcrypt_decrypt_ip16` decrypts the 16-byte buffer `ip16` in place; the result is the buffer
afterwards. -/
def ipcrypt_decrypt_ip16 (arch : Backend) (ipcrypt : IPCrypt) (ip16 : Bytes) : Bytes :=
  let st := AesState.ofBytes (memcpy AesState.uninit.toBytes ipcrypt.opaque_ AesState.sizeof)
  aes_decrypt arch ip16 st

/-- `ipcrypt_nd_encrypt_ip16` writes the tweak `random` and the encrypted `ip16` to the 24-byte
buffer `ndip`; the result is that buffer afterwards. -/
def ipcrypt_nd_encrypt_ip16 (arch : Backend) (ipcrypt : IPCrypt) (ndip ip16 random : Bytes) :
    Bytes :=
  let st := AesState.ofBytes (memcpy AesState.uninit.toBytes ipcrypt.opaque_ AesState.sizeof)
  let ndip := memcpy ndip random IPCRYPT_TWEAKBYTES
  let ndip := atOffset ndip IPCRYPT_TWEAKBYTES fun p => memcpy p ip16 16
  atOffset ndip IPCRYPT_TWEAKBYTES fun p => aes_encrypt_with_tweak arch p st random

/-- `ipcrypt_nd_decrypt_ip16` decrypts the 24-byte buffer `ndip` into `ip16`; the result is the
buffer `ip16` afterwards. -/
def ipcrypt_nd_decrypt_ip16 (arch : Backend) (ipcrypt : IPCrypt) (ip16 ndip : Bytes) : Bytes :=
  let st := AesState.ofBytes (memcpy AesState.uninit.toBytes ipcrypt.opaque_ AesState.sizeof)
  let ip16 := memcpy ip16 (ndip.drop IPCRYPT_TWEAKBYTES) 16
  aes_decrypt_with_tweak arch ip16 st ndip

/-- `ipcrypt_ndx_encrypt_ip16` writes the tweak `random` and the encrypted `ip16` to the 32-byte
buffer `ndip`; the result is that buffer afterwards. -/
def ipcrypt_ndx_encrypt_ip16 (arch : Backend) (ipcrypt : IPCryptNDX) (ndip ip16 random : Bytes) :
    Bytes :=
  let st := NDXState.ofBytes (memcpy NDXState.uninit.toBytes ipcrypt.opaque_ NDXState.sizeof)
  let ndip := memcpy ndip random IPCRYPT_NDX_TWEAKBYTES
  let ndip := atOffset ndip IPCRYPT_NDX_TWEAKBYTES fun p => memcpy p ip16 16
  atOffset ndip IPCRYPT_NDX_TWEAKBYTES fun p => aes_xex_encrypt arch p st random

/-- `ipcrypt_ndx_decrypt_ip16` decrypts the 32-byte buffer `ndip` into `ip16`; the result is the
buffer `ip16` afterwards. -/
def ipcrypt_ndx_decrypt_ip16 (arch : Backend) (ipcrypt : IPCryptNDX) (ip16 ndip : Bytes) :
    Bytes :=
  let st := NDXState.ofBytes (memcpy NDXState.uninit.toBytes ipcrypt.opaque_ NDXState.sizeof)
  let ip16 := memcpy ip16 (ndip.drop IPCRYPT_NDX_TWEAKBYTES) 16
  aes_ndx_decrypt arch ip16 st ndip

/-! ## Reference definitions: AES-128 as FIPS 197 states it

These follow the standard (and the wording of the specification), not the source; the theorems
below compare the source with them. -/

namespace FIPS197

/-- A 32-bit word of the key schedule, as its four bytes. -/
structure Word where
  a0 : Byte
  a1 : Byte
  a2 : Byte
  a3 : Byte
deriving DecidableEq, Repr

/-- FIPS 197 `SubWord`: the S-box applied to each byte of a word. -/
def SubWord (w : Word) : Word := ⟨SubByte w.a0, SubByte w.a1, SubByte w.a2, SubByte w.a3⟩

/-- FIPS 197 `RotWord`: `[a0, a1, a2, a3]` becomes `[a1, a2, a3, a0]`. -/
def RotWord (w : Word) : Word := ⟨w.a1, w.a2, w.a3, w.a0⟩

/-- Bytewise exclusive or of two words. -/
def Word.xor (u v : Word) : Word := ⟨u.a0 ^^^ v.a0, u.a1 ^^^ v.a1, u.a2 ^^^ v.a2, u.a3 ^^^ v.a3⟩

/-- The round constants `01, 02, 04, 08, 10, 20, 40, 80, 1b, 36` for `i = 1 .. 10`. -/
def rconByte (i : Nat) : Byte :=
  [0x01, 0x02, 0x04, 0x08, 0x10, 0x20, 0x40, 0x80, 0x1b, 0x36].getD (i - 1) 0

/-- FIPS 197 `Rcon[i]`: the word `[rc_i, 00, 00, 00]`. -/
def Rcon (i : Nat) : Word := ⟨rconByte i, 0, 0, 0⟩

/-- Word `j` of a round key: bytes `4j .. 4j+3`. -/
def word (x : Block) (j : Nat) : Word :=
  ⟨x.get (4 * j), x.get (4 * j + 1), x.get (4 * j + 2), x.get (4 * j + 3)⟩

/-- The round key made of four words. -/
def ofWords (w0 w1 w2 w3 : Word) : Block :=
  ⟨w0.a0, w0.a1, w0.a2, w0.a3, w1.a0, w1.a1, w1.a2, w1.a3,
   w2.a0, w2.a1, w2.a2, w2.a3, w3.a0, w3.a1, w3.a2, w3.a3⟩

/-- Round key `i` from round key `i - 1` in the AES-128 key schedule: word 0 is word 0 of the
previous key xor `SubWord(RotWord(word 3 of the previous key))` xor `Rcon[i]`, and word `j` is
word `j - 1` xor word `j` of the previous key, for `j = 1 .. 3`. -/
def nextRoundKey (prev : Block) (i : Nat) : Block :=
  let w0 := ((word prev 0).xor (SubWord (RotWord (word prev 3)))).xor (Rcon i)
  let w1 := w0.xor (word prev 1)
  let w2 := w1.xor (word prev 2)
  let w3 := w2.xor (word prev 3)
  ofWords w0 w1 w2 w3

/-- FIPS 197 `KeyExpansion` for AES-128, by round keys: round key 0 is the key. -/
def KeyExpansion (key : Block) : Nat → Block
  | 0 => key
  | i + 1 => nextRoundKey (KeyExpansion key i) (i + 1)

/-- FIPS 197 `AddRoundKey`. -/
def AddRoundKey (state roundKey : Block) : Block := state.xor roundKey

/-- FIPS 197 `Cipher` for AES-128 (`Nr = 10`), with `w i` the round key of round `i`:
AddRoundKey with `w 0`; nine rounds of SubBytes, ShiftRows, MixColumns, AddRoundKey; a final
round without MixColumns. -/
def Cipher (input : Block) (w : Nat → Block) : Block :=
  let state := AddRoundKey input (w 0)
  let state := forUp 1 10
    (fun round state => AddRoundKey (MixColumns (ShiftRows (SubBytes state))) (w round)) state
  AddRoundKey (ShiftRows (SubBytes state)) (w 10)

/-- FIPS 197 `InvCipher` for AES-128 (`Nr = 10`), with the untransformed round keys:
AddRoundKey with `w 10`; for rounds 9 down to 1 InvShiftRows, InvSubBytes, AddRoundKey,
InvMixColumns; a final round without InvMixColumns. -/
def InvCipher (input : Block) (w : Nat → Block) : Block :=
  let state := AddRoundKey input (w 10)
  let state := forDown 9 0
    (fun round state => InvMixColumns (AddRoundKey (InvSubBytes (InvShiftRows state)) (w round)))
    state
  AddRoundKey (InvSubBytes (InvShiftRows state)) (w 0)

/-- AES-128 encryption of a block under a 16-byte key. -/
def AES128_encrypt (key input : Block) : Block := Cipher input (KeyExpansion key)

/-- AES-128 decryption of a block under a 16-byte key. -/
def AES128_decrypt (key input : Block) : Block := InvCipher input (KeyExpansion key)

end FIPS197

/-- The expanded tweak as the specification lays it out: `t0 t1 00 00 t2 t3 00 00 t4 t5 00 00
t6 t7 00 00`. -/
def expandedTweak (t : Bytes) : Block :=
  ⟨t.getD 0 0, t.getD 1 0, 0, 0, t.getD 2 0, t.getD 3 0, 0, 0,
   t.getD 4 0, t.getD 5 0, 0, 0, t.getD 6 0, t.getD 7 0, 0, 0⟩

/-- Bytewise exclusive or of two byte sequences. -/
def xorBytes (a b : Bytes) : Bytes := List.zipWith (· ^^^ ·) a b

/-- The round keys that the 16-byte operations read from a context. -/
def ctxKeys (ipcrypt : IPCrypt) : Nat → Block :=
  (AesState.ofBytes (memcpy AesState.uninit.toBytes ipcrypt.opaque_ AesState.sizeof)).rkeys.at

/-- The tweak round keys that the 16-byte NDX operations read from a context. -/
def ndxTweakKeys (ipcrypt : IPCryptNDX) : Nat → Block :=
  (NDXState.ofBytes (memcpy NDXState.uninit.toBytes ipcrypt.opaque_ NDXState.sizeof)).tkeys.at

/-- The primary round keys that the 16-byte NDX operations read from a context. -/
def ndxKeys (ipcrypt : IPCryptNDX) : Nat → Block :=
  (NDXState.ofBytes (memcpy NDXState.uninit.toBytes ipcrypt.opaque_ NDXState.sizeof)).rkeys.at

/-- A buffer of `n` zero bytes. -/
def zeros (n : Nat) : Bytes := List.replicate n 0

/-! ## Clearing a context -/

/-- The contents of `dst` after `memset(dst, c, n)`. -/
def memset (dst : Bytes) (c : Byte) (n : Nat) : Bytes := List.replicate n c ++ dst.drop n

/-- The contents of `s` after `memset_s(s, smax, c, n)`: `n` bytes are set, and at most
`smax`. -/
def memset_s (s : Bytes) (smax : Nat) (c : Byte) (n : Nat) : Bytes :=
  List.replicate (min n smax) c ++ s.drop (min n smax)

/-- The contents of `ptr` after `SecureZeroMemory(ptr, cnt)`. -/
def SecureZeroMemory (ptr : Bytes) (cnt : Nat) : Bytes := List.replicate cnt 0 ++ ptr.drop cnt

/-- The three ways the body of `ipcrypt_deinit` and `ipcrypt_ndx_deinit` is compiled:
`#ifdef _MSC_VER`, `#elif defined(__STDC_LIB_EXT1__)`, and `#else`. -/
inductive Toolchain where
  | msc_ver
  | stdc_lib_ext1
  | other
deriving DecidableEq, Repr

/-- `ipcrypt_deinit` clears the context; the result is the context afterwards. The context is
its byte array, so `sizeof *ipcrypt` is the length of that array. -/
def ipcrypt_deinit (tc : Toolchain) (ipcrypt : IPCrypt) : IPCrypt :=
  match tc with
  | .msc_ver => ⟨SecureZeroMemory ipcrypt.opaque_ ipcrypt.opaque_.length⟩
  | .stdc_lib_ext1 =>
    ⟨memset_s ipcrypt.opaque_ ipcrypt.opaque_.length 0 ipcrypt.opaque_.length⟩
  | .other => ⟨memset ipcrypt.opaque_ 0 ipcrypt.opaque_.length⟩

/-- `ipcrypt_ndx_deinit` clears the NDX context; the result is the context afterwards. -/
def ipcrypt_ndx_deinit (tc : Toolchain) (ipcrypt : IPCryptNDX) : IPCryptNDX :=
  match tc with
  | .msc_ver => ⟨SecureZeroMemory ipcrypt.opaque_ ipcrypt.opaque_.length⟩
  | .stdc_lib_ext1 =>
    ⟨memset_s ipcrypt.opaque_ ipcrypt.opaque_.length 0 ipcrypt.opaque_.length⟩
  | .other => ⟨memset ipcrypt.opaque_ 0 ipcrypt.opaque_.length⟩

/-! ## The hex codec -/

/-- `SIZE_MAX`, for the 64-bit `size_t` of the two instruction sets. -/
abbrev SIZE_MAX : Nat := 2 ^ 64 - 1

/-- The expression `(unsigned char) (87U + v + (((v - 10U) >> 8) & ~38U))` of `bin2hex`,
computed in 32-bit `unsigned int` arithmetic. -/
def hexchar (v : Nat) : Byte :=
  Byte.ofNat ((87 + v + ((((v + 2 ^ 32 - 10) % 2 ^ 32) >>> 8) &&& (2 ^ 32 - 1 - 38))) % 2 ^ 32)

/-- The body of the loop of `bin2hex` for index `i`: the buffer `hex` afterwards. -/
def bin2hex_step (bin : Bytes) (i : Nat) (hex : Bytes) : Bytes :=
  let c := (bin.getD i 0).val &&& 0xf
  let b := (bin.getD i 0).val >>> 4
  let x := ((hexchar c).val <<< 8) ||| (hexchar b).val
  let hex := hex.set (i * 2) (Byte.ofNat x)
  let x := x >>> 8
  hex.set (i * 2 + 1) (Byte.ofNat x)

/-- `bin2hex` converts a binary buffer into a lowercase hex string. The result is `none` when
it returns `NULL` (the buffer `hex` is then untouched) and otherwise the buffer `hex`
afterwards. -/
def bin2hex (hex : Bytes) (hex_maxlen : Nat) (bin : Bytes) (bin_len : Nat) : Option Bytes :=
  if bin_len ≥ SIZE_MAX / 2 ∨ hex_maxlen ≤ (bin_len * 2) % 2 ^ 64 then none
  else
    let hex := forUp 0 bin_len (bin2hex_step bin) hex
    -- the loop leaves `i = bin_len`
    some (hex.set (bin_len * 2) 0)

/-- The conversion of one character of `hex2bin` from ASCII to a nibble: `none` where the
source returns `0U`. -/
def hex2bin_nibble (c : Byte) : Option Byte :=
  if 0x30 ≤ c.val ∧ c.val ≤ 0x39 then some (Byte.ofNat (c.val - 0x30))
  else if 0x61 ≤ c.val ∧ c.val ≤ 0x66 then some (Byte.ofNat (c.val - (0x61 - 10)))
  else none

/-- What `hex2bin` returns, and the buffer `bin` afterwards. -/
structure Hex2binResult where
  ret : Nat
  bin : Bytes
deriving DecidableEq, Repr

/-- The loop of `hex2bin` from index `i`, with `n` iterations left until `i = bin_len`. -/
def hex2bin_loop (hex : Bytes) (bin_len : Nat) : Nat → Nat → Bytes → Hex2binResult
  | 0, _, bin => ⟨bin_len, bin⟩
  | n + 1, i, bin =>
    match hex2bin_nibble (hex.getD (i * 2) 0) with
    | none => ⟨0, bin⟩
    | some c =>
      match hex2bin_nibble (hex.getD (i * 2 + 1) 0) with
      | none => ⟨0, bin⟩
      | some b => hex2bin_loop hex bin_len n (i + 1) (bin.set i (Byte.ofNat ((c.val <<< 4) ||| b.val)))

/-- `hex2bin` converts a hex string into a binary buffer. -/
def hex2bin (bin : Bytes) (bin_maxlen : Nat) (hex : Bytes) (hex_len : Nat) : Hex2binResult :=
  let bin_len := hex_len / 2
  if hex_len % 2 ≠ 0 ∨ bin_len > bin_maxlen then ⟨0, bin⟩
  else hex2bin_loop hex bin_len bin_len 0 bin

/-- What the three `*_from_hex` functions return, and the output buffer afterwards. -/
structure FromHexResult where
  ret : Int
  out : Bytes
deriving DecidableEq, Repr

/-- `ipcrypt_key_from_hex` converts a hexadecimal string to a secret key. -/
def ipcrypt_key_from_hex (key : Bytes) (key_len : Nat) (hex : Bytes) (hex_len : Nat) :
    FromHexResult :=
  if hex_len ≠ 2 * IPCRYPT_KEYBYTES ∧ hex_len ≠ 2 * IPCRYPT_NDX_KEYBYTES then ⟨-1, key⟩
  else
    let r := hex2bin key key_len hex hex_len
    if r.ret ≠ key_len then ⟨-1, r.bin⟩ else ⟨0, r.bin⟩

/-- `ipcrypt_ndip_from_hex` converts a hexadecimal string to an ipcrypt-nd ciphertext. -/
def ipcrypt_ndip_from_hex (ndip : Bytes) (hex : Bytes) (hex_len : Nat) : FromHexResult :=
  if hex_len ≠ 2 * IPCRYPT_NDIP_BYTES then ⟨-1, ndip⟩
  else
    let r := hex2bin ndip IPCRYPT_NDIP_BYTES hex hex_len
    if r.ret ≠ IPCRYPT_NDIP_BYTES then ⟨-1, r.bin⟩ else ⟨0, r.bin⟩

/-- `ipcrypt_ndx_ndip_from_hex` converts a hexadecimal string to an ipcrypt-ndx ciphertext. -/
def ipcrypt_ndx_ndip_from_hex (ndip : Bytes) (hex : Bytes) (hex_len : Nat) : FromHexResult :=
  if hex_len ≠ 2 * IPCRYPT_NDX_NDIP_BYTES then ⟨-1, ndip⟩
  else
    let r := hex2bin ndip IPCRYPT_NDX_NDIP_BYTES hex hex_len
    if r.ret ≠ IPCRYPT_NDX_NDIP_BYTES then ⟨-1, r.bin⟩ else ⟨0, r.bin⟩

/-! ## Reference definitions for the hex codec -/

/-- The lowercase hex digit of a nibble: character `v` of `0123456789abcdef`. -/
def lowerHexDigit (v : Nat) : Byte :=
  [0x30, 0x31, 0x32, 0x33, 0x34, 0x35, 0x36, 0x37, 0x38, 0x39,
   0x61, 0x62, 0x63, 0x64, 0x65, 0x66].getD v 0

/-- A character is one of `0-9` or lowercase `a-f`. -/
def isLowerHex (c : Byte) : Bool :=
  (0x30 ≤ c.val && c.val ≤ 0x39) || (0x61 ≤ c.val && c.val ≤ 0x66)

/-- The value of a hex digit: `0 .. 9` for `0-9` and `10 .. 15` for `a-f`. -/
def hexValue (c : Byte) : Nat :=
  if c.val ≤ 0x39 then c.val - 0x30 else c.val - 0x61 + 10

/-- The lowercase hex encoding of a byte sequence: for every byte the digit of its high nibble,
then the digit of its low nibble. -/
def hexEncode : Bytes → Bytes
  | [] => []
  | x :: xs => lowerHexDigit (x.val / 16) :: lowerHexDigit (x.val % 16) :: hexEncode xs

/-- The bytes that the leading pairs of valid hex digits encode, for at most `n` pairs: decoding
stops at the first pair with a character that is not a hex digit. -/
def hexDecodePrefix : Nat → Bytes → Bytes
  | n + 1, c :: b :: rest =>
    if isLowerHex c && isLowerHex b then
      Byte.ofNat (16 * hexValue c + hexValue b) :: hexDecodePrefix n rest
    else []
  | _, _ => []

/-! ## IP address strings

`inet_pton` and `inet_ntop` belong to the platform, not to this library; the functions below
take them as a parameter. A C string is a buffer of bytes read up to its first NUL. -/

/-- The address families passed to `inet_pton` and `inet_ntop`. -/
inductive AddressFamily where
  | AF_INET
  | AF_INET6
  deriving DecidableEq, Repr

/-- `INET_ADDRSTRLEN` of `<netinet/in.h>`. -/
abbrev INET_ADDRSTRLEN : Nat := 16

/-- `INET6_ADDRSTRLEN` of `<netinet/in.h>`. -/
abbrev INET6_ADDRSTRLEN : Nat := 46

/-- Modelled from the spec: `IPCRYPT_MAX_IP_STR_BYTES` is declared in `include/ipcrypt2.h`, which
is not among the sources; the source asserts that it is at least 46, the room the longest IPv6
string needs with its NUL, and 46 is the value taken here. -/
abbrev IPCRYPT_MAX_IP_STR_BYTES : Nat := 46

/-- Modelled from the spec: `IPCRYPT_NDIP_STR_BYTES` is declared in `include/ipcrypt2.h`, which
is not among the sources; the source asserts that it is `IPCRYPT_NDIP_BYTES * 2 + 1`. -/
abbrev IPCRYPT_NDIP_STR_BYTES : Nat := IPCRYPT_NDIP_BYTES * 2 + 1

/-- Modelled from the spec: `IPCRYPT_NDX_NDIP_STR_BYTES` is declared in `include/ipcrypt2.h`,
which is not among the sources; the source asserts that it is
`IPCRYPT_NDX_NDIP_BYTES * 2 + 1`. -/
abbrev IPCRYPT_NDX_NDIP_STR_BYTES : Nat := IPCRYPT_NDX_NDIP_BYTES * 2 + 1

/-- The platform's address conversions. `inet_pton af s` is given the characters of the C string
`s` and is `some addr` when the call returns 1 and stores `addr`; `inet_ntop af addr size` is
`some s` when the call stores the characters `s` and a NUL in the destination of `size` bytes,
and `none` when it returns `NULL`. -/
structure Libc where
  inet_pton : AddressFamily → Bytes → Option Bytes
  inet_ntop : AddressFamily → Bytes → Nat → Option Bytes

/-- The characters of the C string that starts a buffer: the bytes before the first NUL. -/
def cstr (s : Bytes) : Bytes := s.takeWhile fun c => c != 0

/-- `strlen`. -/
def strlen (s : Bytes) : Nat := (cstr s).length

/-- A buffer after a C string (its characters and a NUL) is stored at its start. -/
def storeStr (dst s : Bytes) : Bytes := s ++ 0 :: dst.drop (s.length + 1)

/-- A status and the 16-byte buffer after the call. -/
structure Ip16Result where
  ret : Int
  ip16 : Bytes
  deriving DecidableEq, Repr

/-- `ipcrypt_str_to_ip16`: IPv6 is tried first, then IPv4, which is stored as an IPv4-mapped
address; -1 and an untouched buffer when neither parses. -/
def ipcrypt_str_to_ip16 (libc : Libc) (ip16 ip_str : Bytes) : Ip16Result :=
  match libc.inet_pton .AF_INET6 (cstr ip_str) with
  | some addr6 => ⟨0, memcpy ip16 addr6 16⟩
  | none =>
    match libc.inet_pton .AF_INET (cstr ip_str) with
    | some addr4 =>
      let ip16 := memset ip16 0 16
      let ip16 := ip16.set 10 0xff
      let ip16 := ip16.set 11 0xff
      ⟨0, atOffset ip16 12 fun p => memcpy p addr4 4⟩
    | none => ⟨-1, ip16⟩

/-- A returned length and the string buffer after the call. -/
structure StrResult where
  ret : Nat
  str : Bytes
  deriving DecidableEq, Repr

/-- The first loop of `ipcrypt_ip16_to_str`, from index `i` with `n` iterations left: the value
of `is_ipv4_mapped` after it, 0 as soon as a non-zero byte is met. -/
def ipv4_mapped_scan (ip16 : Bytes) : Nat → Nat → Nat
  | 0, _ => 1
  | n + 1, i => if ip16.getD i 0 ≠ 0 then 0 else ipv4_mapped_scan ip16 n (i + 1)

/-- `ipcrypt_ip16_to_str`: an IPv4-mapped value is formatted as IPv4, any other as IPv6; the
length of the string, or 0 when the formatter fails. -/
def ipcrypt_ip16_to_str (libc : Libc) (ip_str ip16 : Bytes) : StrResult :=
  let is_ipv4_mapped := ipv4_mapped_scan ip16 10 0
  let is_ipv4_mapped :=
    if is_ipv4_mapped ≠ 0 ∧ (ip16.getD 10 0 ≠ 0xff ∨ ip16.getD 11 0 ≠ 0xff) then 0
    else is_ipv4_mapped
  if is_ipv4_mapped ≠ 0 then
    let addr4 := memcpy (zeros 4) (ip16.drop 12) 4
    match libc.inet_ntop .AF_INET addr4 INET_ADDRSTRLEN with
    | none => ⟨0, ip_str⟩
    | some s =>
      let ip_str := storeStr ip_str s
      ⟨strlen ip_str, ip_str⟩
  else
    let addr6 := memcpy (zeros 16) ip16 16
    match libc.inet_ntop .AF_INET6 addr6 INET6_ADDRSTRLEN with
    | none => ⟨0, ip_str⟩
    | some s =>
      let ip_str := storeStr ip_str s
      ⟨strlen ip_str, ip_str⟩

/-- `ipcrypt_encrypt_ip_str`. The status of `ipcrypt_str_to_ip16` is not looked at; `ip16` is
what the local array of that name holds on entry, which is what gets encrypted when the string
does not parse. -/
def ipcrypt_encrypt_ip_str (arch : Backend) (libc : Libc) (ipcrypt : IPCrypt)
    (encrypted_ip_str ip_str ip16 : Bytes) : StrResult :=
  let ip16 := (ipcrypt_str_to_ip16 libc ip16 ip_str).ip16
  let ip16 := ipcrypt_encrypt_ip16 arch ipcrypt ip16
  ipcrypt_ip16_to_str libc encrypted_ip_str ip16

/-- `ipcrypt_decrypt_ip_str`; `ip16` is what the local array of that name holds on entry. -/
def ipcrypt_decrypt_ip_str (arch : Backend) (libc : Libc) (ipcrypt : IPCrypt)
    (ip_str encrypted_ip_str ip16 : Bytes) : StrResult :=
  let ip_str := memset ip_str 0 IPCRYPT_MAX_IP_STR_BYTES
  let ip16 := (ipcrypt_str_to_ip16 libc ip16 encrypted_ip_str).ip16
  let ip16 := ipcrypt_decrypt_ip16 arch ipcrypt ip16
  ipcrypt_ip16_to_str libc ip_str ip16

/-- `ipcrypt_nd_encrypt_ip_str`. Neither the status of `ipcrypt_str_to_ip16` nor the result of
`bin2hex` is looked at; `ip16` is what the local array of that name holds on entry. -/
def ipcrypt_nd_encrypt_ip_str (arch : Backend) (libc : Libc) (ipcrypt : IPCrypt)
    (encrypted_ip_str ip_str random ip16 : Bytes) : StrResult :=
  let ndip := zeros IPCRYPT_NDIP_BYTES
  let ip16 := (ipcrypt_str_to_ip16 libc ip16 ip_str).ip16
  let ndip := ipcrypt_nd_encrypt_ip16 arch ipcrypt ndip ip16 random
  let encrypted_ip_str :=
    (bin2hex encrypted_ip_str IPCRYPT_NDIP_STR_BYTES ndip IPCRYPT_NDIP_BYTES).getD
      encrypted_ip_str
  ⟨IPCRYPT_NDIP_STR_BYTES - 1, encrypted_ip_str⟩

/-- `ipcrypt_ndx_encrypt_ip_str`, of the same shape over the 32-byte bundle. -/
def ipcrypt_ndx_encrypt_ip_str (arch : Backend) (libc : Libc) (ipcrypt : IPCryptNDX)
    (encrypted_ip_str ip_str random ip16 : Bytes) : StrResult :=
  let ndip := zeros IPCRYPT_NDX_NDIP_BYTES
  let ip16 := (ipcrypt_str_to_ip16 libc ip16 ip_str).ip16
  let ndip := ipcrypt_ndx_encrypt_ip16 arch ipcrypt ndip ip16 random
  let encrypted_ip_str :=
    (bin2hex encrypted_ip_str IPCRYPT_NDX_NDIP_STR_BYTES ndip IPCRYPT_NDX_NDIP_BYTES).getD
      encrypted_ip_str
  ⟨IPCRYPT_NDX_NDIP_STR_BYTES - 1, encrypted_ip_str⟩

/-- The assumption on the platform under which strings round-trip: for every address the
formatter succeeds with a string that fits and has no NUL in it, and the parser gives the address
back from that string; an IPv4 string is not taken for an IPv6 one. -/
def parserInvertsFormatter (libc : Libc) : Prop :=
  (∀ a : Bytes, a.length = 4 →
    ∃ s : Bytes, libc.inet_ntop .AF_INET a INET_ADDRSTRLEN = some s ∧
      s.length < INET_ADDRSTRLEN ∧ (∀ c, c ∈ s → c ≠ 0) ∧
      libc.inet_pton .AF_INET6 s = none ∧ libc.inet_pton .AF_INET s = some a) ∧
  (∀ v : Bytes, v.length = 16 →
    ∃ s : Bytes, libc.inet_ntop .AF_INET6 v INET6_ADDRSTRLEN = some s ∧
      s.length < INET6_ADDRSTRLEN ∧ (∀ c, c ∈ s → c ≠ 0) ∧
      libc.inet_pton .AF_INET6 s = some v)

/-! ## Decrypting hex strings

The local arrays `ip16` and `ndip` of the two functions are written in full before they are
read; they start as zeros here. -/

/-- `ipcrypt_nd_decrypt_ip_str` decrypts a hex-encoded string produced by
`ipcrypt_nd_encrypt_ip_str`. -/
def ipcrypt_nd_decrypt_ip_str (arch : Backend) (libc : Libc) (ipcrypt : IPCrypt)
    (ip_str encrypted_ip_str : Bytes) : StrResult :=
  let ip16 := zeros 16
  let ndip := zeros IPCRYPT_NDIP_BYTES
  let ip_str := memset ip_str 0 IPCRYPT_MAX_IP_STR_BYTES
  let r := hex2bin ndip IPCRYPT_NDIP_BYTES encrypted_ip_str (strlen encrypted_ip_str)
  if r.ret ≠ IPCRYPT_NDIP_BYTES then ⟨0, ip_str⟩
  else
    let ip16 := ipcrypt_nd_decrypt_ip16 arch ipcrypt ip16 r.bin
    ipcrypt_ip16_to_str libc ip_str ip16

/-- `ipcrypt_ndx_decrypt_ip_str` decrypts a hex-encoded string produced by
`ipcrypt_ndx_encrypt_ip_str`. -/
def ipcrypt_ndx_decrypt_ip_str (arch : Backend) (libc : Libc) (ipcrypt : IPCryptNDX)
    (ip_str encrypted_ip_str : Bytes) : StrResult :=
  let ip16 := zeros 16
  let ndip := zeros IPCRYPT_NDX_NDIP_BYTES
  let ip_str := memset ip_str 0 IPCRYPT_MAX_IP_STR_BYTES
  let r := hex2bin ndip IPCRYPT_NDX_NDIP_BYTES encrypted_ip_str (strlen encrypted_ip_str)
  if r.ret ≠ IPCRYPT_NDX_NDIP_BYTES then ⟨0, ip_str⟩
  else
    let ip16 := ipcrypt_ndx_decrypt_ip16 arch ipcrypt ip16 r.bin
    ipcrypt_ip16_to_str libc ip_str ip16

/-! ## Socket addresses

The socket structures belong to the platform. The three views `sockaddr`, `sockaddr_in` and
`sockaddr_in6` of one `sockaddr_storage` share the family field; `sin_addr` and `sin6_addr` are
separate fields of it (nothing here reads the bytes that the two views have in common beyond the
family). -/

/-- The values of the platform's socket headers that the conversions use. `sin_len` says whether
the structures have the length field of the BSD family, which selects the `#if` branch of
`ipcrypt_ip16_to_sockaddr`. -/
structure Sockets where
  AF_INET : Nat
  AF_INET6 : Nat
  sin_len : Bool
  sizeof_sockaddr_in : Nat
  sizeof_sockaddr_in6 : Nat
  deriving DecidableEq, Repr

/-- The fields of a `struct sockaddr_storage` that the conversions touch: the length field (zero
where the platform has none), the family, and the address of each of the two views. -/
structure sockaddr_storage where
  ss_len : Nat
  ss_family : Nat
  sin_addr : Bytes
  sin6_addr : Bytes
  deriving DecidableEq, Repr

/-- A `sockaddr_storage` after `memset(sa, 0, sizeof *sa)`. -/
def sockaddr_storage.zero : sockaddr_storage := ⟨0, 0, zeros 4, zeros 16⟩

/-- `memcmp`: zero when the first `n` bytes agree, else the difference of the first pair of
bytes that differ. -/
def memcmp : Bytes → Bytes → Nat → Int
  | _, _, 0 => 0
  | a, b, n + 1 =>
    if a.getD 0 0 = b.getD 0 0 then memcmp (a.drop 1) (b.drop 1) n
    else ((a.getD 0 0).val : Int) - ((b.getD 0 0).val : Int)

/-- `ipcrypt_sockaddr_to_ip16` converts a socket address to a 16-byte IP: the status and the
buffer `ip16` afterwards. -/
def ipcrypt_sockaddr_to_ip16 (os : Sockets) (ip16 : Bytes) (sa : sockaddr_storage) :
    Ip16Result :=
  if sa.ss_family = os.AF_INET then
    let ip16 := memset ip16 0 10
    let ip16 := ip16.set 10 0xff
    let ip16 := ip16.set 11 0xff
    ⟨0, atOffset ip16 12 fun p => memcpy p sa.sin_addr 4⟩
  else if sa.ss_family = os.AF_INET6 then ⟨0, memcpy ip16 sa.sin6_addr 16⟩
  else ⟨-1, ip16⟩

/-- `ipcrypt_ip16_to_sockaddr` converts a 16-byte IP to a socket address: the storage
afterwards. What the storage held before is overwritten by the `memset`. -/
def ipcrypt_ip16_to_sockaddr (os : Sockets) (ip16 : Bytes) : sockaddr_storage :=
  let ipv4_mapped : Bytes := [0, 0, 0, 0, 0, 0, 0, 0, 0, 0, 0xff, 0xff]
  let sa := sockaddr_storage.zero
  if memcmp ip16 ipv4_mapped ipv4_mapped.length = 0 then
    let s := { sa with ss_family := os.AF_INET }
    let s := { s with sin_addr := memcpy s.sin_addr (ip16.drop 12) 4 }
    if os.sin_len then { s with ss_len := os.sizeof_sockaddr_in } else s
  else
    let s := { sa with ss_family := os.AF_INET6 }
    let s := { s with sin6_addr := memcpy s.sin6_addr ip16 16 }
    if os.sin_len then { s with ss_len := os.sizeof_sockaddr_in6 } else s

/-- The IPv4-mapped form as the specification words it: bytes 0 to 9 are zero and bytes 10 and
11 are `ff`. -/
def isIPv4Mapped (ip16 : Bytes) : Prop :=
  (∀ i, i < 10 → ip16.getD i 0 = 0) ∧ ip16.getD 10 0 = 0xff ∧ ip16.getD 11 0 = 0xff

/-! ## Concrete inputs -/

/-- The key `000102030405060708090a0b0c0d0e0f` of the FIPS 197 example vector. -/
def fipsKey : Bytes :=
  [0x00, 0x01, 0x02, 0x03, 0x04, 0x05, 0x06, 0x07, 0x08, 0x09, 0x0a, 0x0b, 0x0c, 0x0d, 0x0e, 0x0f]

/-- The block `00112233445566778899aabbccddeeff` of the FIPS 197 example vector. -/
def fipsPlain : Bytes :=
  [0x00, 0x11, 0x22, 0x33, 0x44, 0x55, 0x66, 0x77, 0x88, 0x99, 0xaa, 0xbb, 0xcc, 0xdd, 0xee, 0xff]

/-- The ciphertext `69c4e0d86a7b0430d8cdb78070b4c55a` of the FIPS 197 example vector. -/
def fipsCipher : Bytes :=
  [0x69, 0xc4, 0xe0, 0xd8, 0x6a, 0x7b, 0x04, 0x30, 0xd8, 0xcd, 0xb7, 0x80, 0x70, 0xb4, 0xc5, 0x5a]

/-- The 32-byte key `00 01 .. 1f` of the NDX scenario of the specification. -/
def ndxKey : Bytes := fipsKey ++
  [0x10, 0x11, 0x12, 0x13, 0x14, 0x15, 0x16, 0x17, 0x18, 0x19, 0x1a, 0x1b, 0x1c, 0x1d, 0x1e, 0x1f]

/-- The tweak `0001020304050607` of the ND scenario of the specification. -/
def ndTweak : Bytes := [0x00, 0x01, 0x02, 0x03, 0x04, 0x05, 0x06, 0x07]

/-- The address `192.0.2.1` as an IPv4-mapped block, `00000000000000000000ffffc0000201`. -/
def ipBlock : Bytes :=
  [0x00, 0x00, 0x00, 0x00, 0x00, 0x00, 0x00, 0x00, 0x00, 0x00, 0xff, 0xff, 0xc0, 0x00, 0x02, 0x01]

/-! ## A small platform for examples

A platform whose address strings are the lowercase hex digits of the address bytes: 8 characters
for IPv4, 32 for IPv6. Its parser inverts its formatter. -/

/-- The parser of the example platform for addresses of `n` bytes. -/
def hexParse (n : Nat) (s : Bytes) : Option Bytes :=
  if s.length = 2 * n ∧ (hexDecodePrefix n s).length = n then some (hexDecodePrefix n s)
  else none

/-- The formatter of the example platform. -/
def hexFormat (addr : Bytes) (size : Nat) : Option Bytes :=
  if 2 * addr.length < size then some (hexEncode addr) else none

/-- The example platform. -/
def hexLibc : Libc where
  inet_pton := fun af s =>
    match af with
    | .AF_INET => hexParse 4 s
    | .AF_INET6 => hexParse 16 s
  inet_ntop := fun _ addr size => hexFormat addr size

/-- The characters of `not an ip`, with the NUL. -/
def notAnIp : Bytes := [0x6e, 0x6f, 0x74, 0x20, 0x61, 0x6e, 0x20, 0x69, 0x70, 0x00]

/-- The hex digits of `c0000201` with a NUL: the string of 192.0.2.1 on the example platform. -/
def hexIp4 : Bytes := [0x63, 0x30, 0x30, 0x30, 0x30, 0x32, 0x30, 0x31, 0x00]

/-- The 16-byte value of `2001:db8::1`. -/
def ip6Example : Bytes :=
  [0x20, 0x01, 0x0d, 0xb8, 0, 0, 0, 0, 0, 0, 0, 0, 0, 0, 0, 0x01]

/-- A 24-byte buffer of `ff` bytes. -/
def ff24 : Bytes := List.replicate 24 0xff

/-- The 48 characters `000...0g`: 47 zeros and a character that is no hex digit. -/
def hexBadLast : Bytes := List.replicate 47 0x30 ++ [0x67]

/-- The 8 characters `01abff90`. -/
def hex8 : Bytes := [0x30, 0x31, 0x61, 0x62, 0x66, 0x66, 0x39, 0x30]

/-- The 4 bytes `01 ab ff 90`. -/
def bin4 : Bytes := [0x01, 0xab, 0xff, 0x90]

/-- The socket constants of Linux, which has no length field. -/
def linuxSockets : Sockets := ⟨2, 10, false, 16, 28⟩

/-- The socket constants of FreeBSD, which has the length field. -/
def bsdSockets : Sockets := ⟨2, 28, true, 16, 28⟩

/-- The 48 hex digits of the 24 bytes `00 01 .. 17`, with the last digit replaced by `G`, and a
NUL. -/
def hexUpperLast : Bytes :=
  [0x30, 0x30, 0x30, 0x31, 0x30, 0x32, 0x30, 0x33, 0x30, 0x34, 0x30, 0x35, 0x30, 0x36, 0x30,
    0x37, 0x30, 0x38, 0x30, 0x39, 0x30, 0x61, 0x30, 0x62, 0x30, 0x63, 0x30, 0x64, 0x30, 0x65,
    0x30, 0x66, 0x31, 0x30, 0x31, 0x31, 0x31, 0x32, 0x31, 0x33, 0x31, 0x34, 0x31, 0x35, 0x31,
    0x36, 0x31, 0x47, 0x00]

/-! ## The examples of the specification

The key `2b7e151628aed2a6abf7158809cf4f3c` and the strings `192.0.2.1` and `2001:db8::1`, with a
platform that reads and writes these two strings as every platform does and uses hex digits for
every other address. -/

/-- The key `2b7e151628aed2a6abf7158809cf4f3c` of the scenarios of the specification. -/
def specKey : Bytes :=
  [0x2b, 0x7e, 0x15, 0x16, 0x28, 0xae, 0xd2, 0xa6, 0xab, 0xf7, 0x15, 0x88, 0x09, 0xcf, 0x4f, 0x3c]

/-- The characters of `192.0.2.1`. -/
def dottedQuad : Bytes := [0x31, 0x39, 0x32, 0x2e, 0x30, 0x2e, 0x32, 0x2e, 0x31]

/-- The four address bytes of 192.0.2.1. -/
def dottedQuadAddr : Bytes := [0xc0, 0x00, 0x02, 0x01]

/-- The characters of `2001:db8::1`. -/
def colonHex : Bytes := [0x32, 0x30, 0x30, 0x31, 0x3a, 0x64, 0x62, 0x38, 0x3a, 0x3a, 0x31]

/-- The 32 hex digits `1dbdc1b9fff175867d0b67b4e76e4777`: the string, on the example platform,
of the address `1dbd:c1b9:fff1:7586:7d0b:67b4:e76e:4777`. -/
def encryptedDottedQuad : Bytes :=
  [0x31, 0x64, 0x62, 0x64, 0x63, 0x31, 0x62, 0x39, 0x66, 0x66, 0x66, 0x31, 0x37, 0x35, 0x38,
    0x36, 0x37, 0x64, 0x30, 0x62, 0x36, 0x37, 0x62, 0x34, 0x65, 0x37, 0x36, 0x65, 0x34, 0x37,
    0x37, 0x37]

/-- The example platform with the two strings of the specification: `192.0.2.1` is the string of
the IPv4 address `c0 00 02 01` and `2001:db8::1` the string of the IPv6 address
`2001:0db8:0:0:0:0:0:1`; every other address is read and written as hex digits. -/
def specLibc : Libc where
  inet_pton := fun af s =>
    match af with
    | .AF_INET => if s = dottedQuad then some dottedQuadAddr else hexParse 4 s
    | .AF_INET6 => if s = colonHex then some ip6Example else hexParse 16 s
  inet_ntop := fun af addr size =>
    match af with
    | .AF_INET =>
      if addr = dottedQuadAddr then (if dottedQuad.length < size then some dottedQuad else none)
      else hexFormat addr size
    | .AF_INET6 =>
      if addr = ip6Example then (if colonHex.length < size then some colonHex else none)
      else hexFormat addr size

/-! ## Exhaustive checks over bytes -/

/-- Bounded universal check, for exhaustive byte arguments. -/
def allBelow : Nat → (Nat → Bool) → Bool
  | 0, _ => true
  | n + 1, p => p n && allBelow n p

open FIPS197

/-! ## Basic facts -/

theorem allBelow_spec : ∀ n p, allBelow n p = true → ∀ a < n, p a = true
  | 0, _, _, a, h => absurd h (Nat.not_lt_zero a)
  | n + 1, p, hp, a, h => by
    simp only [allBelow, Bool.and_eq_true] at hp
    rcases Nat.lt_succ_iff_lt_or_eq.mp h with h1 | h1
    · exact allBelow_spec n p hp.2 a h1
    · exact h1 ▸ hp.1

theorem byte_xor_val (a b : Byte) : (a ^^^ b).val = a.val ^^^ b.val := by
  show (a.val ^^^ b.val) % 256 = a.val ^^^ b.val
  exact Nat.mod_eq_of_lt (Nat.xor_lt_two_pow (n := 8) a.isLt b.isLt)

theorem byte_xor_comm (a b : Byte) : a ^^^ b = b ^^^ a := by
  apply Fin.ext; rw [byte_xor_val, byte_xor_val, Nat.xor_comm]

theorem byte_xor_assoc (a b c : Byte) : a ^^^ b ^^^ c = a ^^^ (b ^^^ c) := by
  apply Fin.ext; simp only [byte_xor_val, Nat.xor_assoc]

theorem byte_xor_left_comm (a b c : Byte) : a ^^^ (b ^^^ c) = b ^^^ (a ^^^ c) := by
  rw [← byte_xor_assoc, ← byte_xor_assoc, byte_xor_comm a b]

theorem byte_xor_self (a : Byte) : a ^^^ a = 0 := by
  apply Fin.ext; rw [byte_xor_val, Nat.xor_self]; rfl

theorem byte_xor_zero (a : Byte) : a ^^^ 0 = a := by
  apply Fin.ext; rw [byte_xor_val]; exact Nat.xor_zero _

theorem byte_zero_xor (a : Byte) : 0 ^^^ a = a := by
  rw [byte_xor_comm, byte_xor_zero]

theorem byte_xor_self_left (a b : Byte) : a ^^^ (a ^^^ b) = b := by
  rw [← byte_xor_assoc, byte_xor_self, byte_zero_xor]

set_option maxRecDepth 100000 in
theorem InvSubByte_SubByte : ∀ b : Byte, InvSubByte (SubByte b) = b := by decide!

set_option maxRecDepth 100000 in
theorem SubByte_InvSubByte : ∀ b : Byte, SubByte (InvSubByte b) = b := by decide!

set_option maxRecDepth 100000 in
theorem xtime_xor_check :
    allBelow 256 (fun a => allBelow 256 fun b =>
      (((a ^^^ b) <<< 1) ^^^ (((a ^^^ b) >>> 7) * 0x1b)) % 256 ==
        ((a <<< 1) ^^^ ((a >>> 7) * 0x1b)) % 256 ^^^ ((b <<< 1) ^^^ ((b >>> 7) * 0x1b)) % 256)
      = true := by
  decide!

theorem xtime_xor (a b : Byte) : xtime (a ^^^ b) = xtime a ^^^ xtime b := by
  have h := allBelow_spec 256 _ (allBelow_spec 256 _ xtime_xor_check a.val a.isLt) b.val b.isLt
  have h' := beq_iff_eq.mp h
  apply Fin.ext
  rw [byte_xor_val]
  simpa only [xtime, byte_xor_val, Byte.ofNat] using h'

/-! ## Facts about the state transformations -/

instance : Std.Associative (α := Byte) (· ^^^ ·) := ⟨byte_xor_assoc⟩

instance : Std.Commutative (α := Byte) (· ^^^ ·) := ⟨byte_xor_comm⟩

theorem mul3_xor (a b : Byte) : mul3 (a ^^^ b) = mul3 a ^^^ mul3 b := by
  simp only [mul3, xtime_xor]; ac_rfl

theorem mul9_xor (a b : Byte) : mul9 (a ^^^ b) = mul9 a ^^^ mul9 b := by
  simp only [mul9, xtime_xor]; ac_rfl

theorem mul11_xor (a b : Byte) : mul11 (a ^^^ b) = mul11 a ^^^ mul11 b := by
  simp only [mul11, xtime_xor]; ac_rfl

theorem mul13_xor (a b : Byte) : mul13 (a ^^^ b) = mul13 a ^^^ mul13 b := by
  simp only [mul13, xtime_xor]; ac_rfl

theorem mul14_xor (a b : Byte) : mul14 (a ^^^ b) = mul14 a ^^^ mul14 b := by
  simp only [mul14, xtime_xor]; ac_rfl

set_option maxRecDepth 100000 in
theorem gf_inv_diag : ∀ a : Byte,
    mul14 (xtime a) ^^^ mul11 a ^^^ mul13 a ^^^ mul9 (mul3 a) = a := by decide!

set_option maxRecDepth 100000 in
theorem gf_inv_off1 : ∀ a : Byte,
    mul14 (mul3 a) ^^^ mul11 (xtime a) ^^^ mul13 a ^^^ mul9 a = 0 := by decide!

set_option maxRecDepth 100000 in
theorem gf_inv_off2 : ∀ a : Byte,
    mul14 a ^^^ mul11 (mul3 a) ^^^ mul13 (xtime a) ^^^ mul9 a = 0 := by decide!

set_option maxRecDepth 100000 in
theorem gf_inv_off3 : ∀ a : Byte,
    mul14 a ^^^ mul11 a ^^^ mul13 (mul3 a) ^^^ mul9 (xtime a) = 0 := by decide!

/-- One output byte of `InvMixColumns` after `MixColumns`, on a column `a b c d` read cyclically
from the row of the output byte. -/
theorem invMix_mix_byte (a b c d : Byte) :
    mul14 (xtime a ^^^ mul3 b ^^^ c ^^^ d) ^^^ mul11 (xtime b ^^^ mul3 c ^^^ d ^^^ a)
      ^^^ mul13 (xtime c ^^^ mul3 d ^^^ a ^^^ b) ^^^ mul9 (xtime d ^^^ mul3 a ^^^ b ^^^ c) = a := by
  simp only [mul9_xor, mul11_xor, mul13_xor, mul14_xor]
  calc _ = (mul14 (xtime a) ^^^ mul11 a ^^^ mul13 a ^^^ mul9 (mul3 a))
          ^^^ ((mul14 (mul3 b) ^^^ mul11 (xtime b) ^^^ mul13 b ^^^ mul9 b)
          ^^^ ((mul14 c ^^^ mul11 (mul3 c) ^^^ mul13 (xtime c) ^^^ mul9 c)
          ^^^ (mul14 d ^^^ mul11 d ^^^ mul13 (mul3 d) ^^^ mul9 (xtime d)))) := by ac_rfl
    _ = a := by
      rw [gf_inv_diag, gf_inv_off1, gf_inv_off2, gf_inv_off3]
      simp only [byte_xor_zero]

set_option maxRecDepth 100000 in
theorem gf_mix_diag : ∀ a : Byte,
    xtime (mul14 a) ^^^ mul3 (mul9 a) ^^^ mul13 a ^^^ mul11 a = a := by decide!

set_option maxRecDepth 100000 in
theorem gf_mix_off1 : ∀ a : Byte,
    xtime (mul11 a) ^^^ mul3 (mul14 a) ^^^ mul9 a ^^^ mul13 a = 0 := by decide!

set_option maxRecDepth 100000 in
theorem gf_mix_off2 : ∀ a : Byte,
    xtime (mul13 a) ^^^ mul3 (mul11 a) ^^^ mul14 a ^^^ mul9 a = 0 := by decide!

set_option maxRecDepth 100000 in
theorem gf_mix_off3 : ∀ a : Byte,
    xtime (mul9 a) ^^^ mul3 (mul13 a) ^^^ mul11 a ^^^ mul14 a = 0 := by decide!

/-- One output byte of `MixColumns` after `InvMixColumns`, on a column `a b c d` read cyclically
from the row of the output byte. -/
theorem mix_invMix_byte (a b c d : Byte) :
    xtime (mul14 a ^^^ mul11 b ^^^ mul13 c ^^^ mul9 d)
      ^^^ mul3 (mul14 b ^^^ mul11 c ^^^ mul13 d ^^^ mul9 a)
      ^^^ (mul14 c ^^^ mul11 d ^^^ mul13 a ^^^ mul9 b)
      ^^^ (mul14 d ^^^ mul11 a ^^^ mul13 b ^^^ mul9 c) = a := by
  simp only [xtime_xor, mul3_xor]
  calc _ = (xtime (mul14 a) ^^^ mul3 (mul9 a) ^^^ mul13 a ^^^ mul11 a)
          ^^^ ((xtime (mul11 b) ^^^ mul3 (mul14 b) ^^^ mul9 b ^^^ mul13 b)
          ^^^ ((xtime (mul13 c) ^^^ mul3 (mul11 c) ^^^ mul14 c ^^^ mul9 c)
          ^^^ (xtime (mul9 d) ^^^ mul3 (mul13 d) ^^^ mul11 d ^^^ mul14 d))) := by ac_rfl
    _ = a := by
      rw [gf_mix_diag, gf_mix_off1, gf_mix_off2, gf_mix_off3]
      simp only [byte_xor_zero]

/-- One output byte of `InvMixColumns` distributes over exclusive or. -/
theorem invMix_xor_byte (a b c d a' b' c' d' : Byte) :
    mul14 (a ^^^ a') ^^^ mul11 (b ^^^ b') ^^^ mul13 (c ^^^ c') ^^^ mul9 (d ^^^ d')
      = (mul14 a ^^^ mul11 b ^^^ mul13 c ^^^ mul9 d)
        ^^^ (mul14 a' ^^^ mul11 b' ^^^ mul13 c' ^^^ mul9 d') := by
  simp only [mul9_xor, mul11_xor, mul13_xor, mul14_xor]; ac_rfl

theorem block_xor_xor_cancel (a k : Block) : (a.xor k).xor k = a := by
  cases a; cases k
  simp [Block.xor, Block.ofFn, Block.get, byte_xor_assoc, byte_xor_self, byte_xor_zero]

theorem block_xor_comm (a b : Block) : a.xor b = b.xor a := by
  cases a; cases b
  simp only [Block.xor, Block.ofFn, Block.get, Block.mk.injEq]
  simp only [byte_xor_comm, and_self]

theorem block_xor_assoc (a b c : Block) : (a.xor b).xor c = a.xor (b.xor c) := by
  cases a; cases b; cases c
  simp [Block.xor, Block.ofFn, Block.get, byte_xor_assoc]

theorem block_xor_zero (a : Block) : a.xor Block.zero = a := by
  cases a
  simp [Block.xor, Block.zero, Block.ofFn, Block.get, byte_xor_zero]

theorem block_xor_self (a : Block) : a.xor a = Block.zero := by
  cases a
  simp [Block.xor, Block.zero, Block.ofFn, Block.get, byte_xor_self]

theorem InvSubBytes_SubBytes (x : Block) : InvSubBytes (SubBytes x) = x := by
  cases x
  simp [InvSubBytes, SubBytes, Block.ofFn, Block.get, InvSubByte_SubByte]

theorem SubBytes_InvSubBytes (x : Block) : SubBytes (InvSubBytes x) = x := by
  cases x
  simp [InvSubBytes, SubBytes, Block.ofFn, Block.get, SubByte_InvSubByte]

theorem InvShiftRows_ShiftRows (x : Block) : InvShiftRows (ShiftRows x) = x := by
  cases x
  simp [InvShiftRows, ShiftRows, Block.ofFn, Block.get]

theorem ShiftRows_InvShiftRows (x : Block) : ShiftRows (InvShiftRows x) = x := by
  cases x
  simp [InvShiftRows, ShiftRows, Block.ofFn, Block.get]

theorem SubBytes_ShiftRows (x : Block) : SubBytes (ShiftRows x) = ShiftRows (SubBytes x) := by
  cases x
  simp [SubBytes, ShiftRows, Block.ofFn, Block.get]

theorem InvSubBytes_InvShiftRows (x : Block) :
    InvSubBytes (InvShiftRows x) = InvShiftRows (InvSubBytes x) := by
  cases x
  simp [InvSubBytes, InvShiftRows, Block.ofFn, Block.get]

theorem InvMixColumns_xor (a b : Block) :
    InvMixColumns (a.xor b) = (InvMixColumns a).xor (InvMixColumns b) := by
  cases a; cases b
  simp only [InvMixColumns, Block.xor, Block.ofFn, Block.get, Nat.reduceMod, Nat.reduceDiv,
    Nat.reduceAdd, Nat.reduceMul, invMix_xor_byte]

theorem InvMixColumns_MixColumns (x : Block) : InvMixColumns (MixColumns x) = x := by
  cases x
  simp only [InvMixColumns, MixColumns, Block.ofFn, Block.get, Nat.reduceMod, Nat.reduceDiv,
    Nat.reduceAdd, Nat.reduceMul, invMix_mix_byte]

theorem MixColumns_InvMixColumns (x : Block) : MixColumns (InvMixColumns x) = x := by
  cases x
  simp only [InvMixColumns, MixColumns, Block.ofFn, Block.get, Nat.reduceMod, Nat.reduceDiv,
    Nat.reduceAdd, Nat.reduceMul, mix_invMix_byte]

/-! ## The source, rewritten over the FIPS 197 transformations -/

theorem LOAD128_eq (arch : Backend) (a : Bytes) : LOAD128 arch a = Block.ofList a := by
  cases arch <;> rfl

theorem STORE128_eq (arch : Backend) (a : Bytes) (b : Block) :
    STORE128 arch a b = b.toList ++ a.drop 16 := by
  cases arch <;> rfl

theorem XOR128_eq (arch : Backend) (a b : Block) : XOR128 arch a b = a.xor b := by
  cases arch <;> rfl

theorem XOR128_3_eq (arch : Backend) (a b c : Block) :
    XOR128_3 arch a b c = (a.xor b).xor c := by
  cases arch <;> rfl

theorem RKINVERT_eq (arch : Backend) (k : Block) : RKINVERT arch k = InvMixColumns k := by
  cases arch <;> rfl

theorem AES_ENCRYPT_eq (t k : Block) :
    AES_ENCRYPT t k = AddRoundKey (MixColumns (ShiftRows (SubBytes t))) k := by
  simp only [AES_ENCRYPT, _mm_aesenc_si128, AddRoundKey, SubBytes_ShiftRows]

theorem AES_ENCRYPTLAST_eq (t k : Block) :
    AES_ENCRYPTLAST t k = AddRoundKey (ShiftRows (SubBytes t)) k := by
  simp only [AES_ENCRYPTLAST, _mm_aesenclast_si128, AddRoundKey, SubBytes_ShiftRows]

theorem AES_DECRYPT_eq (t k : Block) :
    AES_DECRYPT t (InvMixColumns k)
      = InvMixColumns (AddRoundKey (InvSubBytes (InvShiftRows t)) k) := by
  simp only [AES_DECRYPT, _mm_aesdec_si128, AddRoundKey, InvMixColumns_xor]

theorem AES_DECRYPTLAST_eq (t k : Block) :
    AES_DECRYPTLAST t k = AddRoundKey (InvSubBytes (InvShiftRows t)) k := by
  simp only [AES_DECRYPTLAST, _mm_aesdeclast_si128, AddRoundKey]

theorem AES_XENCRYPT_eq (t k : Block) :
    AES_XENCRYPT t k = MixColumns (ShiftRows (SubBytes (AddRoundKey t k))) := by
  simp only [AES_XENCRYPT, vaesmcq_u8, vaeseq_u8, AddRoundKey, SubBytes_ShiftRows,
    block_xor_comm k t]

theorem AES_XENCRYPTLAST_eq (t k : Block) :
    AES_XENCRYPTLAST t k = ShiftRows (SubBytes (AddRoundKey t k)) := by
  simp only [AES_XENCRYPTLAST, vaeseq_u8, AddRoundKey, SubBytes_ShiftRows, block_xor_comm k t]

theorem AES_XDECRYPT_eq (t k : Block) :
    AES_XDECRYPT t k = InvMixColumns (InvSubBytes (InvShiftRows (AddRoundKey t k))) := by
  simp only [AES_XDECRYPT, vaesimcq_u8, vaesdq_u8, AddRoundKey, block_xor_comm k t]

theorem AES_XDECRYPTLAST_eq (t k : Block) :
    AES_XDECRYPTLAST t k = InvSubBytes (InvShiftRows (AddRoundKey t k)) := by
  simp only [AES_XDECRYPTLAST, vaesdq_u8, AddRoundKey, block_xor_comm k t]

theorem forUp_1_10 {σ : Type} (f : Nat → σ → σ) (s : σ) :
    forUp 1 10 f s = f 9 (f 8 (f 7 (f 6 (f 5 (f 4 (f 3 (f 2 (f 1 s)))))))) := rfl

theorem forUp_1_9 {σ : Type} (f : Nat → σ → σ) (s : σ) :
    forUp 1 9 f s = f 8 (f 7 (f 6 (f 5 (f 4 (f 3 (f 2 (f 1 s))))))) := rfl

theorem forUp_0_9 {σ : Type} (f : Nat → σ → σ) (s : σ) :
    forUp 0 9 f s = f 8 (f 7 (f 6 (f 5 (f 4 (f 3 (f 2 (f 1 (f 0 s)))))))) := rfl

theorem forUp_0_8 {σ : Type} (f : Nat → σ → σ) (s : σ) :
    forUp 0 8 f s = f 7 (f 6 (f 5 (f 4 (f 3 (f 2 (f 1 (f 0 s))))))) := rfl

theorem forDown_9_0 {σ : Type} (f : Nat → σ → σ) (s : σ) :
    forDown 9 0 f s = f 1 (f 2 (f 3 (f 4 (f 5 (f 6 (f 7 (f 8 (f 9 s)))))))) := rfl

theorem forDown_9_1 {σ : Type} (f : Nat → σ → σ) (s : σ) :
    forDown 9 1 f s = f 2 (f 3 (f 4 (f 5 (f 6 (f 7 (f 8 (f 9 s))))))) := rfl

theorem invert_keys_at (arch : Backend) (rkeys : KeySchedule) (i : Nat) (h : i < 9) :
    InvKeySchedule.at (invert_keys arch rkeys) i = InvMixColumns (rkeys.at (9 - i)) := by
  have h0 : ∀ k, RKINVERT arch k = InvMixColumns k := RKINVERT_eq arch
  interval_cases i <;> exact h0 _

/-- `aes_encrypt` is the FIPS 197 cipher on the block at `x`, run with the round keys of
`st`. -/
theorem aes_encrypt_eq (arch : Backend) (x : Bytes) (st : AesState) :
    aes_encrypt arch x st = (Cipher (Block.ofList x) st.rkeys.at).toList ++ x.drop 16 := by
  cases arch
  · simp only [aes_encrypt, Cipher, LOAD128_eq, STORE128_eq, XOR128_eq, AES_XENCRYPT_eq,
      AES_XENCRYPTLAST_eq, ROUNDS, Nat.reduceSub, forUp_1_10, forUp_1_9, AddRoundKey]
  · simp only [aes_encrypt, Cipher, LOAD128_eq, STORE128_eq, XOR128_eq, AES_ENCRYPT_eq,
      AES_ENCRYPTLAST_eq, AddRoundKey]

/-- `aes_decrypt` is the FIPS 197 inverse cipher on the block at `x`, run with the round keys of
`st`. -/
theorem aes_decrypt_eq (arch : Backend) (x : Bytes) (st : AesState) :
    aes_decrypt arch x st = (InvCipher (Block.ofList x) st.rkeys.at).toList ++ x.drop 16 := by
  cases arch
  · simp only [aes_decrypt, InvCipher, LOAD128_eq, STORE128_eq, XOR128_eq, AES_XDECRYPT_eq,
      AES_XDECRYPTLAST_eq, ROUNDS, Nat.reduceSub, forUp_0_8, forDown_9_0, AddRoundKey,
      invert_keys_at, Nat.reduceLT, ← InvMixColumns_xor]
  · simp only [aes_decrypt, InvCipher, LOAD128_eq, STORE128_eq, XOR128_eq,
      AES_DECRYPTLAST_eq, ROUNDS, Nat.reduceSub, forUp_0_9, forDown_9_0, invert_keys_at,
      Nat.reduceLT, AES_DECRYPT_eq, AddRoundKey]

/-! ## The tweak expansion and the key expansion -/

theorem le16_byte0 (a b : Byte) : Byte.ofNat ((a.val + 256 * b.val) >>> (8 * 0)) = a := by
  apply Fin.ext
  simp only [Byte.ofNat, Nat.shiftRight_eq_div_pow]
  omega

theorem le16_byte1 (a b : Byte) : Byte.ofNat ((a.val + 256 * b.val) >>> (8 * 1)) = b := by
  apply Fin.ext
  simp only [Byte.ofNat, Nat.shiftRight_eq_div_pow]
  omega

theorem le16_byte2 (a b : Byte) : Byte.ofNat ((a.val + 256 * b.val) >>> (8 * 2)) = 0 := by
  apply Fin.ext
  simp only [Byte.ofNat, Nat.shiftRight_eq_div_pow]
  have := a.isLt
  have := b.isLt
  show (a.val + 256 * b.val) / 2 ^ (8 * 2) % 256 = 0
  omega

theorem le16_byte3 (a b : Byte) : Byte.ofNat ((a.val + 256 * b.val) >>> (8 * 3)) = 0 := by
  apply Fin.ext
  simp only [Byte.ofNat, Nat.shiftRight_eq_div_pow]
  have := a.isLt
  have := b.isLt
  show (a.val + 256 * b.val) / 2 ^ (8 * 3) % 256 = 0
  omega

/-- Both versions of `TWEAK_EXPAND` produce the layout of the specification. -/
theorem TWEAK_EXPAND_eq (arch : Backend) (tweak : Bytes) :
    TWEAK_EXPAND arch tweak = expandedTweak tweak := by
  cases arch
  · have e : TWEAK_EXPAND .aarch64 tweak
        = ⟨Byte.ofNat (((tweak.getD 0 0).val + 256 * (tweak.getD 1 0).val) >>> (8 * 0)),
           Byte.ofNat (((tweak.getD 0 0).val + 256 * (tweak.getD 1 0).val) >>> (8 * 1)),
           Byte.ofNat (((tweak.getD 0 0).val + 256 * (tweak.getD 1 0).val) >>> (8 * 2)),
           Byte.ofNat (((tweak.getD 0 0).val + 256 * (tweak.getD 1 0).val) >>> (8 * 3)),
           Byte.ofNat (((tweak.getD 2 0).val + 256 * (tweak.getD 3 0).val) >>> (8 * 0)),
           Byte.ofNat (((tweak.getD 2 0).val + 256 * (tweak.getD 3 0).val) >>> (8 * 1)),
           Byte.ofNat (((tweak.getD 2 0).val + 256 * (tweak.getD 3 0).val) >>> (8 * 2)),
           Byte.ofNat (((tweak.getD 2 0).val + 256 * (tweak.getD 3 0).val) >>> (8 * 3)),
           Byte.ofNat (((tweak.getD 4 0).val + 256 * (tweak.getD 5 0).val) >>> (8 * 0)),
           Byte.ofNat (((tweak.getD 4 0).val + 256 * (tweak.getD 5 0).val) >>> (8 * 1)),
           Byte.ofNat (((tweak.getD 4 0).val + 256 * (tweak.getD 5 0).val) >>> (8 * 2)),
           Byte.ofNat (((tweak.getD 4 0).val + 256 * (tweak.getD 5 0).val) >>> (8 * 3)),
           Byte.ofNat (((tweak.getD 6 0).val + 256 * (tweak.getD 7 0).val) >>> (8 * 0)),
           Byte.ofNat (((tweak.getD 6 0).val + 256 * (tweak.getD 7 0).val) >>> (8 * 1)),
           Byte.ofNat (((tweak.getD 6 0).val + 256 * (tweak.getD 7 0).val) >>> (8 * 2)),
           Byte.ofNat (((tweak.getD 6 0).val + 256 * (tweak.getD 7 0).val) >>> (8 * 3))⟩ := rfl
    rw [e]
    simp only [le16_byte0, le16_byte1, le16_byte2, le16_byte3, expandedTweak]
  · rfl

/-- The round-constant register of the AArch64 `AES_KEYGEN`: `rc` in bytes 4 and 12. -/
theorem SET64x2_rc (rc : Nat) (h : rc < 256) :
    SET64x2 .aarch64 (rc <<< 32) (rc <<< 32)
      = ⟨0, 0, 0, 0, Byte.ofNat rc, 0, 0, 0, 0, 0, 0, 0, Byte.ofNat rc, 0, 0, 0⟩ := by
  have e : SET64x2 .aarch64 (rc <<< 32) (rc <<< 32)
      = ⟨Byte.ofNat (((rc <<< 32) % 2 ^ 64) >>> (8 * 0)),
         Byte.ofNat (((rc <<< 32) % 2 ^ 64) >>> (8 * 1)),
         Byte.ofNat (((rc <<< 32) % 2 ^ 64) >>> (8 * 2)),
         Byte.ofNat (((rc <<< 32) % 2 ^ 64) >>> (8 * 3)),
         Byte.ofNat (((rc <<< 32) % 2 ^ 64) >>> (8 * 4)),
         Byte.ofNat (((rc <<< 32) % 2 ^ 64) >>> (8 * 5)),
         Byte.ofNat (((rc <<< 32) % 2 ^ 64) >>> (8 * 6)),
         Byte.ofNat (((rc <<< 32) % 2 ^ 64) >>> (8 * 7)),
         Byte.ofNat (((rc <<< 32) % 2 ^ 64) >>> (8 * 0)),
         Byte.ofNat (((rc <<< 32) % 2 ^ 64) >>> (8 * 1)),
         Byte.ofNat (((rc <<< 32) % 2 ^ 64) >>> (8 * 2)),
         Byte.ofNat (((rc <<< 32) % 2 ^ 64) >>> (8 * 3)),
         Byte.ofNat (((rc <<< 32) % 2 ^ 64) >>> (8 * 4)),
         Byte.ofNat (((rc <<< 32) % 2 ^ 64) >>> (8 * 5)),
         Byte.ofNat (((rc <<< 32) % 2 ^ 64) >>> (8 * 6)),
         Byte.ofNat (((rc <<< 32) % 2 ^ 64) >>> (8 * 7))⟩ := rfl
  rw [e]
  have b : ∀ j, j < 8 → Byte.ofNat (((rc <<< 32) % 2 ^ 64) >>> (8 * j))
      = if j = 4 then Byte.ofNat rc else 0 := by
    intro j hj
    apply Fin.ext
    interval_cases j <;>
      simp only [Byte.ofNat, Nat.shiftLeft_eq, Nat.shiftRight_eq_div_pow, Nat.reduceMul,
        Nat.reducePow, Nat.reduceEqDiff, if_true, if_false] <;>
      first
        | (show _ % 256 = rc % 256; omega)
        | (show _ % 256 = 0; omega)
  simp only [b 0 (by decide), b 1 (by decide), b 2 (by decide), b 3 (by decide),
    b 4 (by decide), b 5 (by decide), b 6 (by decide), b 7 (by decide),
    Nat.reduceEqDiff, if_true, if_false]

/-- The three xors of `EXPAND_KEY` produce the next AES-128 round key, on both instruction
sets. -/
theorem expand_step (arch : Backend) (t : Block) (RC i : Nat) (hRC : RC < 256)
    (hi : rconByte i = Byte.ofNat RC) :
    XOR128 arch (XOR128 arch (XOR128 arch t (BYTESHL128 arch t 4))
        (BYTESHL128 arch (XOR128 arch t (BYTESHL128 arch t 4)) 8))
      (SHUFFLE32x4 arch (AES_KEYGEN arch t RC) 3 3 3 3) = nextRoundKey t i := by
  cases arch
  · cases t
    simp only [AES_KEYGEN, SET64x2_rc RC hRC]
    simp only [XOR128, veorq_u64, BYTESHL128, vextq_s8, vmovq_n_u8, SHUFFLE32x4,
      __builtin_shufflevector_u32x4, __builtin_shufflevector_u8x16, vaeseq_u8, SubBytes,
      ShiftRows, Block.xor, Block.ofFn, Block.get, nextRoundKey, word, ofWords, Word.xor,
      SubWord, RotWord, Rcon, hi, List.getD_cons_zero, List.getD_cons_succ,
      Nat.reduceMod, Nat.reduceDiv, Nat.reduceAdd, Nat.reduceMul, Nat.reduceSub,
      Nat.reduceLT, if_true, if_false, byte_xor_zero, byte_zero_xor, Block.mk.injEq]
    simp only [byte_xor_assoc, byte_xor_left_comm, byte_xor_comm, and_self]
  · cases t
    simp only [XOR128, _mm_xor_si128, BYTESHL128, _mm_slli_si128, SHUFFLE32x4,
      _mm_shuffle_epi32, _MM_SHUFFLE, AES_KEYGEN, _mm_aeskeygenassist_si128,
      Block.xor, Block.ofFn, Block.get, nextRoundKey, word, ofWords, Word.xor,
      SubWord, RotWord, Rcon, hi,
      Nat.reduceMod, Nat.reduceDiv, Nat.reduceAdd, Nat.reduceMul, Nat.reduceSub,
      Nat.reduceLeDiff, Nat.reduceShiftLeft, Nat.reduceShiftRight, Nat.reduceOr,
      if_true, if_false, byte_xor_zero, byte_zero_xor, Block.mk.injEq]
    simp only [byte_xor_assoc, byte_xor_left_comm, byte_xor_comm, and_self]

theorem EXPAND_KEY_eq (arch : Backend) (RC i : Nat) (v : ExpandVars) (hRC : RC < 256)
    (hi : rconByte i = Byte.ofNat RC) :
    EXPAND_KEY arch RC v = ⟨v.rkeys.set v.i v.t, nextRoundKey v.t i, v.i + 1⟩ := by
  simp only [EXPAND_KEY, expand_step arch v.t RC i hRC hi]

theorem list_length_eleven {α : Type} (l : List α) (h : l.length = 11) :
    ∃ a0 a1 a2 a3 a4 a5 a6 a7 a8 a9 a10, l = [a0, a1, a2, a3, a4, a5, a6, a7, a8, a9, a10] := by
  match l, h with
  | [a0, a1, a2, a3, a4, a5, a6, a7, a8, a9, a10], _ =>
    exact ⟨a0, a1, a2, a3, a4, a5, a6, a7, a8, a9, a10, rfl⟩

/-- `expand_key` fills the array with the eleven round keys of the FIPS 197 key expansion. -/
theorem expand_key_eq (arch : Backend) (rkeys : KeySchedule) (key : Bytes)
    (h : rkeys.length = 1 + ROUNDS) :
    expand_key arch rkeys key = (List.range 11).map (KeyExpansion (Block.ofList key)) := by
  obtain ⟨a0, a1, a2, a3, a4, a5, a6, a7, a8, a9, a10, rfl⟩ := list_length_eleven rkeys h
  generalize hKE : KeyExpansion (Block.ofList key) = KE
  have h0 : Block.ofList key = KE 0 := by rw [← hKE]; rfl
  have hs : ∀ i, nextRoundKey (KE i) (i + 1) = KE (i + 1) := by intro i; rw [← hKE]; rfl
  have h1 : EXPAND_KEY arch 0x01 ⟨[a0, a1, a2, a3, a4, a5, a6, a7, a8, a9, a10], KE 0, 0⟩
      = ⟨[KE 0, a1, a2, a3, a4, a5, a6, a7, a8, a9, a10], KE 1, 1⟩ := by
    rw [EXPAND_KEY_eq arch 0x01 1 _ (by decide) rfl, ← hs 0]; rfl
  have h2 : EXPAND_KEY arch 0x02 ⟨[KE 0, a1, a2, a3, a4, a5, a6, a7, a8, a9, a10], KE 1, 1⟩
      = ⟨[KE 0, KE 1, a2, a3, a4, a5, a6, a7, a8, a9, a10], KE 2, 2⟩ := by
    rw [EXPAND_KEY_eq arch 0x02 2 _ (by decide) rfl, ← hs 1]; rfl
  have h3 : EXPAND_KEY arch 0x04 ⟨[KE 0, KE 1, a2, a3, a4, a5, a6, a7, a8, a9, a10], KE 2, 2⟩
      = ⟨[KE 0, KE 1, KE 2, a3, a4, a5, a6, a7, a8, a9, a10], KE 3, 3⟩ := by
    rw [EXPAND_KEY_eq arch 0x04 3 _ (by decide) rfl, ← hs 2]; rfl
  have h4 : EXPAND_KEY arch 0x08 ⟨[KE 0, KE 1, KE 2, a3, a4, a5, a6, a7, a8, a9, a10], KE 3, 3⟩
      = ⟨[KE 0, KE 1, KE 2, KE 3, a4, a5, a6, a7, a8, a9, a10], KE 4, 4⟩ := by
    rw [EXPAND_KEY_eq arch 0x08 4 _ (by decide) rfl, ← hs 3]; rfl
  have h5 : EXPAND_KEY arch 0x10 ⟨[KE 0, KE 1, KE 2, KE 3, a4, a5, a6, a7, a8, a9, a10], KE 4, 4⟩
      = ⟨[KE 0, KE 1, KE 2, KE 3, KE 4, a5, a6, a7, a8, a9, a10], KE 5, 5⟩ := by
    rw [EXPAND_KEY_eq arch 0x10 5 _ (by decide) rfl, ← hs 4]; rfl
  have h6 : EXPAND_KEY arch 0x20 ⟨[KE 0, KE 1, KE 2, KE 3, KE 4, a5, a6, a7, a8, a9, a10], KE 5, 5⟩
      = ⟨[KE 0, KE 1, KE 2, KE 3, KE 4, KE 5, a6, a7, a8, a9, a10], KE 6, 6⟩ := by
    rw [EXPAND_KEY_eq arch 0x20 6 _ (by decide) rfl, ← hs 5]; rfl
  have h7 : EXPAND_KEY arch 0x40 ⟨[KE 0, KE 1, KE 2, KE 3, KE 4, KE 5, a6, a7, a8, a9, a10], KE 6, 6⟩
      = ⟨[KE 0, KE 1, KE 2, KE 3, KE 4, KE 5, KE 6, a7, a8, a9, a10], KE 7, 7⟩ := by
    rw [EXPAND_KEY_eq arch 0x40 7 _ (by decide) rfl, ← hs 6]; rfl
  have h8 : EXPAND_KEY arch 0x80 ⟨[KE 0, KE 1, KE 2, KE 3, KE 4, KE 5, KE 6, a7, a8, a9, a10], KE 7, 7⟩
      = ⟨[KE 0, KE 1, KE 2, KE 3, KE 4, KE 5, KE 6, KE 7, a8, a9, a10], KE 8, 8⟩ := by
    rw [EXPAND_KEY_eq arch 0x80 8 _ (by decide) rfl, ← hs 7]; rfl
  have h9 : EXPAND_KEY arch 0x1b ⟨[KE 0, KE 1, KE 2, KE 3, KE 4, KE 5, KE 6, KE 7, a8, a9, a10], KE 8, 8⟩
      = ⟨[KE 0, KE 1, KE 2, KE 3, KE 4, KE 5, KE 6, KE 7, KE 8, a9, a10], KE 9, 9⟩ := by
    rw [EXPAND_KEY_eq arch 0x1b 9 _ (by decide) rfl, ← hs 8]; rfl
  have h10 : EXPAND_KEY arch 0x36 ⟨[KE 0, KE 1, KE 2, KE 3, KE 4, KE 5, KE 6, KE 7, KE 8, a9, a10], KE 9, 9⟩
      = ⟨[KE 0, KE 1, KE 2, KE 3, KE 4, KE 5, KE 6, KE 7, KE 8, KE 9, a10], KE 10, 10⟩ := by
    rw [EXPAND_KEY_eq arch 0x36 10 _ (by decide) rfl, ← hs 9]; rfl
  simp only [expand_key, LOAD128_eq, h0, h1, h2, h3, h4, h5, h6, h7, h8, h9, h10]
  rfl

/-! ## The modes over the FIPS 197 cipher -/

/-- The FIPS 197 inverse cipher undoes the cipher, for any eleven round keys. -/
theorem InvCipher_Cipher (x : Block) (w : Nat → Block) : InvCipher (Cipher x w) w = x := by
  simp only [InvCipher, Cipher, forUp_1_10, forDown_9_0, AddRoundKey, block_xor_xor_cancel,
    InvShiftRows_ShiftRows, InvSubBytes_SubBytes, InvMixColumns_MixColumns]

/-- The FIPS 197 cipher undoes the inverse cipher, for any eleven round keys. -/
theorem Cipher_InvCipher (y : Block) (w : Nat → Block) : Cipher (InvCipher y w) w = y := by
  simp only [InvCipher, Cipher, forUp_1_10, forDown_9_0, AddRoundKey, block_xor_xor_cancel,
    SubBytes_InvSubBytes, ShiftRows_InvShiftRows, MixColumns_InvMixColumns]

/-- `aes_encrypt_with_tweak` is the FIPS 197 cipher run with every round key xored with the
expanded tweak. -/
theorem aes_encrypt_with_tweak_eq (arch : Backend) (x : Bytes) (st : AesState) (tweak : Bytes) :
    aes_encrypt_with_tweak arch x st tweak
      = (Cipher (Block.ofList x) fun i => (st.rkeys.at i).xor (expandedTweak tweak)).toList
        ++ x.drop 16 := by
  cases arch
  · simp only [aes_encrypt_with_tweak, Cipher, LOAD128_eq, STORE128_eq, XOR128_eq,
      AES_XENCRYPT_eq, AES_XENCRYPTLAST_eq, ROUNDS, Nat.reduceSub, forUp_1_10, forUp_1_9,
      AddRoundKey, TWEAK_EXPAND_eq, block_xor_comm (expandedTweak tweak)]
  · simp only [aes_encrypt_with_tweak, Cipher, LOAD128_eq, STORE128_eq, XOR128_eq, XOR128_3_eq,
      AES_ENCRYPT_eq, AES_ENCRYPTLAST_eq, AddRoundKey, TWEAK_EXPAND_eq, block_xor_assoc,
      block_xor_comm (expandedTweak tweak)]

/-- `aes_decrypt_with_tweak` is the FIPS 197 inverse cipher run with every round key xored with
the expanded tweak. -/
theorem aes_decrypt_with_tweak_eq (arch : Backend) (x : Bytes) (st : AesState) (tweak : Bytes) :
    aes_decrypt_with_tweak arch x st tweak
      = (InvCipher (Block.ofList x) fun i => (st.rkeys.at i).xor (expandedTweak tweak)).toList
        ++ x.drop 16 := by
  cases arch
  · simp only [aes_decrypt_with_tweak, InvCipher, LOAD128_eq, STORE128_eq, XOR128_eq,
      AES_XDECRYPT_eq, AES_XDECRYPTLAST_eq, ROUNDS, Nat.reduceSub, forUp_0_8, forDown_9_0,
      AddRoundKey, invert_keys_at, Nat.reduceLT, RKINVERT_eq, TWEAK_EXPAND_eq,
      ← InvMixColumns_xor, block_xor_comm (expandedTweak tweak)]
  · simp only [aes_decrypt_with_tweak, InvCipher, LOAD128_eq, STORE128_eq, XOR128_eq,
      XOR128_3_eq, AES_DECRYPTLAST_eq, ROUNDS, Nat.reduceSub, forUp_0_9, forDown_9_0,
      invert_keys_at, Nat.reduceLT, RKINVERT_eq, TWEAK_EXPAND_eq, ← InvMixColumns_xor,
      AES_DECRYPT_eq, AddRoundKey, block_xor_assoc, block_xor_comm (expandedTweak tweak)]

/-- `aes_xex_tweak` is the FIPS 197 cipher on the 16-byte tweak, run with the tweak round
keys. -/
theorem aes_xex_tweak_eq (arch : Backend) (st : NDXState) (tweak : Bytes) :
    aes_xex_tweak arch st tweak = Cipher (Block.ofList tweak) st.tkeys.at := by
  cases arch
  · simp only [aes_xex_tweak, Cipher, LOAD128_eq, XOR128_eq, AES_XENCRYPT_eq,
      AES_XENCRYPTLAST_eq, ROUNDS, Nat.reduceSub, forUp_1_10, forUp_1_9, AddRoundKey]
  · simp only [aes_xex_tweak, Cipher, LOAD128_eq, XOR128_eq, AES_ENCRYPT_eq,
      AES_ENCRYPTLAST_eq, AddRoundKey]

/-- `aes_xex_encrypt` xors the encrypted tweak into the block, runs the FIPS 197 cipher with the
primary round keys, and xors the encrypted tweak in again. -/
theorem aes_xex_encrypt_eq (arch : Backend) (x : Bytes) (st : NDXState) (tweak : Bytes) :
    aes_xex_encrypt arch x st tweak
      = ((Cipher ((Block.ofList x).xor (Cipher (Block.ofList tweak) st.tkeys.at))
            st.rkeys.at).xor (Cipher (Block.ofList tweak) st.tkeys.at)).toList
        ++ x.drop 16 := by
  cases arch
  · simp only [aes_xex_encrypt, aes_xex_tweak_eq, Cipher, LOAD128_eq, STORE128_eq, XOR128_eq,
      XOR128_3_eq, AES_XENCRYPT_eq, AES_XENCRYPTLAST_eq, ROUNDS, Nat.reduceSub, forUp_1_10,
      forUp_1_9, AddRoundKey]
  · simp only [aes_xex_encrypt, aes_xex_tweak_eq, Cipher, LOAD128_eq, STORE128_eq, XOR128_eq,
      AES_ENCRYPT_eq, AES_ENCRYPTLAST_eq, AddRoundKey, block_xor_assoc]

/-- `aes_ndx_decrypt` xors the encrypted tweak into the block, runs the FIPS 197 inverse cipher
with the primary round keys, and xors the encrypted tweak in again. -/
theorem aes_ndx_decrypt_eq (arch : Backend) (x : Bytes) (st : NDXState) (tweak : Bytes) :
    aes_ndx_decrypt arch x st tweak
      = ((InvCipher ((Block.ofList x).xor (Cipher (Block.ofList tweak) st.tkeys.at))
            st.rkeys.at).xor (Cipher (Block.ofList tweak) st.tkeys.at)).toList
        ++ x.drop 16 := by
  cases arch
  · simp only [aes_ndx_decrypt, aes_xex_tweak_eq, InvCipher, LOAD128_eq, STORE128_eq,
      XOR128_eq, XOR128_3_eq, AES_XDECRYPT_eq, AES_XDECRYPTLAST_eq, ROUNDS, Nat.reduceSub,
      forDown_9_1, forDown_9_0, AddRoundKey, RKINVERT_eq, ← InvMixColumns_xor]
  · simp only [aes_ndx_decrypt, aes_xex_tweak_eq, InvCipher, LOAD128_eq, STORE128_eq,
      XOR128_eq, AES_DECRYPTLAST_eq, ROUNDS, Nat.reduceSub, forDown_9_0, RKINVERT_eq,
      AES_DECRYPT_eq, AddRoundKey, block_xor_assoc]

/-! ## Buffers and contexts -/

theorem block_ofList_toList_append (b : Block) (r : Bytes) : Block.ofList (b.toList ++ r) = b :=
  rfl

theorem block_drop_toList_append (b : Block) (r : Bytes) : (b.toList ++ r).drop 16 = r := rfl

theorem list_length_sixteen {α : Type} (l : List α) (h : l.length = 16) :
    ∃ a0 a1 a2 a3 a4 a5 a6 a7 a8 a9 a10 a11 a12 a13 a14 a15,
      l = [a0, a1, a2, a3, a4, a5, a6, a7, a8, a9, a10, a11, a12, a13, a14, a15] := by
  match l, h with
  | [a0, a1, a2, a3, a4, a5, a6, a7, a8, a9, a10, a11, a12, a13, a14, a15], _ =>
    exact ⟨a0, a1, a2, a3, a4, a5, a6, a7, a8, a9, a10, a11, a12, a13, a14, a15, rfl⟩

theorem list_length_eight {α : Type} (l : List α) (h : l.length = 8) :
    ∃ a0 a1 a2 a3 a4 a5 a6 a7, l = [a0, a1, a2, a3, a4, a5, a6, a7] := by
  match l, h with
  | [a0, a1, a2, a3, a4, a5, a6, a7], _ => exact ⟨a0, a1, a2, a3, a4, a5, a6, a7, rfl⟩

theorem block_toList_ofList (x : Bytes) (h : x.length = 16) : (Block.ofList x).toList = x := by
  obtain ⟨a0, a1, a2, a3, a4, a5, a6, a7, a8, a9, a10, a11, a12, a13, a14, a15, rfl⟩ :=
    list_length_sixteen x h
  rfl

theorem block_toList_length (b : Block) : b.toList.length = 16 := rfl

theorem flatten_toList_length (bs : List Block) :
    ((bs.map Block.toList).flatten).length = 16 * bs.length := by
  induction bs with
  | nil => rfl
  | cons b bs ih =>
    simp only [List.map_cons, List.flatten_cons, List.length_append, ih, block_toList_length,
      List.length_cons]
    omega

/-- Block `i` of a buffer that starts with the object representation of an array of blocks. -/
theorem block_at_flatten (bs : List Block) (rest : Bytes) (i : Nat) (h : i < bs.length) :
    Block.ofList (((bs.map Block.toList).flatten ++ rest).drop (16 * i))
      = bs.getD i Block.zero := by
  induction bs generalizing i with
  | nil => exact absurd h (Nat.not_lt_zero i)
  | cons b bs ih =>
    cases i with
    | zero =>
      simp only [List.map_cons, List.flatten_cons, List.append_assoc, Nat.mul_zero,
        List.drop_zero, List.getD_cons_zero]
      exact block_ofList_toList_append b _
    | succ j =>
      have hj : j < bs.length := Nat.lt_of_succ_lt_succ h
      have e : 16 * (j + 1) = b.toList.length + 16 * j := by
        rw [block_toList_length]; omega
      simp only [List.map_cons, List.flatten_cons, List.append_assoc, List.getD_cons_succ]
      rw [e, List.drop_append, ih j hj]

theorem memcpy_memcpy (u c s : Bytes) (n : Nat) (h : s.length = n) :
    memcpy u (memcpy c s n) n = s ++ u.drop n := by
  simp only [memcpy, List.take_of_length_le (Nat.le_of_eq h), List.take_left' h]

/-- A state that is copied to a context and back is the same state. -/
theorem aesState_ofBytes_toBytes (u c : Bytes) (rk : KeySchedule) (h : rk.length = 11) :
    AesState.ofBytes (memcpy u (memcpy c (AesState.toBytes ⟨rk⟩) AesState.sizeof)
      AesState.sizeof) = ⟨rk⟩ := by
  have hl : (AesState.toBytes ⟨rk⟩).length = AesState.sizeof := by
    simp only [AesState.toBytes, flatten_toList_length, h]
    rfl
  rw [memcpy_memcpy u c _ _ hl]
  have hb : ∀ i, i < 11 →
      Block.ofList ((AesState.toBytes ⟨rk⟩ ++ u.drop AesState.sizeof).drop (16 * i))
        = rk.getD i Block.zero :=
    fun i hi => block_at_flatten rk _ i (h ▸ hi)
  obtain ⟨a0, a1, a2, a3, a4, a5, a6, a7, a8, a9, a10, rfl⟩ := list_length_eleven rk h
  simp only [AesState.ofBytes, ROUNDS, Nat.reduceAdd, List.range, List.range.loop,
    List.map_cons, List.map_nil, Nat.reduceMul, AesState.mk.injEq]
  rw [hb 0 (by decide), hb 1 (by decide), hb 2 (by decide), hb 3 (by decide),
    hb 4 (by decide), hb 5 (by decide), hb 6 (by decide), hb 7 (by decide),
    hb 8 (by decide), hb 9 (by decide), hb 10 (by decide)]
  rfl

/-- Reading the state back from a context that `ipcrypt_init` filled gives the FIPS 197 round
keys of the key. -/
theorem state_of_init (arch : Backend) (ctx0 : IPCrypt) (K : Bytes) :
    AesState.ofBytes
        (memcpy AesState.uninit.toBytes (ipcrypt_init arch ctx0 K).opaque_ AesState.sizeof)
      = ⟨(List.range 11).map (KeyExpansion (Block.ofList K))⟩ := by
  simp only [ipcrypt_init]
  rw [expand_key_eq arch AesState.uninit.rkeys K rfl]
  exact aesState_ofBytes_toBytes _ _ _ rfl

/-- An NDX state that is copied to a context and back is the same state. -/
theorem ndxState_ofBytes_toBytes (u c : Bytes) (tk rk : KeySchedule) (ht : tk.length = 11)
    (hr : rk.length = 11) :
    NDXState.ofBytes (memcpy u (memcpy c (NDXState.toBytes ⟨tk, rk⟩) NDXState.sizeof)
      NDXState.sizeof) = ⟨tk, rk⟩ := by
  have hlt : ((tk.map Block.toList).flatten).length = AesState.sizeof := by
    simp only [flatten_toList_length, ht]
    rfl
  have hl : (NDXState.toBytes ⟨tk, rk⟩).length = NDXState.sizeof := by
    simp only [NDXState.toBytes, List.length_append, flatten_toList_length, ht, hr]
    rfl
  rw [memcpy_memcpy u c _ _ hl]
  have hb : ∀ i, i < 11 →
      Block.ofList ((NDXState.toBytes ⟨tk, rk⟩ ++ u.drop NDXState.sizeof).drop (16 * i))
        = tk.getD i Block.zero := by
    intro i hi
    simp only [NDXState.toBytes, List.append_assoc]
    exact block_at_flatten tk _ i (ht ▸ hi)
  have hc : ∀ i, i < 11 →
      Block.ofList ((NDXState.toBytes ⟨tk, rk⟩ ++ u.drop NDXState.sizeof).drop
        (AesState.sizeof + 16 * i)) = rk.getD i Block.zero := by
    intro i hi
    simp only [NDXState.toBytes, List.append_assoc]
    rw [← hlt, List.drop_append]
    exact block_at_flatten rk _ i (hr ▸ hi)
  obtain ⟨a0, a1, a2, a3, a4, a5, a6, a7, a8, a9, a10, rfl⟩ := list_length_eleven tk ht
  obtain ⟨b0, b1, b2, b3, b4, b5, b6, b7, b8, b9, b10, rfl⟩ := list_length_eleven rk hr
  simp only [NDXState.ofBytes, ROUNDS, Nat.reduceAdd, List.range, List.range.loop,
    List.map_cons, List.map_nil, NDXState.mk.injEq]
  rw [hb 0 (by decide), hb 1 (by decide), hb 2 (by decide), hb 3 (by decide),
    hb 4 (by decide), hb 5 (by decide), hb 6 (by decide), hb 7 (by decide),
    hb 8 (by decide), hb 9 (by decide), hb 10 (by decide),
    hc 0 (by decide), hc 1 (by decide), hc 2 (by decide), hc 3 (by decide),
    hc 4 (by decide), hc 5 (by decide), hc 6 (by decide), hc 7 (by decide),
    hc 8 (by decide), hc 9 (by decide), hc 10 (by decide)]
  exact ⟨rfl, rfl⟩

/-- Reading the state back from a context that `ipcrypt_ndx_init` filled gives the FIPS 197
round keys of the second key half as tweak keys and of the first key half as primary keys. -/
theorem state_of_ndx_init (arch : Backend) (ctx0 : IPCryptNDX) (K : Bytes) :
    NDXState.ofBytes
        (memcpy NDXState.uninit.toBytes (ipcrypt_ndx_init arch ctx0 K).opaque_ NDXState.sizeof)
      = ⟨(List.range 11).map (KeyExpansion (Block.ofList (K.drop 16))),
         (List.range 11).map (KeyExpansion (Block.ofList K))⟩ := by
  simp only [ipcrypt_ndx_init]
  rw [expand_key_eq arch NDXState.uninit.rkeys K rfl,
    expand_key_eq arch NDXState.uninit.tkeys (K.drop 16) rfl]
  exact ndxState_ofBytes_toBytes _ _ _ _ rfl rfl

/-- The round keys read from an array of the eleven FIPS 197 round keys. -/
theorem keySchedule_at_range (KE : Nat → Block) (i : Nat) (h : i < 11) :
    KeySchedule.at ((List.range 11).map KE) i = KE i := by
  interval_cases i <;> rfl

theorem memcpy_eq (dst src : Bytes) (n : Nat) (h : src.length = n) :
    memcpy dst src n = src ++ dst.drop n := by
  simp only [memcpy, List.take_of_length_le (Nat.le_of_eq h)]

theorem atOffset_append (a b : Bytes) (off : Nat) (f : Bytes → Bytes) (h : a.length = off) :
    atOffset (a ++ b) off f = a ++ f b := by
  simp only [atOffset, List.take_left' h, List.drop_left' h]

theorem block_ofList_append (p r : Bytes) (h : p.length = 16) :
    Block.ofList (p ++ r) = Block.ofList p := by
  obtain ⟨a0, a1, a2, a3, a4, a5, a6, a7, a8, a9, a10, a11, a12, a13, a14, a15, rfl⟩ :=
    list_length_sixteen p h
  rfl

theorem expandedTweak_append (t r : Bytes) (h : t.length = 8) :
    expandedTweak (t ++ r) = expandedTweak t := by
  obtain ⟨a0, a1, a2, a3, a4, a5, a6, a7, rfl⟩ := list_length_eight t h
  rfl

/-- The cipher reads the round keys 0 to 10 only. -/
theorem Cipher_congr (x : Block) (w v : Nat → Block) (h : ∀ i, i < 11 → w i = v i) :
    Cipher x w = Cipher x v := by
  simp only [Cipher, forUp_1_10, h 0 (by decide), h 1 (by decide), h 2 (by decide),
    h 3 (by decide), h 4 (by decide), h 5 (by decide), h 6 (by decide), h 7 (by decide),
    h 8 (by decide), h 9 (by decide), h 10 (by decide)]

/-- The inverse cipher reads the round keys 0 to 10 only. -/
theorem InvCipher_congr (x : Block) (w v : Nat → Block) (h : ∀ i, i < 11 → w i = v i) :
    InvCipher x w = InvCipher x v := by
  simp only [InvCipher, forDown_9_0, h 0 (by decide), h 1 (by decide), h 2 (by decide),
    h 3 (by decide), h 4 (by decide), h 5 (by decide), h 6 (by decide), h 7 (by decide),
    h 8 (by decide), h 9 (by decide), h 10 (by decide)]

theorem block_ofList_toList (b : Block) : Block.ofList b.toList = b := rfl

theorem block_drop_toList (b : Block) : b.toList.drop 16 = [] := rfl

/-- The bundle that `ipcrypt_nd_encrypt_ip16` writes: the tweak, then the FIPS 197 cipher of the
block under the round keys xored with the expanded tweak. -/
theorem ipcrypt_nd_encrypt_ip16_eq (arch : Backend) (ipcrypt : IPCrypt) (ndip ip16 random : Bytes)
    (hT : random.length = IPCRYPT_TWEAKBYTES) (hP : ip16.length = 16)
    (hnd : ndip.length = IPCRYPT_NDIP_BYTES) :
    ipcrypt_nd_encrypt_ip16 arch ipcrypt ndip ip16 random
      = random ++ (Cipher (Block.ofList ip16)
          fun i => (ctxKeys ipcrypt i).xor (expandedTweak random)).toList := by
  have hR : (ndip.drop IPCRYPT_TWEAKBYTES).drop 16 = [] := by
    rw [List.drop_drop]
    exact List.drop_eq_nil_of_le (Nat.le_of_eq hnd)
  unfold ipcrypt_nd_encrypt_ip16
  simp only []
  rw [memcpy_eq ndip random _ hT, atOffset_append _ _ _ _ hT, memcpy_eq _ ip16 16 hP,
    atOffset_append _ _ _ _ hT, hR, List.append_nil, aes_encrypt_with_tweak_eq,
    List.drop_eq_nil_of_le (Nat.le_of_eq hP), List.append_nil]
  rfl

/-- What `ipcrypt_nd_decrypt_ip16` returns on a bundle: the FIPS 197 inverse cipher of the block
part under the round keys xored with the expanded tweak part. -/
theorem ipcrypt_nd_decrypt_ip16_eq (arch : Backend) (ipcrypt : IPCrypt) (ip16 T : Bytes)
    (c : Block) (hT : T.length = IPCRYPT_TWEAKBYTES) (hip : ip16.length = 16) :
    ipcrypt_nd_decrypt_ip16 arch ipcrypt ip16 (T ++ c.toList)
      = (InvCipher c fun i => (ctxKeys ipcrypt i).xor (expandedTweak T)).toList := by
  unfold ipcrypt_nd_decrypt_ip16
  simp only []
  rw [List.drop_left' hT, memcpy_eq ip16 c.toList 16 (block_toList_length c),
    List.drop_eq_nil_of_le (Nat.le_of_eq hip), List.append_nil, aes_decrypt_with_tweak_eq,
    block_ofList_toList, block_drop_toList, List.append_nil, expandedTweak_append T _ hT]
  rfl

/-- The bundle that `ipcrypt_ndx_encrypt_ip16` writes: the tweak, then the XEX construction
over the FIPS 197 cipher. -/
theorem ipcrypt_ndx_encrypt_ip16_eq (arch : Backend) (ipcrypt : IPCryptNDX)
    (ndip ip16 random : Bytes) (hT : random.length = IPCRYPT_NDX_TWEAKBYTES)
    (hP : ip16.length = 16) (hnd : ndip.length = IPCRYPT_NDX_NDIP_BYTES) :
    ipcrypt_ndx_encrypt_ip16 arch ipcrypt ndip ip16 random
      = random ++ ((Cipher ((Block.ofList ip16).xor
            (Cipher (Block.ofList random) (ndxTweakKeys ipcrypt))) (ndxKeys ipcrypt)).xor
          (Cipher (Block.ofList random) (ndxTweakKeys ipcrypt))).toList := by
  have hR : (ndip.drop IPCRYPT_NDX_TWEAKBYTES).drop 16 = [] := by
    rw [List.drop_drop]
    exact List.drop_eq_nil_of_le (Nat.le_of_eq hnd)
  unfold ipcrypt_ndx_encrypt_ip16
  simp only []
  rw [memcpy_eq ndip random _ hT, atOffset_append _ _ _ _ hT, memcpy_eq _ ip16 16 hP,
    atOffset_append _ _ _ _ hT, hR, List.append_nil, aes_xex_encrypt_eq,
    List.drop_eq_nil_of_le (Nat.le_of_eq hP), List.append_nil]
  rfl

/-- What `ipcrypt_ndx_decrypt_ip16` returns on a bundle: the inverse XEX construction over the
FIPS 197 inverse cipher, with the mask derived from the tweak part. -/
theorem ipcrypt_ndx_decrypt_ip16_eq (arch : Backend) (ipcrypt : IPCryptNDX) (ip16 T : Bytes)
    (c : Block) (hT : T.length = IPCRYPT_NDX_TWEAKBYTES) (hip : ip16.length = 16) :
    ipcrypt_ndx_decrypt_ip16 arch ipcrypt ip16 (T ++ c.toList)
      = ((InvCipher (c.xor (Cipher (Block.ofList T) (ndxTweakKeys ipcrypt)))
            (ndxKeys ipcrypt)).xor
          (Cipher (Block.ofList T) (ndxTweakKeys ipcrypt))).toList := by
  unfold ipcrypt_ndx_decrypt_ip16
  simp only []
  rw [List.drop_left' hT, memcpy_eq ip16 c.toList 16 (block_toList_length c),
    List.drop_eq_nil_of_le (Nat.le_of_eq hip), List.append_nil, aes_ndx_decrypt_eq,
    block_ofList_toList, block_drop_toList, List.append_nil, block_ofList_append T _ hT]
  rfl

theorem ctxKeys_init (arch : Backend) (ctx0 : IPCrypt) (K : Bytes) (i : Nat) (h : i < 11) :
    ctxKeys (ipcrypt_init arch ctx0 K) i = KeyExpansion (Block.ofList K) i := by
  unfold ctxKeys
  rw [state_of_init]
  exact keySchedule_at_range _ i h

theorem ndxTweakKeys_init (arch : Backend) (ctx0 : IPCryptNDX) (K : Bytes) (i : Nat)
    (h : i < 11) :
    ndxTweakKeys (ipcrypt_ndx_init arch ctx0 K) i = KeyExpansion (Block.ofList (K.drop 16)) i := by
  unfold ndxTweakKeys
  rw [state_of_ndx_init]
  exact keySchedule_at_range _ i h

theorem ndxKeys_init (arch : Backend) (ctx0 : IPCryptNDX) (K : Bytes) (i : Nat) (h : i < 11) :
    ndxKeys (ipcrypt_ndx_init arch ctx0 K) i = KeyExpansion (Block.ofList K) i := by
  unfold ndxKeys
  rw [state_of_ndx_init]
  exact keySchedule_at_range _ i h

theorem xorBytes_toList (a b : Block) : xorBytes a.toList b.toList = (a.xor b).toList := rfl

theorem zeros_length (n : Nat) : (zeros n).length = n := List.length_replicate n 0

/-! ## The claims -/

/-- C1: for every 16-byte key `K` and every 16-byte block `P`, with a context initialised by
`ipcrypt_init` from `K`, `ipcrypt_decrypt_ip16` applied to the result of `ipcrypt_encrypt_ip16`
on `P` returns `P` (on both instruction sets, whatever the context storage held before). -/
theorem ipcrypt_decrypt_encrypt_ip16 (arch : Backend) (ctx0 : IPCrypt) (K P : Bytes)
    (hctx : AesState.sizeof ≤ ctx0.opaque_.length) (hK : K.length = IPCRYPT_KEYBYTES)
    (hP : P.length = 16) :
    ipcrypt_decrypt_ip16 arch (ipcrypt_init arch ctx0 K)
      (ipcrypt_encrypt_ip16 arch (ipcrypt_init arch ctx0 K) P) = P := by
  unfold ipcrypt_decrypt_ip16 ipcrypt_encrypt_ip16
  simp only []
  rw [aes_encrypt_eq, aes_decrypt_eq, List.drop_eq_nil_of_le (Nat.le_of_eq hP),
    List.append_nil, block_ofList_toList, block_drop_toList, List.append_nil,
    InvCipher_Cipher, block_toList_ofList P hP]

/-- Witness for C1: the FIPS 197 example key and block on the x86 branch. -/
theorem ipcrypt_decrypt_encrypt_ip16_witness :
    AesState.sizeof ≤ (IPCrypt.mk (zeros 176)).opaque_.length ∧
    fipsKey.length = IPCRYPT_KEYBYTES ∧ fipsPlain.length = 16 ∧
    ipcrypt_decrypt_ip16 .x86 (ipcrypt_init .x86 ⟨zeros 176⟩ fipsKey)
      (ipcrypt_encrypt_ip16 .x86 (ipcrypt_init .x86 ⟨zeros 176⟩ fipsKey) fipsPlain)
      = fipsPlain :=
  ⟨le_of_eq (zeros_length _).symm, by decide, by decide,
    ipcrypt_decrypt_encrypt_ip16 .x86 ⟨zeros 176⟩ fipsKey fipsPlain (le_of_eq (zeros_length _).symm) (by decide)
      (by decide)⟩

/-- C2: for every 16-byte key `K` and every 16-byte block `C`, with a context initialised by
`ipcrypt_init` from `K`, `ipcrypt_encrypt_ip16` applied to the result of `ipcrypt_decrypt_ip16`
on `C` returns `C`: decryption is also a right inverse of encryption. -/
theorem ipcrypt_encrypt_decrypt_ip16 (arch : Backend) (ctx0 : IPCrypt) (K C : Bytes)
    (hctx : AesState.sizeof ≤ ctx0.opaque_.length) (hK : K.length = IPCRYPT_KEYBYTES)
    (hC : C.length = 16) :
    ipcrypt_encrypt_ip16 arch (ipcrypt_init arch ctx0 K)
      (ipcrypt_decrypt_ip16 arch (ipcrypt_init arch ctx0 K) C) = C := by
  unfold ipcrypt_decrypt_ip16 ipcrypt_encrypt_ip16
  simp only []
  rw [aes_decrypt_eq, aes_encrypt_eq, List.drop_eq_nil_of_le (Nat.le_of_eq hC),
    List.append_nil, block_ofList_toList, block_drop_toList, List.append_nil,
    Cipher_InvCipher, block_toList_ofList C hC]

/-- Witness for C2: the FIPS 197 example key and ciphertext on the AArch64 branch. -/
theorem ipcrypt_encrypt_decrypt_ip16_witness :
    AesState.sizeof ≤ (IPCrypt.mk (zeros 176)).opaque_.length ∧
    fipsKey.length = IPCRYPT_KEYBYTES ∧ fipsCipher.length = 16 ∧
    ipcrypt_encrypt_ip16 .aarch64 (ipcrypt_init .aarch64 ⟨zeros 176⟩ fipsKey)
      (ipcrypt_decrypt_ip16 .aarch64 (ipcrypt_init .aarch64 ⟨zeros 176⟩ fipsKey) fipsCipher)
      = fipsCipher :=
  ⟨le_of_eq (zeros_length _).symm, by decide, by decide,
    ipcrypt_encrypt_decrypt_ip16 .aarch64 ⟨zeros 176⟩ fipsKey fipsCipher (le_of_eq (zeros_length _).symm) (by decide)
      (by decide)⟩

/-- C3: for every 16-byte key `K`, every 8-byte tweak `T` and every 16-byte block `P`,
`ipcrypt_nd_decrypt_ip16` applied to the 24-byte bundle that `ipcrypt_nd_encrypt_ip16` wrote for
`P` and `T` returns `P`; the decryptor is given the bundle only and reads the tweak from its
first 8 bytes. `ndip0` and `ip0` are the previous contents of the two output buffers. -/
theorem ipcrypt_nd_decrypt_encrypt_ip16 (arch : Backend) (ctx0 : IPCrypt)
    (K T P ndip0 ip0 : Bytes) (hctx : AesState.sizeof ≤ ctx0.opaque_.length)
    (hK : K.length = IPCRYPT_KEYBYTES) (hT : T.length = IPCRYPT_TWEAKBYTES)
    (hP : P.length = 16) (hnd : ndip0.length = IPCRYPT_NDIP_BYTES) (hip : ip0.length = 16) :
    ipcrypt_nd_decrypt_ip16 arch (ipcrypt_init arch ctx0 K) ip0
      (ipcrypt_nd_encrypt_ip16 arch (ipcrypt_init arch ctx0 K) ndip0 P T) = P := by
  rw [ipcrypt_nd_encrypt_ip16_eq arch _ ndip0 P T hT hP hnd,
    ipcrypt_nd_decrypt_ip16_eq arch _ ip0 T _ hT hip, InvCipher_Cipher,
    block_toList_ofList P hP]

/-- Witness for C3: the ND scenario of the specification (tweak `0001020304050607`, address
`192.0.2.1`) on the x86 branch. -/
theorem ipcrypt_nd_decrypt_encrypt_ip16_witness :
    AesState.sizeof ≤ (IPCrypt.mk (zeros 176)).opaque_.length ∧
    fipsKey.length = IPCRYPT_KEYBYTES ∧ ndTweak.length = IPCRYPT_TWEAKBYTES ∧
    ipBlock.length = 16 ∧ (zeros 24).length = IPCRYPT_NDIP_BYTES ∧ (zeros 16).length = 16 ∧
    ipcrypt_nd_decrypt_ip16 .x86 (ipcrypt_init .x86 ⟨zeros 176⟩ fipsKey) (zeros 16)
      (ipcrypt_nd_encrypt_ip16 .x86 (ipcrypt_init .x86 ⟨zeros 176⟩ fipsKey) (zeros 24) ipBlock
        ndTweak) = ipBlock :=
  ⟨le_of_eq (zeros_length _).symm, by decide, by decide, by decide, by decide, by decide,
    ipcrypt_nd_decrypt_encrypt_ip16 .x86 ⟨zeros 176⟩ fipsKey ndTweak ipBlock (zeros 24)
      (zeros 16) (le_of_eq (zeros_length _).symm) (by decide) (by decide) (by decide) (by decide) (by decide)⟩

/-- C4: for every 32-byte key `K`, every 16-byte tweak `T` and every 16-byte block `P`,
`ipcrypt_ndx_decrypt_ip16` applied to the 32-byte bundle that `ipcrypt_ndx_encrypt_ip16` wrote
for `P` and `T` returns `P`. `ndip0` and `ip0` are the previous contents of the two output
buffers. -/
theorem ipcrypt_ndx_decrypt_encrypt_ip16 (arch : Backend) (ctx0 : IPCryptNDX)
    (K T P ndip0 ip0 : Bytes) (hctx : NDXState.sizeof ≤ ctx0.opaque_.length)
    (hK : K.length = IPCRYPT_NDX_KEYBYTES) (hT : T.length = IPCRYPT_NDX_TWEAKBYTES)
    (hP : P.length = 16) (hnd : ndip0.length = IPCRYPT_NDX_NDIP_BYTES)
    (hip : ip0.length = 16) :
    ipcrypt_ndx_decrypt_ip16 arch (ipcrypt_ndx_init arch ctx0 K) ip0
      (ipcrypt_ndx_encrypt_ip16 arch (ipcrypt_ndx_init arch ctx0 K) ndip0 P T) = P := by
  rw [ipcrypt_ndx_encrypt_ip16_eq arch _ ndip0 P T hT hP hnd,
    ipcrypt_ndx_decrypt_ip16_eq arch _ ip0 T _ hT hip, block_xor_xor_cancel, InvCipher_Cipher,
    block_xor_xor_cancel, block_toList_ofList P hP]

/-- Witness for C4: the NDX scenario of the specification (key `00 .. 1f`, zero tweak, address
`192.0.2.1`) on the x86 branch. -/
theorem ipcrypt_ndx_decrypt_encrypt_ip16_witness :
    NDXState.sizeof ≤ (IPCryptNDX.mk (zeros 352)).opaque_.length ∧
    ndxKey.length = IPCRYPT_NDX_KEYBYTES ∧ (zeros 16).length = IPCRYPT_NDX_TWEAKBYTES ∧
    ipBlock.length = 16 ∧ (zeros 32).length = IPCRYPT_NDX_NDIP_BYTES ∧ (zeros 16).length = 16 ∧
    ipcrypt_ndx_decrypt_ip16 .x86 (ipcrypt_ndx_init .x86 ⟨zeros 352⟩ ndxKey) (zeros 16)
      (ipcrypt_ndx_encrypt_ip16 .x86 (ipcrypt_ndx_init .x86 ⟨zeros 352⟩ ndxKey) (zeros 32)
        ipBlock (zeros 16)) = ipBlock :=
  ⟨le_of_eq (zeros_length _).symm, by decide, by decide, by decide, by decide, by decide,
    ipcrypt_ndx_decrypt_encrypt_ip16 .x86 ⟨zeros 352⟩ ndxKey (zeros 16) ipBlock (zeros 32)
      (zeros 16) (le_of_eq (zeros_length _).symm) (by decide) (by decide) (by decide) (by decide) (by decide)⟩

/-- C5: for every 16-byte key `K` and 16-byte block `P`, `ipcrypt_encrypt_ip16` on a context
initialised by `ipcrypt_init` from `K` yields exactly the FIPS 197 AES-128 encryption of `P`
under `K` (the reference `Cipher`: AddRoundKey with round key 0, nine rounds of SubBytes,
ShiftRows, MixColumns, AddRoundKey, and a final round without MixColumns, over the reference
`KeyExpansion`), on both instruction sets; in particular the key
`000102030405060708090a0b0c0d0e0f` and the block `00112233445566778899aabbccddeeff` give
`69c4e0d86a7b0430d8cdb78070b4c55a`. -/
theorem ipcrypt_encrypt_ip16_is_aes128 (arch : Backend) (ctx0 : IPCrypt) (K P : Bytes)
    (hctx : AesState.sizeof ≤ ctx0.opaque_.length) (hK : K.length = IPCRYPT_KEYBYTES)
    (hP : P.length = 16) :
    ipcrypt_encrypt_ip16 arch (ipcrypt_init arch ctx0 K) P
      = (AES128_encrypt (Block.ofList K) (Block.ofList P)).toList ∧
    ipcrypt_encrypt_ip16 arch (ipcrypt_init arch ctx0 fipsKey) fipsPlain = fipsCipher := by
  have general : ∀ K P : Bytes, P.length = 16 →
      ipcrypt_encrypt_ip16 arch (ipcrypt_init arch ctx0 K) P
        = (AES128_encrypt (Block.ofList K) (Block.ofList P)).toList := by
    intro K P hP
    unfold ipcrypt_encrypt_ip16 AES128_encrypt
    simp only []
    rw [aes_encrypt_eq, List.drop_eq_nil_of_le (Nat.le_of_eq hP), List.append_nil]
    exact congrArg Block.toList (Cipher_congr _ _ _ (ctxKeys_init arch ctx0 K))
  refine ⟨general K P hP, ?_⟩
  rw [general fipsKey fipsPlain rfl]
  decide!

/-- Witness for C5: the key `00 .. 0f` and the address block of `192.0.2.1`, with a context of
176 zero bytes, on the AArch64 branch. -/
theorem ipcrypt_encrypt_ip16_is_aes128_witness :
    AesState.sizeof ≤ (IPCrypt.mk (zeros 176)).opaque_.length ∧
    fipsKey.length = IPCRYPT_KEYBYTES ∧ ipBlock.length = 16 ∧
    ipcrypt_encrypt_ip16 .aarch64 (ipcrypt_init .aarch64 ⟨zeros 176⟩ fipsKey) ipBlock
      = (AES128_encrypt (Block.ofList fipsKey) (Block.ofList ipBlock)).toList ∧
    ipcrypt_encrypt_ip16 .aarch64 (ipcrypt_init .aarch64 ⟨zeros 176⟩ fipsKey) fipsPlain
      = fipsCipher :=
  ⟨le_of_eq (zeros_length _).symm, by decide, by decide,
    ipcrypt_encrypt_ip16_is_aes128 .aarch64 ⟨zeros 176⟩ fipsKey ipBlock
      (le_of_eq (zeros_length _).symm) (by decide) (by decide)⟩

/-- C6: for every 16-byte key `K`, `expand_key` fills the array with eleven round keys such that
`RKS[0]` is `K` and, for each `i` in `1 .. 10`, `RKS[i]` is the standard AES-128 round key made
from `RKS[i-1]` (`nextRoundKey`: word 0 is word 0 of `RKS[i-1]` xor `SubWord(RotWord(word 3))`
xor `Rcon_i`, word `j` is word `j-1` xor word `j` of `RKS[i-1]`, with the constants
`01, 02, 04, 08, 10, 20, 40, 80, 1b, 36`), on both instruction sets. -/
theorem expand_key_standard (arch : Backend) (rkeys0 : KeySchedule) (K : Bytes)
    (h0 : rkeys0.length = 1 + ROUNDS) (hK : K.length = IPCRYPT_KEYBYTES) :
    (expand_key arch rkeys0 K).length = 11 ∧
    ((expand_key arch rkeys0 K).at 0).toList = K ∧
    ∀ i, 1 ≤ i → i ≤ 10 →
      (expand_key arch rkeys0 K).at i = nextRoundKey ((expand_key arch rkeys0 K).at (i - 1)) i := by
  rw [expand_key_eq arch rkeys0 K h0]
  refine ⟨rfl, block_toList_ofList K hK, ?_⟩
  intro i h1 h10
  have hi : i - 1 + 1 = i := Nat.sub_add_cancel h1
  rw [keySchedule_at_range _ i (by omega), keySchedule_at_range _ (i - 1) (by omega)]
  conv => lhs; rw [← hi]
  conv => rhs; rw [← hi]
  rfl

/-- Witness for C6: the FIPS 197 example key, filling an array of eleven zero blocks, on the x86
branch. -/
theorem expand_key_standard_witness :
    AesState.uninit.rkeys.length = 1 + ROUNDS ∧ fipsKey.length = IPCRYPT_KEYBYTES ∧
    (expand_key .x86 AesState.uninit.rkeys fipsKey).length = 11 ∧
    ((expand_key .x86 AesState.uninit.rkeys fipsKey).at 0).toList = fipsKey ∧
    ∀ i, 1 ≤ i → i ≤ 10 →
      (expand_key .x86 AesState.uninit.rkeys fipsKey).at i
        = nextRoundKey ((expand_key .x86 AesState.uninit.rkeys fipsKey).at (i - 1)) i :=
  ⟨by decide, by decide,
    expand_key_standard .x86 AesState.uninit.rkeys fipsKey (by decide) (by decide)⟩

/-- C7: for every 16-byte key `K`, 8-byte tweak `T8` and 16-byte block `P`, bytes 8 to 23 of the
bundle written by `ipcrypt_nd_encrypt_ip16` are the standard AES-128 cipher of `P` run with the
schedule `RKS[i] xor T` for every `i` in `0 .. 10`, where `RKS` is what `expand_key` produces
for `K` and `T` is the expanded tweak of `T8` in the layout of the specification. -/
theorem ipcrypt_nd_encrypt_ip16_block (arch : Backend) (ctx0 : IPCrypt) (rkeys0 : KeySchedule)
    (K T8 P ndip0 : Bytes) (hctx : AesState.sizeof ≤ ctx0.opaque_.length)
    (h0 : rkeys0.length = 1 + ROUNDS) (hK : K.length = IPCRYPT_KEYBYTES)
    (hT : T8.length = IPCRYPT_TWEAKBYTES) (hP : P.length = 16)
    (hnd : ndip0.length = IPCRYPT_NDIP_BYTES) :
    ((ipcrypt_nd_encrypt_ip16 arch (ipcrypt_init arch ctx0 K) ndip0 P T8).drop 8).take 16
      = (Cipher (Block.ofList P)
          fun i => ((expand_key arch rkeys0 K).at i).xor (expandedTweak T8)).toList := by
  rw [ipcrypt_nd_encrypt_ip16_eq arch _ ndip0 P T8 hT hP hnd, List.drop_left' hT,
    List.take_of_length_le (Nat.le_of_eq (block_toList_length _)), expand_key_eq arch rkeys0 K h0]
  refine congrArg Block.toList (Cipher_congr _ _ _ fun i hi => ?_)
  rw [ctxKeys_init arch ctx0 K i hi, keySchedule_at_range _ i hi]

/-- Witness for C7: the ND scenario of the specification on the x86 branch. -/
theorem ipcrypt_nd_encrypt_ip16_block_witness :
    AesState.sizeof ≤ (IPCrypt.mk (zeros 176)).opaque_.length ∧
    AesState.uninit.rkeys.length = 1 + ROUNDS ∧ fipsKey.length = IPCRYPT_KEYBYTES ∧
    ndTweak.length = IPCRYPT_TWEAKBYTES ∧ ipBlock.length = 16 ∧
    (zeros 24).length = IPCRYPT_NDIP_BYTES ∧
    ((ipcrypt_nd_encrypt_ip16 .x86 (ipcrypt_init .x86 ⟨zeros 176⟩ fipsKey) (zeros 24) ipBlock
        ndTweak).drop 8).take 16
      = (Cipher (Block.ofList ipBlock) fun i =>
          ((expand_key .x86 AesState.uninit.rkeys fipsKey).at i).xor
            (expandedTweak ndTweak)).toList :=
  ⟨le_of_eq (zeros_length _).symm, by decide, by decide, by decide, by decide, by decide,
    ipcrypt_nd_encrypt_ip16_block .x86 ⟨zeros 176⟩ AesState.uninit.rkeys fipsKey ndTweak ipBlock
      (zeros 24) (le_of_eq (zeros_length _).symm) (by decide) (by decide) (by decide)
      (by decide) (by decide)⟩

/-- C8: for every 8-byte tweak `t0 .. t7`, both versions of `TWEAK_EXPAND` yield the 16-byte
block `t0 t1 00 00 t2 t3 00 00 t4 t5 00 00 t6 t7 00 00`; for example `0001020304050607` expands
to `0001 0000 0203 0000 0405 0000 0607 0000`. -/
theorem TWEAK_EXPAND_layout (arch : Backend) (t0 t1 t2 t3 t4 t5 t6 t7 : Byte) :
    TWEAK_EXPAND arch [t0, t1, t2, t3, t4, t5, t6, t7]
      = ⟨t0, t1, 0, 0, t2, t3, 0, 0, t4, t5, 0, 0, t6, t7, 0, 0⟩ ∧
    (TWEAK_EXPAND arch [0x00, 0x01, 0x02, 0x03, 0x04, 0x05, 0x06, 0x07]).toList
      = [0x00, 0x01, 0x00, 0x00, 0x02, 0x03, 0x00, 0x00,
         0x04, 0x05, 0x00, 0x00, 0x06, 0x07, 0x00, 0x00] := by
  constructor
  · rw [TWEAK_EXPAND_eq]; rfl
  · rw [TWEAK_EXPAND_eq]; rfl

/-- C9: for every 32-byte key `K32`, 16-byte tweak `T16` and 16-byte block `P`, bytes 16 to 31
of the bundle written by `ipcrypt_ndx_encrypt_ip16` are
`AES128_encrypt(P xor M, K32[0..15]) xor M` with `M = AES128_encrypt(T16, K32[16..31])`: the
mask is derived under the second key half and the block is encrypted under the first. -/
theorem ipcrypt_ndx_encrypt_ip16_block (arch : Backend) (ctx0 : IPCryptNDX)
    (K32 T16 P ndip0 : Bytes) (hctx : NDXState.sizeof ≤ ctx0.opaque_.length)
    (hK : K32.length = IPCRYPT_NDX_KEYBYTES) (hT : T16.length = IPCRYPT_NDX_TWEAKBYTES)
    (hP : P.length = 16) (hnd : ndip0.length = IPCRYPT_NDX_NDIP_BYTES) :
    ((ipcrypt_ndx_encrypt_ip16 arch (ipcrypt_ndx_init arch ctx0 K32) ndip0 P T16).drop 16).take 16
      = ((AES128_encrypt (Block.ofList (K32.take 16))
            ((Block.ofList P).xor
              (AES128_encrypt (Block.ofList (K32.drop 16)) (Block.ofList T16)))).xor
          (AES128_encrypt (Block.ofList (K32.drop 16)) (Block.ofList T16))).toList := by
  have hk : Block.ofList (K32.take 16) = Block.ofList K32 := by
    have h16 : (K32.take 16).length = 16 :=
      List.length_take_of_le (by rw [hK]; decide)
    conv => rhs; rw [← List.take_append_drop 16 K32]
    exact (block_ofList_append _ _ h16).symm
  have hm : Cipher (Block.ofList T16) (ndxTweakKeys (ipcrypt_ndx_init arch ctx0 K32))
      = AES128_encrypt (Block.ofList (K32.drop 16)) (Block.ofList T16) :=
    Cipher_congr _ _ _ (ndxTweakKeys_init arch ctx0 K32)
  have hc : ∀ x, Cipher x (ndxKeys (ipcrypt_ndx_init arch ctx0 K32))
      = AES128_encrypt (Block.ofList K32) x :=
    fun x => Cipher_congr x _ _ (ndxKeys_init arch ctx0 K32)
  rw [ipcrypt_ndx_encrypt_ip16_eq arch _ ndip0 P T16 hT hP hnd, List.drop_left' hT,
    List.take_of_length_le (Nat.le_of_eq (block_toList_length _)), hm, hk, hc]

/-- Witness for C9: the NDX scenario of the specification on the AArch64 branch. -/
theorem ipcrypt_ndx_encrypt_ip16_block_witness :
    NDXState.sizeof ≤ (IPCryptNDX.mk (zeros 352)).opaque_.length ∧
    ndxKey.length = IPCRYPT_NDX_KEYBYTES ∧ (zeros 16).length = IPCRYPT_NDX_TWEAKBYTES ∧
    ipBlock.length = 16 ∧ (zeros 32).length = IPCRYPT_NDX_NDIP_BYTES ∧
    ((ipcrypt_ndx_encrypt_ip16 .aarch64 (ipcrypt_ndx_init .aarch64 ⟨zeros 352⟩ ndxKey)
        (zeros 32) ipBlock (zeros 16)).drop 16).take 16
      = ((AES128_encrypt (Block.ofList (ndxKey.take 16))
            ((Block.ofList ipBlock).xor
              (AES128_encrypt (Block.ofList (ndxKey.drop 16)) (Block.ofList (zeros 16))))).xor
          (AES128_encrypt (Block.ofList (ndxKey.drop 16)) (Block.ofList (zeros 16)))).toList :=
  ⟨le_of_eq (zeros_length _).symm, by decide, by decide, by decide, by decide,
    ipcrypt_ndx_encrypt_ip16_block .aarch64 ⟨zeros 352⟩ ndxKey (zeros 16) ipBlock (zeros 32)
      (le_of_eq (zeros_length _).symm) (by decide) (by decide) (by decide) (by decide)⟩

/-- C10: for every NDX state (so for the one expanded from any 32-byte key), 16-byte tweak `t`
and 16-byte block `y`, `aes_ndx_decrypt` leaves in the buffer
`aes_decrypt(y xor T, primary schedule) xor T`, where `T` is `aes_encrypt(t, tweak schedule)`
and `aes_decrypt`, `aes_encrypt` are the plain block functions of the source. -/
theorem aes_ndx_decrypt_is_xex (arch : Backend) (st : NDXState) (y t : Bytes)
    (hy : y.length = 16) (ht : t.length = IPCRYPT_NDX_TWEAKBYTES) :
    aes_ndx_decrypt arch y st t
      = xorBytes (aes_decrypt arch (xorBytes y (aes_encrypt arch t ⟨st.tkeys⟩)) ⟨st.rkeys⟩)
          (aes_encrypt arch t ⟨st.tkeys⟩) := by
  have hT : aes_encrypt arch t ⟨st.tkeys⟩ = (Cipher (Block.ofList t) st.tkeys.at).toList := by
    rw [aes_encrypt_eq, List.drop_eq_nil_of_le (Nat.le_of_eq ht), List.append_nil]
  have hY : xorBytes y (Cipher (Block.ofList t) st.tkeys.at).toList
      = ((Block.ofList y).xor (Cipher (Block.ofList t) st.tkeys.at)).toList := by
    conv => lhs; rw [← block_toList_ofList y hy]
    exact xorBytes_toList _ _
  rw [hT, hY, aes_decrypt_eq, aes_ndx_decrypt_eq, block_ofList_toList, block_drop_toList,
    List.append_nil, List.drop_eq_nil_of_le (Nat.le_of_eq hy), List.append_nil, xorBytes_toList]

/-- Witness for C10: the state expanded from the key `00 .. 1f`, the zero tweak and the FIPS 197
example ciphertext as the block, on the x86 branch. -/
theorem aes_ndx_decrypt_is_xex_witness :
    fipsCipher.length = 16 ∧ (zeros 16).length = IPCRYPT_NDX_TWEAKBYTES ∧
    aes_ndx_decrypt .x86 fipsCipher
        (NDXState.ofBytes (ipcrypt_ndx_init .x86 ⟨zeros 352⟩ ndxKey).opaque_) (zeros 16)
      = xorBytes
          (aes_decrypt .x86
            (xorBytes fipsCipher
              (aes_encrypt .x86 (zeros 16)
                ⟨(NDXState.ofBytes (ipcrypt_ndx_init .x86 ⟨zeros 352⟩ ndxKey).opaque_).tkeys⟩))
            ⟨(NDXState.ofBytes (ipcrypt_ndx_init .x86 ⟨zeros 352⟩ ndxKey).opaque_).rkeys⟩)
          (aes_encrypt .x86 (zeros 16)
            ⟨(NDXState.ofBytes (ipcrypt_ndx_init .x86 ⟨zeros 352⟩ ndxKey).opaque_).tkeys⟩) :=
  ⟨by decide, by decide,
    aes_ndx_decrypt_is_xex .x86 _ fipsCipher (zeros 16) (by decide) (by decide)⟩

/-! ## The claims, continued -/

/-- C11: for every 16-byte key `K` and 16-byte block `C`, `ipcrypt_decrypt_ip16` on a context
initialised by `ipcrypt_init` from `K` returns the FIPS 197 AES-128 inverse cipher of `C` under
`K`, that is the straightforward `InvCipher` with the untransformed round keys
`RKS[10], RKS[9], .., RKS[0]`, on both instruction sets; the round keys the source derives for
the nine middle rounds are `IRKS[j] = InvMixColumns(RKS[9 - j])` for `j` in `0 .. 8`. -/
theorem ipcrypt_decrypt_ip16_is_inv_cipher (arch : Backend) (ctx0 : IPCrypt) (K C : Bytes)
    (hctx : AesState.sizeof ≤ ctx0.opaque_.length) (hK : K.length = IPCRYPT_KEYBYTES)
    (hC : C.length = 16) :
    ipcrypt_decrypt_ip16 arch (ipcrypt_init arch ctx0 K) C
      = (AES128_decrypt (Block.ofList K) (Block.ofList C)).toList ∧
    ∀ j, j < 9 →
      InvKeySchedule.at (invert_keys arch (expand_key arch AesState.uninit.rkeys K)) j
        = InvMixColumns (KeyExpansion (Block.ofList K) (9 - j)) := by
  constructor
  · unfold ipcrypt_decrypt_ip16 AES128_decrypt
    simp only []
    rw [aes_decrypt_eq, List.drop_eq_nil_of_le (Nat.le_of_eq hC), List.append_nil]
    exact congrArg Block.toList (InvCipher_congr _ _ _ (ctxKeys_init arch ctx0 K))
  · intro j hj
    rw [invert_keys_at arch _ j hj, expand_key_eq arch AesState.uninit.rkeys K rfl,
      keySchedule_at_range _ (9 - j) (by omega)]

/-- Witness for C11: the FIPS 197 example key and ciphertext on the x86 branch. -/
theorem ipcrypt_decrypt_ip16_is_inv_cipher_witness :
    AesState.sizeof ≤ (IPCrypt.mk (zeros 176)).opaque_.length ∧
    fipsKey.length = IPCRYPT_KEYBYTES ∧ fipsCipher.length = 16 ∧
    ipcrypt_decrypt_ip16 .x86 (ipcrypt_init .x86 ⟨zeros 176⟩ fipsKey) fipsCipher
      = (AES128_decrypt (Block.ofList fipsKey) (Block.ofList fipsCipher)).toList ∧
    ∀ j, j < 9 →
      InvKeySchedule.at (invert_keys .x86 (expand_key .x86 AesState.uninit.rkeys fipsKey)) j
        = InvMixColumns (KeyExpansion (Block.ofList fipsKey) (9 - j)) :=
  ⟨le_of_eq (zeros_length _).symm, by decide, by decide,
    ipcrypt_decrypt_ip16_is_inv_cipher .x86 ⟨zeros 176⟩ fipsKey fipsCipher
      (le_of_eq (zeros_length _).symm) (by decide) (by decide)⟩

theorem aes_encrypt_with_tweak_length (arch : Backend) (x : Bytes) (st : AesState)
    (tweak : Bytes) (h : 16 ≤ x.length) :
    (aes_encrypt_with_tweak arch x st tweak).length = x.length := by
  rw [aes_encrypt_with_tweak_eq, List.length_append, block_toList_length, List.length_drop]
  omega

theorem aes_xex_encrypt_length (arch : Backend) (x : Bytes) (st : NDXState) (tweak : Bytes)
    (h : 16 ≤ x.length) :
    (aes_xex_encrypt arch x st tweak).length = x.length := by
  rw [aes_xex_encrypt_eq, List.length_append, block_toList_length, List.length_drop]
  omega

theorem atOffset_take (buf : Bytes) (off : Nat) (f : Bytes → Bytes) (h : off ≤ buf.length) :
    (atOffset buf off f).take off = buf.take off := by
  unfold atOffset
  exact List.take_left' (List.length_take_of_le h)

theorem atOffset_length (buf : Bytes) (off : Nat) (f : Bytes → Bytes) (h : off ≤ buf.length)
    (hf : (f (buf.drop off)).length = (buf.drop off).length) :
    (atOffset buf off f).length = buf.length := by
  unfold atOffset
  rw [List.length_append, hf, List.length_take_of_le h, List.length_drop]
  omega

/-- C12: for every context, block and tweak, bytes 0 to 7 of the 24-byte bundle written by
`ipcrypt_nd_encrypt_ip16` are the 8 tweak bytes the caller supplied, and bytes 0 to 15 of the
32-byte bundle written by `ipcrypt_ndx_encrypt_ip16` are the 16 tweak bytes the caller supplied;
the block encryption step, which works in place at offset 8 (respectively 16) of the bundle,
leaves bytes 0 to 7 (respectively 0 to 15) of any bundle as they were and keeps its length, so it
changes bytes 8 to 23 (respectively 16 to 31) only. -/
theorem bundle_tweak_frame (arch : Backend) (ipcrypt : IPCrypt) (ipcryptx : IPCryptNDX)
    (ndip ndipx ip16 T8 T16 : Bytes) (hT8 : T8.length = IPCRYPT_TWEAKBYTES)
    (hT16 : T16.length = IPCRYPT_NDX_TWEAKBYTES) (hP : ip16.length = 16)
    (hnd : ndip.length = IPCRYPT_NDIP_BYTES) (hndx : ndipx.length = IPCRYPT_NDX_NDIP_BYTES) :
    ((ipcrypt_nd_encrypt_ip16 arch ipcrypt ndip ip16 T8).take 8 = T8 ∧
      (ipcrypt_nd_encrypt_ip16 arch ipcrypt ndip ip16 T8).length = 24) ∧
    ((ipcrypt_ndx_encrypt_ip16 arch ipcryptx ndipx ip16 T16).take 16 = T16 ∧
      (ipcrypt_ndx_encrypt_ip16 arch ipcryptx ndipx ip16 T16).length = 32) ∧
    (∀ (b : Bytes) (st : AesState), b.length = IPCRYPT_NDIP_BYTES →
      let b' := atOffset b IPCRYPT_TWEAKBYTES fun p => aes_encrypt_with_tweak arch p st T8
      b'.take 8 = b.take 8 ∧ b'.length = 24) ∧
    (∀ (b : Bytes) (st : NDXState), b.length = IPCRYPT_NDX_NDIP_BYTES →
      let b' := atOffset b IPCRYPT_NDX_TWEAKBYTES fun p => aes_xex_encrypt arch p st T16
      b'.take 16 = b.take 16 ∧ b'.length = 32) := by
  refine ⟨⟨?_, ?_⟩, ⟨?_, ?_⟩, ?_, ?_⟩
  · rw [ipcrypt_nd_encrypt_ip16_eq arch _ ndip ip16 T8 hT8 hP hnd]
    exact List.take_left' hT8
  · rw [ipcrypt_nd_encrypt_ip16_eq arch _ ndip ip16 T8 hT8 hP hnd, List.length_append, hT8,
      block_toList_length]
  · rw [ipcrypt_ndx_encrypt_ip16_eq arch _ ndipx ip16 T16 hT16 hP hndx]
    exact List.take_left' hT16
  · rw [ipcrypt_ndx_encrypt_ip16_eq arch _ ndipx ip16 T16 hT16 hP hndx, List.length_append,
      hT16, block_toList_length]
  · intro b st hb
    have h8 : IPCRYPT_TWEAKBYTES ≤ b.length := by rw [hb]; decide
    refine ⟨atOffset_take b _ _ h8, ?_⟩
    rw [atOffset_length b _ _ h8 (aes_encrypt_with_tweak_length arch _ st T8
      (by rw [List.length_drop, hb]; decide)), hb]
    rfl
  · intro b st hb
    have h16 : IPCRYPT_NDX_TWEAKBYTES ≤ b.length := by rw [hb]; decide
    refine ⟨atOffset_take b _ _ h16, ?_⟩
    rw [atOffset_length b _ _ h16 (aes_xex_encrypt_length arch _ st T16
      (by rw [List.length_drop, hb]; decide)), hb]
    rfl

/-- Witness for C12: the ND and NDX scenarios of the specification on the x86 branch, with
contexts and output buffers of zero bytes. -/
theorem bundle_tweak_frame_witness :
    ndTweak.length = IPCRYPT_TWEAKBYTES ∧ (zeros 16).length = IPCRYPT_NDX_TWEAKBYTES ∧
    ipBlock.length = 16 ∧ (zeros 24).length = IPCRYPT_NDIP_BYTES ∧
    (zeros 32).length = IPCRYPT_NDX_NDIP_BYTES ∧
    (((ipcrypt_nd_encrypt_ip16 .x86 ⟨zeros 176⟩ (zeros 24) ipBlock ndTweak).take 8 = ndTweak ∧
      (ipcrypt_nd_encrypt_ip16 .x86 ⟨zeros 176⟩ (zeros 24) ipBlock ndTweak).length = 24) ∧
    ((ipcrypt_ndx_encrypt_ip16 .x86 ⟨zeros 352⟩ (zeros 32) ipBlock (zeros 16)).take 16
        = zeros 16 ∧
      (ipcrypt_ndx_encrypt_ip16 .x86 ⟨zeros 352⟩ (zeros 32) ipBlock (zeros 16)).length = 32) ∧
    (∀ (b : Bytes) (st : AesState), b.length = IPCRYPT_NDIP_BYTES →
      let b' := atOffset b IPCRYPT_TWEAKBYTES fun p => aes_encrypt_with_tweak .x86 p st ndTweak
      b'.take 8 = b.take 8 ∧ b'.length = 24) ∧
    (∀ (b : Bytes) (st : NDXState), b.length = IPCRYPT_NDX_NDIP_BYTES →
      let b' := atOffset b IPCRYPT_NDX_TWEAKBYTES fun p => aes_xex_encrypt .x86 p st (zeros 16)
      b'.take 16 = b.take 16 ∧ b'.length = 32)) :=
  ⟨by decide, by decide, by decide, by decide, by decide,
    bundle_tweak_frame .x86 ⟨zeros 176⟩ ⟨zeros 352⟩ (zeros 24) (zeros 32) ipBlock ndTweak
      (zeros 16) (by decide) (by decide) (by decide) (by decide) (by decide)⟩

/-- C13: after `ipcrypt_deinit` (respectively `ipcrypt_ndx_deinit`) on any context, in each of
the three ways it is compiled, the context storage has the size it had and every byte of it is
0; in particular for a context that `ipcrypt_init` (respectively `ipcrypt_ndx_init`) filled
from any key. -/
theorem deinit_zeroes (tc : Toolchain) (arch : Backend) (ipcrypt : IPCrypt)
    (ipcryptx : IPCryptNDX) (K : Bytes) :
    (ipcrypt_deinit tc ipcrypt).opaque_ = List.replicate ipcrypt.opaque_.length 0 ∧
    (ipcrypt_ndx_deinit tc ipcryptx).opaque_ = List.replicate ipcryptx.opaque_.length 0 ∧
    (∀ b ∈ (ipcrypt_deinit tc (ipcrypt_init arch ipcrypt K)).opaque_, b = 0) ∧
    (∀ b ∈ (ipcrypt_ndx_deinit tc (ipcrypt_ndx_init arch ipcryptx K)).opaque_, b = 0) := by
  have h1 : ∀ c : IPCrypt, (ipcrypt_deinit tc c).opaque_ = List.replicate c.opaque_.length 0 := by
    intro c
    cases tc <;>
      simp only [ipcrypt_deinit, SecureZeroMemory, memset_s, memset, Nat.min_self,
        List.drop_length, List.append_nil]
  have h2 : ∀ c : IPCryptNDX,
      (ipcrypt_ndx_deinit tc c).opaque_ = List.replicate c.opaque_.length 0 := by
    intro c
    cases tc <;>
      simp only [ipcrypt_ndx_deinit, SecureZeroMemory, memset_s, memset, Nat.min_self,
        List.drop_length, List.append_nil]
  refine ⟨h1 ipcrypt, h2 ipcryptx, ?_, ?_⟩
  · intro b hb
    rw [h1] at hb
    exact List.eq_of_mem_replicate hb
  · intro b hb
    rw [h2] at hb
    exact List.eq_of_mem_replicate hb

/-! ## The hex codec over the reference encoding -/

set_option maxRecDepth 100000 in
theorem hex2bin_nibble_eq : ∀ c : Byte,
    hex2bin_nibble c = if isLowerHex c then some (Byte.ofNat (hexValue c)) else none := by
  decide!

set_option maxRecDepth 100000 in
theorem hexValue_lt : ∀ c : Byte, isLowerHex c = true → hexValue c < 16 := by decide!

set_option maxRecDepth 100000 in
theorem nibbles_or : ∀ x < 16, ∀ y < 16, (x <<< 4) ||| y = 16 * x + y := by decide!

theorem hex2bin_byte (c b : Byte) (hc : isLowerHex c = true) (hb : isLowerHex b = true) :
    Byte.ofNat (((Byte.ofNat (hexValue c)).val <<< 4) ||| (Byte.ofNat (hexValue b)).val)
      = Byte.ofNat (16 * hexValue c + hexValue b) := by
  have h1 := hexValue_lt c hc
  have h2 := hexValue_lt b hb
  have e1 : (Byte.ofNat (hexValue c)).val = hexValue c := Nat.mod_eq_of_lt (by omega)
  have e2 : (Byte.ofNat (hexValue b)).val = hexValue b := Nat.mod_eq_of_lt (by omega)
  rw [e1, e2, nibbles_or _ h1 _ h2]

theorem hexDecodePrefix_zero (rest : Bytes) : hexDecodePrefix 0 rest = [] := by
  cases rest with
  | nil => rfl
  | cons c r => cases r <;> rfl

theorem hexDecodePrefix_length_le : ∀ (n : Nat) (hex : Bytes),
    (hexDecodePrefix n hex).length ≤ n
  | 0, hex => by rw [hexDecodePrefix_zero]; exact Nat.le_refl 0
  | n + 1, [] => Nat.zero_le _
  | n + 1, [_] => Nat.zero_le _
  | n + 1, c :: b :: rest => by
    unfold hexDecodePrefix
    split
    · exact Nat.succ_le_succ (hexDecodePrefix_length_le n rest)
    · exact Nat.zero_le _

theorem set_take_drop_split {α : Type} (A B d : List α) (x v : α) :
    ((A ++ x :: B).set A.length v).take (A.length + 1) ++ d
        ++ ((A ++ x :: B).set A.length v).drop (A.length + 1 + d.length)
      = (A ++ x :: B).take A.length ++ (v :: d)
        ++ (A ++ x :: B).drop (A.length + (d.length + 1)) := by
  have e : A.length + 1 + d.length = A.length + (d.length + 1) := by omega
  rw [List.set_append_right _ _ (Nat.le_refl _), Nat.sub_self, List.set_cons_zero, e,
    List.take_append, List.drop_append, List.drop_append, List.take_left]
  simp only [List.take_succ_cons, List.take_zero, List.drop_succ_cons, List.append_assoc,
    List.cons_append, List.nil_append]

/-- Writing `v` at index `i` and then keeping everything up to it, a block `d`, and everything
`d.length` past it, is keeping everything before `i`, then `v` and `d`. -/
theorem set_take_drop {α : Type} (bin d : List α) (i : Nat) (v : α) (hi : i < bin.length) :
    (bin.set i v).take (i + 1) ++ d ++ (bin.set i v).drop (i + 1 + d.length)
      = bin.take i ++ (v :: d) ++ bin.drop (i + (d.length + 1)) := by
  have hA : (bin.take i).length = i := List.length_take_of_le (Nat.le_of_lt hi)
  have hsplit : bin = bin.take i ++ bin[i] :: bin.drop (i + 1) := by
    conv => lhs; rw [← List.take_append_drop i bin, List.drop_eq_getElem_cons hi]
  have := set_take_drop_split (bin.take i) (bin.drop (i + 1)) d bin[i] v
  rw [hA, ← hsplit] at this
  exact this

theorem getD_append_at (pre rest : Bytes) (k : Nat) :
    (pre ++ rest).getD (pre.length + k) 0 = rest.getD k 0 := by
  rw [List.getD_append_right _ _ _ _ (Nat.le_add_right _ _), Nat.add_sub_cancel_left]

/-- The loop of `hex2bin`, from index `i` with `n` iterations left, writes the bytes that the
leading valid pairs of the rest of the string encode, and returns `bin_len` when all `n` pairs
were valid and 0 otherwise. -/
theorem hex2bin_loop_spec (bin_len : Nat) : ∀ (n i : Nat) (pre rest bin : Bytes),
    pre.length = i * 2 → i + n ≤ bin.length →
    hex2bin_loop (pre ++ rest) bin_len n i bin
      = ⟨if (hexDecodePrefix n rest).length = n then bin_len else 0,
         bin.take i ++ hexDecodePrefix n rest
           ++ bin.drop (i + (hexDecodePrefix n rest).length)⟩
  | 0, i, pre, rest, bin, _, _ => by
    rw [hexDecodePrefix_zero]
    simp only [hex2bin_loop, List.length_nil, if_true, List.append_nil, Nat.add_zero,
      List.take_append_drop]
  | n + 1, i, pre, [], bin, hp, _ => by
    have h0 : pre.getD (i * 2) 0 = (0 : Byte) := by
      have h := getD_append_at pre [] 0
      rw [List.append_nil, Nat.add_zero, hp] at h
      exact h
    have hn : hex2bin_nibble 0 = none := by decide
    simp only [hex2bin_loop, List.append_nil, h0, hn, hexDecodePrefix, List.length_nil,
      Nat.add_zero, List.take_append_drop, (Nat.succ_ne_zero n).symm, if_false]
  | n + 1, i, pre, [c], bin, hp, _ => by
    have h0 : (pre ++ [c]).getD (i * 2) 0 = c := by
      rw [← hp]; exact getD_append_at pre [c] 0
    have h1 : (pre ++ [c]).getD (i * 2 + 1) 0 = (0 : Byte) := by
      rw [← hp]; exact getD_append_at pre [c] 1
    have hn : hex2bin_nibble 0 = none := by decide
    have hd : hexDecodePrefix (n + 1) [c] = [] := rfl
    simp only [hex2bin_loop, h0, h1, hn, hd, List.length_nil, List.append_nil,
      Nat.add_zero, List.take_append_drop, (Nat.succ_ne_zero n).symm, if_false]
    cases hex2bin_nibble c <;> rfl
  | n + 1, i, pre, c :: b :: rest, bin, hp, hb => by
    have h0 : (pre ++ c :: b :: rest).getD (i * 2) 0 = c := by
      rw [← hp]; exact getD_append_at pre (c :: b :: rest) 0
    have h1 : (pre ++ c :: b :: rest).getD (i * 2 + 1) 0 = b := by
      rw [← hp]; exact getD_append_at pre (c :: b :: rest) 1
    simp only [hex2bin_loop, h0, h1, hex2bin_nibble_eq]
    by_cases hc : isLowerHex c = true
    · by_cases hbb : isLowerHex b = true
      · have hd : hexDecodePrefix (n + 1) (c :: b :: rest)
            = Byte.ofNat (16 * hexValue c + hexValue b) :: hexDecodePrefix n rest := by
          simp only [hexDecodePrefix, hc, hbb, Bool.and_self, if_true]
        have hpre : pre ++ c :: b :: rest = (pre ++ [c, b]) ++ rest := by
          simp only [List.append_assoc, List.cons_append, List.nil_append]
        have hlen : (pre ++ [c, b]).length = (i + 1) * 2 := by
          simp only [List.length_append, hp, List.length_cons, List.length_nil]; omega
        have hi : i < bin.length := by omega
        simp only [hc, hbb, if_true, hd, hex2bin_byte c b hc hbb]
        rw [hpre, hex2bin_loop_spec bin_len n (i + 1) (pre ++ [c, b]) rest _ hlen
          (by rw [List.length_set]; omega)]
        rw [set_take_drop bin _ i _ hi]
        simp only [List.length_cons, Nat.add_right_cancel_iff]
      · have hd : hexDecodePrefix (n + 1) (c :: b :: rest) = [] := by
          simp only [hexDecodePrefix, hc, hbb, Bool.and_false, Bool.false_eq_true, if_false]
        simp only [hc, hbb, if_true, Bool.false_eq_true, if_false, hd, List.length_nil,
          List.append_nil, Nat.add_zero, List.take_append_drop, (Nat.succ_ne_zero n).symm]
    · have hd : hexDecodePrefix (n + 1) (c :: b :: rest) = [] := by
        simp only [hexDecodePrefix, hc, Bool.false_and, Bool.false_eq_true, if_false]
      simp only [hc, Bool.false_eq_true, if_false, hd, List.length_nil,
        List.append_nil, Nat.add_zero, List.take_append_drop, (Nat.succ_ne_zero n).symm]

/-- What `hex2bin` returns and leaves in the buffer, over the reference decoding. -/
theorem hex2bin_spec (bin : Bytes) (bin_maxlen : Nat) (hex : Bytes) (hex_len : Nat)
    (hcap : bin_maxlen ≤ bin.length) :
    hex2bin bin bin_maxlen hex hex_len
      = if hex_len % 2 ≠ 0 ∨ hex_len / 2 > bin_maxlen then ⟨0, bin⟩
        else ⟨if (hexDecodePrefix (hex_len / 2) hex).length = hex_len / 2 then hex_len / 2
              else 0,
             hexDecodePrefix (hex_len / 2) hex
               ++ bin.drop (hexDecodePrefix (hex_len / 2) hex).length⟩ := by
  unfold hex2bin
  simp only []
  split
  · rfl
  · rename_i h
    have hle : 0 + hex_len / 2 ≤ bin.length := by omega
    have := hex2bin_loop_spec (hex_len / 2) (hex_len / 2) 0 [] hex bin rfl hle
    simp only [List.nil_append, List.take_zero, Nat.zero_add] at this
    exact this

theorem isLowerHex_zero : isLowerHex 0 = false := by decide

/-- The reference decoding yields all `n` bytes exactly when the first `2 * n` characters are
hex digits. -/
theorem hexDecodePrefix_full_iff : ∀ (n : Nat) (hex : Bytes),
    (hexDecodePrefix n hex).length = n ↔ ∀ j, j < 2 * n → isLowerHex (hex.getD j 0) = true
  | 0, hex => by
    rw [hexDecodePrefix_zero]
    exact ⟨fun _ j hj => absurd hj (Nat.not_lt_zero j), fun _ => rfl⟩
  | n + 1, [] => by
    constructor
    · intro h; exact absurd h (Nat.succ_ne_zero n).symm
    · intro h
      have := h 0 (by omega)
      rw [List.getD_nil, isLowerHex_zero] at this
      exact absurd this (by decide)
  | n + 1, [c] => by
    constructor
    · intro h; exact absurd h (Nat.succ_ne_zero n).symm
    · intro h
      have := h 1 (by omega)
      rw [List.getD_cons_succ, List.getD_nil, isLowerHex_zero] at this
      exact absurd this (by decide)
  | n + 1, c :: b :: rest => by
    have ih := hexDecodePrefix_full_iff n rest
    by_cases hv : (isLowerHex c && isLowerHex b) = true
    · have hd : hexDecodePrefix (n + 1) (c :: b :: rest)
          = Byte.ofNat (16 * hexValue c + hexValue b) :: hexDecodePrefix n rest := by
        simp only [hexDecodePrefix, hv, if_true]
      rw [hd, List.length_cons, Nat.add_right_cancel_iff, ih]
      rw [Bool.and_eq_true] at hv
      constructor
      · intro h j hj
        match j with
        | 0 => exact hv.1
        | 1 => exact hv.2
        | j + 2 => exact h j (by omega)
      · intro h j hj
        exact h (j + 2) (by omega)
    · have hd : hexDecodePrefix (n + 1) (c :: b :: rest) = [] := by
        simp only [hexDecodePrefix, hv, Bool.false_eq_true, if_false]
      rw [hd]
      constructor
      · intro h; exact absurd h (Nat.succ_ne_zero n).symm
      · intro h
        exact absurd (Bool.and_eq_true _ _ ▸ ⟨h 0 (by omega), h 1 (by omega)⟩) hv

/-- Byte `i` of the reference decoding is `16 * value(hex[2i]) + value(hex[2i+1])`. -/
theorem hexDecodePrefix_getD : ∀ (n : Nat) (hex : Bytes) (i : Nat),
    i < (hexDecodePrefix n hex).length →
    (hexDecodePrefix n hex).getD i 0
      = Byte.ofNat (16 * hexValue (hex.getD (2 * i) 0) + hexValue (hex.getD (2 * i + 1) 0))
  | 0, hex, i, h => by
    rw [hexDecodePrefix_zero] at h; exact absurd h (Nat.not_lt_zero i)
  | n + 1, [], i, h => absurd h (Nat.not_lt_zero i)
  | n + 1, [_], i, h => absurd h (Nat.not_lt_zero i)
  | n + 1, c :: b :: rest, i, h => by
    by_cases hv : (isLowerHex c && isLowerHex b) = true
    · have hd : hexDecodePrefix (n + 1) (c :: b :: rest)
          = Byte.ofNat (16 * hexValue c + hexValue b) :: hexDecodePrefix n rest := by
        simp only [hexDecodePrefix, hv, if_true]
      rw [hd] at h ⊢
      match i with
      | 0 => rfl
      | i + 1 =>
        have h' : i < (hexDecodePrefix n rest).length := Nat.lt_of_succ_lt_succ h
        have e1 : (c :: b :: rest).getD (2 * (i + 1)) 0 = rest.getD (2 * i) 0 := by
          have e : 2 * (i + 1) = (2 * i) + 1 + 1 := by omega
          rw [e]; rfl
        have e2 : (c :: b :: rest).getD (2 * (i + 1) + 1) 0 = rest.getD (2 * i + 1) 0 := by
          have e : 2 * (i + 1) + 1 = (2 * i + 1) + 1 + 1 := by omega
          rw [e]; rfl
        rw [List.getD_cons_succ, hexDecodePrefix_getD n rest i h', e1, e2]
    · have hd : hexDecodePrefix (n + 1) (c :: b :: rest) = [] := by
        simp only [hexDecodePrefix, hv, Bool.false_eq_true, if_false]
      rw [hd] at h
      exact absurd h (Nat.not_lt_zero i)

set_option maxRecDepth 100000 in
theorem hexDigits_valid : ∀ x : Byte,
    (isLowerHex (lowerHexDigit (x.val / 16)) && isLowerHex (lowerHexDigit (x.val % 16))) = true ∧
    Byte.ofNat (16 * hexValue (lowerHexDigit (x.val / 16)) + hexValue (lowerHexDigit (x.val % 16)))
      = x := by
  decide!

/-- Decoding the reference encoding of a byte sequence gives the sequence back. -/
theorem hexDecodePrefix_hexEncode : ∀ (b rest : Bytes),
    hexDecodePrefix b.length (hexEncode b ++ rest) = b
  | [], rest => hexDecodePrefix_zero _
  | x :: xs, rest => by
    have h := hexDigits_valid x
    have ih := hexDecodePrefix_hexEncode xs rest
    show hexDecodePrefix (xs.length + 1)
      (lowerHexDigit (x.val / 16) :: lowerHexDigit (x.val % 16) :: (hexEncode xs ++ rest)) = x :: xs
    simp only [hexDecodePrefix, h.1, if_true, h.2, ih]

theorem hexEncode_length : ∀ b : Bytes, (hexEncode b).length = 2 * b.length
  | [] => rfl
  | x :: xs => by
    simp only [hexEncode, List.length_cons, hexEncode_length xs]; omega

theorem hexEncode_append : ∀ a b : Bytes, hexEncode (a ++ b) = hexEncode a ++ hexEncode b
  | [], b => rfl
  | x :: xs, b => by
    show lowerHexDigit (x.val / 16) :: lowerHexDigit (x.val % 16) :: hexEncode (xs ++ b)
      = lowerHexDigit (x.val / 16) :: lowerHexDigit (x.val % 16) :: (hexEncode xs ++ hexEncode b)
    rw [hexEncode_append xs b]

theorem forUp_zero_succ {σ : Type} (n : Nat) (f : Nat → σ → σ) (s : σ) :
    forUp 0 (n + 1) f s = f n (forUp 0 n f s) := by
  simp only [forUp, Nat.sub_zero, List.range'_concat, List.foldl_append, List.foldl_cons,
    List.foldl_nil, Nat.zero_add, Nat.one_mul]

theorem forUp_zero_zero {σ : Type} (f : Nat → σ → σ) (s : σ) : forUp 0 0 f s = s := rfl

set_option maxRecDepth 100000 in
theorem bin2hex_byte : ∀ v : Byte,
    Byte.ofNat (((hexchar (v.val &&& 0xf)).val <<< 8) ||| (hexchar (v.val >>> 4)).val)
      = lowerHexDigit (v.val / 16) ∧
    Byte.ofNat ((((hexchar (v.val &&& 0xf)).val <<< 8) ||| (hexchar (v.val >>> 4)).val) >>> 8)
      = lowerHexDigit (v.val % 16) := by
  decide!

theorem hexchar_eq : ∀ v, v < 16 → hexchar v = lowerHexDigit v := by decide

/-- One iteration of the loop of `bin2hex` writes the two digits of byte `k` at offset `2k`. -/
theorem bin2hex_step_spec (bin E rest : Bytes) (h0 h1 : Byte) (k : Nat) (hE : E.length = k * 2) :
    bin2hex_step bin k (E ++ h0 :: h1 :: rest)
      = E ++ lowerHexDigit ((bin.getD k 0).val / 16)
          :: lowerHexDigit ((bin.getD k 0).val % 16) :: rest := by
  have hb := bin2hex_byte (bin.getD k 0)
  unfold bin2hex_step
  simp only []
  rw [hb.1, hb.2, ← hE, List.set_append_right _ _ (Nat.le_refl _), Nat.sub_self,
    List.set_cons_zero, List.set_append_right _ _ (Nat.le_add_right _ _),
    Nat.add_sub_cancel_left]
  rfl

/-- After `k` iterations the loop of `bin2hex` has written the encoding of the first `k` bytes
and nothing else. -/
theorem bin2hex_loop_spec (bin hex : Bytes) : ∀ k, k ≤ bin.length → 2 * k ≤ hex.length →
    forUp 0 k (bin2hex_step bin) hex = hexEncode (bin.take k) ++ hex.drop (2 * k)
  | 0, _, _ => rfl
  | k + 1, hk, hh => by
    have ih := bin2hex_loop_spec bin hex k (by omega) (by omega)
    have hk' : k < bin.length := hk
    have h1 : 2 * k < hex.length := by omega
    have h2 : 2 * k + 1 < hex.length := by omega
    have hd : hex.drop (2 * k) = hex[2 * k] :: hex[2 * k + 1] :: hex.drop (2 * (k + 1)) := by
      rw [List.drop_eq_getElem_cons h1, List.drop_eq_getElem_cons h2]
      rfl
    have hE : (hexEncode (bin.take k)).length = k * 2 := by
      rw [hexEncode_length, List.length_take_of_le (Nat.le_of_lt hk')]; omega
    have ht : bin.take (k + 1) = bin.take k ++ [bin.getD k 0] := by
      rw [List.take_succ, List.getElem?_eq_getElem hk', List.getD_eq_getElem _ _ hk']
      rfl
    rw [forUp_zero_succ, ih, hd, bin2hex_step_spec bin _ _ _ _ k hE, ht, hexEncode_append]
    simp only [hexEncode, List.append_assoc, List.cons_append, List.nil_append]

/-- What `bin2hex` leaves in the buffer when it does not return `NULL`: the reference encoding,
a NUL, and the rest of the buffer as it was. -/
theorem bin2hex_spec (hex : Bytes) (hex_maxlen : Nat) (bin : Bytes) (bin_len : Nat)
    (hb : bin.length = bin_len) (hh : hex.length = hex_maxlen)
    (hobj : hex_maxlen ≤ SIZE_MAX / 2) (hfit : 2 * bin_len < hex_maxlen) :
    bin2hex hex hex_maxlen bin bin_len
      = some (hexEncode bin ++ 0 :: hex.drop (2 * bin_len + 1)) := by
  have hsz : SIZE_MAX / 2 = 9223372036854775807 := by decide
  have hguard : ¬ (bin_len ≥ SIZE_MAX / 2 ∨ hex_maxlen ≤ (bin_len * 2) % 2 ^ 64) := by
    rw [hsz] at hobj ⊢
    omega
  have hlen : 2 * bin_len < hex.length := by omega
  have hd : hex.drop (2 * bin_len) = hex[2 * bin_len] :: hex.drop (2 * bin_len + 1) :=
    List.drop_eq_getElem_cons hlen
  have hE : (hexEncode bin).length = bin_len * 2 := by
    rw [hexEncode_length, hb]; omega
  unfold bin2hex
  rw [if_neg hguard]
  simp only []
  rw [bin2hex_loop_spec bin hex bin_len (Nat.le_of_eq hb.symm) (by omega),
    List.take_of_length_le (Nat.le_of_eq hb), hd, ← hE,
    List.set_append_right _ _ (Nat.le_refl _), Nat.sub_self, List.set_cons_zero]

/-- `bin2hex` returns `NULL` when the buffer cannot hold the digits and the NUL. -/
theorem bin2hex_null (hex : Bytes) (hex_maxlen : Nat) (bin : Bytes) (bin_len : Nat)
    (hfit : hex_maxlen ≤ 2 * bin_len) :
    bin2hex hex hex_maxlen bin bin_len = none := by
  have hsz : SIZE_MAX / 2 = 9223372036854775807 := by decide
  have hguard : bin_len ≥ SIZE_MAX / 2 ∨ hex_maxlen ≤ (bin_len * 2) % 2 ^ 64 := by
    rw [hsz]
    omega
  unfold bin2hex
  rw [if_pos hguard]

theorem hex2bin_out (bin : Bytes) (bin_maxlen : Nat) (hex : Bytes) (hex_len : Nat)
    (hcap : bin_maxlen ≤ bin.length) :
    (hex2bin bin bin_maxlen hex hex_len).bin = bin ∨
    (hex2bin bin bin_maxlen hex hex_len).bin
      = hexDecodePrefix (hex_len / 2) hex
        ++ bin.drop (hexDecodePrefix (hex_len / 2) hex).length := by
  rw [hex2bin_spec bin bin_maxlen hex hex_len hcap]
  split
  · exact Or.inl rfl
  · exact Or.inr rfl

/-- C15, as amended: whenever `ipcrypt_key_from_hex`, `ipcrypt_ndip_from_hex` or
`ipcrypt_ndx_ndip_from_hex` returns -1, the output buffer is either unchanged or holds in its
first `k` bytes the bytes decoded from the `k` leading valid pairs of hex characters, with the
bytes from `k` on unchanged. -/
theorem from_hex_error_buffer (key ndip ndipx hex : Bytes) (key_len hex_len : Nat)
    (hk : key_len ≤ key.length) (hnd : IPCRYPT_NDIP_BYTES ≤ ndip.length)
    (hndx : IPCRYPT_NDX_NDIP_BYTES ≤ ndipx.length) :
    ((ipcrypt_key_from_hex key key_len hex hex_len).ret = -1 →
      (ipcrypt_key_from_hex key key_len hex hex_len).out = key ∨
      (ipcrypt_key_from_hex key key_len hex hex_len).out
        = hexDecodePrefix (hex_len / 2) hex
          ++ key.drop (hexDecodePrefix (hex_len / 2) hex).length) ∧
    ((ipcrypt_ndip_from_hex ndip hex hex_len).ret = -1 →
      (ipcrypt_ndip_from_hex ndip hex hex_len).out = ndip ∨
      (ipcrypt_ndip_from_hex ndip hex hex_len).out
        = hexDecodePrefix (hex_len / 2) hex
          ++ ndip.drop (hexDecodePrefix (hex_len / 2) hex).length) ∧
    ((ipcrypt_ndx_ndip_from_hex ndipx hex hex_len).ret = -1 →
      (ipcrypt_ndx_ndip_from_hex ndipx hex hex_len).out = ndipx ∨
      (ipcrypt_ndx_ndip_from_hex ndipx hex hex_len).out
        = hexDecodePrefix (hex_len / 2) hex
          ++ ndipx.drop (hexDecodePrefix (hex_len / 2) hex).length) := by
  refine ⟨fun _ => ?_, fun _ => ?_, fun _ => ?_⟩
  · unfold ipcrypt_key_from_hex
    split
    · exact Or.inl rfl
    · simp only []
      split <;> exact hex2bin_out key key_len hex hex_len hk
  · unfold ipcrypt_ndip_from_hex
    split
    · exact Or.inl rfl
    · simp only []
      split <;> exact hex2bin_out ndip _ hex hex_len hnd
  · unfold ipcrypt_ndx_ndip_from_hex
    split
    · exact Or.inl rfl
    · simp only []
      split <;> exact hex2bin_out ndipx _ hex hex_len hndx

set_option maxRecDepth 100000 in
/-- Counterexample for C15: on a 24-byte buffer of `ff` bytes, the 48-character string of 47
zeros and a final `g` makes `ipcrypt_ndip_from_hex` return -1 and leaves the first 23 bytes
decoded (00) and the last one as it was (ff): the buffer is neither unchanged nor cleared. -/
theorem from_hex_partial_counterexample :
    ¬ ((ipcrypt_ndip_from_hex (List.replicate 24 0xff) (List.replicate 47 0x30 ++ [0x67]) 48).ret
        = -1 →
      (ipcrypt_ndip_from_hex (List.replicate 24 0xff) (List.replicate 47 0x30 ++ [0x67]) 48).out
          = List.replicate 24 0xff ∨
      (ipcrypt_ndip_from_hex (List.replicate 24 0xff) (List.replicate 47 0x30 ++ [0x67]) 48).out
          = List.replicate 24 0) := by
  decide!

theorem hexDecodePrefix_val (n : Nat) (hex : Bytes) (i : Nat)
    (h : i < (hexDecodePrefix n hex).length)
    (hv : ∀ j, j < 2 * n → isLowerHex (hex.getD j 0) = true) :
    ((hexDecodePrefix n hex).getD i 0).val
      = 16 * hexValue (hex.getD (2 * i) 0) + hexValue (hex.getD (2 * i + 1) 0) := by
  have hi : i < n := Nat.lt_of_lt_of_le h (hexDecodePrefix_length_le n hex)
  have h1 := hexValue_lt _ (hv (2 * i) (by omega))
  have h2 := hexValue_lt _ (hv (2 * i + 1) (by omega))
  rw [hexDecodePrefix_getD n hex i h]
  exact Nat.mod_eq_of_lt (by omega)

/-- What `hex2bin` does when the length test passes and all characters are hex digits, and what
it returns otherwise. -/
theorem hex2bin_cases (bin : Bytes) (bin_maxlen : Nat) (hex : Bytes) (hex_len : Nat)
    (hcap : bin_maxlen ≤ bin.length) :
    ((hex_len % 2 = 0 ∧ hex_len / 2 ≤ bin_maxlen ∧
        ∀ j, j < hex_len → isLowerHex (hex.getD j 0) = true) →
      hex2bin bin bin_maxlen hex hex_len
        = ⟨hex_len / 2, hexDecodePrefix (hex_len / 2) hex ++ bin.drop (hex_len / 2)⟩ ∧
      (hexDecodePrefix (hex_len / 2) hex).length = hex_len / 2) ∧
    (¬ (hex_len % 2 = 0 ∧ hex_len / 2 ≤ bin_maxlen ∧
        ∀ j, j < hex_len → isLowerHex (hex.getD j 0) = true) →
      (hex2bin bin bin_maxlen hex hex_len).ret = 0) := by
  rw [hex2bin_spec bin bin_maxlen hex hex_len hcap]
  constructor
  · rintro ⟨h1, h2, h3⟩
    have hfull : (hexDecodePrefix (hex_len / 2) hex).length = hex_len / 2 :=
      (hexDecodePrefix_full_iff _ _).mpr fun j hj => h3 j (by omega)
    have hg : ¬ (hex_len % 2 ≠ 0 ∨ hex_len / 2 > bin_maxlen) := by omega
    rw [if_neg hg, hfull, if_pos rfl]
    exact ⟨rfl, rfl⟩
  · intro hn
    split
    · rfl
    · rename_i hg
      have hfull : ¬ (hexDecodePrefix (hex_len / 2) hex).length = hex_len / 2 := by
        intro hf
        apply hn
        refine ⟨by omega, by omega, fun j hj => ?_⟩
        exact (hexDecodePrefix_full_iff _ _).mp hf j (by omega)
      show (if _ then _ else _) = 0
      rw [if_neg hfull]

/-- C17, as amended: for every input, `hex2bin` returns `hex_len / 2` and leaves
`bin[i] = 16 * value(hex[2i]) + value(hex[2i+1])` for each `i < hex_len / 2` if `hex_len` is
even, `hex_len / 2 <= bin_maxlen` and every character is in `0-9` or lowercase `a-f`, and
returns 0 otherwise; and for `hex_len` other than 1 it returns `hex_len / 2` with these bytes
only if those three conditions hold. (For `hex_len = 1` the error value 0 is `hex_len / 2`.) -/
theorem hex2bin_accepts (bin : Bytes) (bin_maxlen : Nat) (hex : Bytes) (hex_len : Nat)
    (hcap : bin_maxlen ≤ bin.length) (hhex : hex_len ≤ hex.length) :
    ((hex_len % 2 = 0 ∧ hex_len / 2 ≤ bin_maxlen ∧
        ∀ j, j < hex_len → isLowerHex (hex.getD j 0) = true) →
      (hex2bin bin bin_maxlen hex hex_len).ret = hex_len / 2 ∧
      ∀ i, i < hex_len / 2 →
        ((hex2bin bin bin_maxlen hex hex_len).bin.getD i 0).val
          = 16 * hexValue (hex.getD (2 * i) 0) + hexValue (hex.getD (2 * i + 1) 0)) ∧
    (¬ (hex_len % 2 = 0 ∧ hex_len / 2 ≤ bin_maxlen ∧
        ∀ j, j < hex_len → isLowerHex (hex.getD j 0) = true) →
      (hex2bin bin bin_maxlen hex hex_len).ret = 0) ∧
    (hex_len ≠ 1 →
      (((hex2bin bin bin_maxlen hex hex_len).ret = hex_len / 2 ∧
        ∀ i, i < hex_len / 2 →
          ((hex2bin bin bin_maxlen hex hex_len).bin.getD i 0).val
            = 16 * hexValue (hex.getD (2 * i) 0) + hexValue (hex.getD (2 * i + 1) 0)) ↔
      (hex_len % 2 = 0 ∧ hex_len / 2 ≤ bin_maxlen ∧
        ∀ j, j < hex_len → isLowerHex (hex.getD j 0) = true))) := by
  have hc := hex2bin_cases bin bin_maxlen hex hex_len hcap
  have hpos : (hex_len % 2 = 0 ∧ hex_len / 2 ≤ bin_maxlen ∧
        ∀ j, j < hex_len → isLowerHex (hex.getD j 0) = true) →
      (hex2bin bin bin_maxlen hex hex_len).ret = hex_len / 2 ∧
      ∀ i, i < hex_len / 2 →
        ((hex2bin bin bin_maxlen hex hex_len).bin.getD i 0).val
          = 16 * hexValue (hex.getD (2 * i) 0) + hexValue (hex.getD (2 * i + 1) 0) := by
    intro hcond
    obtain ⟨he, hfull⟩ := hc.1 hcond
    rw [he]
    refine ⟨rfl, fun i hi => ?_⟩
    show ((hexDecodePrefix (hex_len / 2) hex ++ bin.drop (hex_len / 2)).getD i 0).val = _
    rw [List.getD_append _ _ _ _ (by rw [hfull]; exact hi)]
    exact hexDecodePrefix_val _ _ i (by rw [hfull]; exact hi)
      fun j hj => hcond.2.2 j (by omega)
  refine ⟨hpos, hc.2, fun h1 => ⟨fun hr => ?_, hpos⟩⟩
  by_contra hn
  have h0 := hc.2 hn
  have hz : hex_len = 0 := by
    have := hr.1
    omega
  apply hn
  subst hz
  exact ⟨rfl, Nat.zero_le _, fun j hj => absurd hj (Nat.not_lt_zero j)⟩

/-- Witness for C17 as amended: the string `01abff90` decoded into a 4-byte buffer. -/
theorem hex2bin_accepts_witness :
    4 ≤ (zeros 4).length ∧
    8 ≤ hex8.length ∧
    (((8 % 2 = 0 ∧ 8 / 2 ≤ 4 ∧
        ∀ j, j < 8 →
          isLowerHex (hex8.getD j 0)
            = true) →
      (hex2bin (zeros 4) 4 hex8 8).ret = 8 / 2 ∧
      ∀ i, i < 8 / 2 →
        ((hex2bin (zeros 4) 4 hex8 8).bin.getD i
            0).val
          = 16 * hexValue
                (hex8.getD (2 * i) 0)
            + hexValue
                (hex8.getD (2 * i + 1)
                  0)) ∧
    (¬ (8 % 2 = 0 ∧ 8 / 2 ≤ 4 ∧
        ∀ j, j < 8 →
          isLowerHex (hex8.getD j 0)
            = true) →
      (hex2bin (zeros 4) 4 hex8 8).ret = 0) ∧
    (8 ≠ 1 →
      (((hex2bin (zeros 4) 4 hex8 8).ret = 8 / 2 ∧
        ∀ i, i < 8 / 2 →
          ((hex2bin (zeros 4) 4 hex8 8).bin.getD i
              0).val
            = 16 * hexValue
                  (hex8.getD (2 * i) 0)
              + hexValue
                  (hex8.getD (2 * i + 1)
                    0)) ↔
      (8 % 2 = 0 ∧ 8 / 2 ≤ 4 ∧
        ∀ j, j < 8 →
          isLowerHex (hex8.getD j 0)
            = true)))) :=
  ⟨by decide, by decide,
    hex2bin_accepts (zeros 4) 4 hex8 8 (by decide)
      (by decide)⟩

/-- Counterexample for C17: for the one-character string `a` (`hex_len = 1`) `hex2bin` returns
0, which is `hex_len / 2`, with nothing to decode, although `hex_len` is odd: the two sides of
the claimed equivalence differ. -/
theorem hex2bin_odd_counterexample :
    ¬ (((hex2bin [] 0 [0x61] 1).ret = 1 / 2 ∧
        ∀ i, i < 1 / 2 →
          ((hex2bin [] 0 [0x61] 1).bin.getD i 0).val
            = 16 * hexValue (([0x61] : Bytes).getD (2 * i) 0)
              + hexValue (([0x61] : Bytes).getD (2 * i + 1) 0)) ↔
      (1 % 2 = 0 ∧ 1 / 2 ≤ 0 ∧
        ∀ j, j < 1 → isLowerHex (([0x61] : Bytes).getD j 0) = true)) := by
  intro h
  have hl : (hex2bin [] 0 [0x61] 1).ret = 1 / 2 ∧
      ∀ i, i < 1 / 2 →
        ((hex2bin [] 0 [0x61] 1).bin.getD i 0).val
          = 16 * hexValue (([0x61] : Bytes).getD (2 * i) 0)
            + hexValue (([0x61] : Bytes).getD (2 * i + 1) 0) :=
    ⟨by decide, fun i hi => absurd hi (Nat.not_lt_zero i)⟩
  exact absurd (h.mp hl).1 (by decide)

/-- Witness for C15 as amended: the 48-character string whose last character is `g`, given to
the three functions. -/
theorem from_hex_error_buffer_witness :
    16 ≤ (zeros 16).length ∧ IPCRYPT_NDIP_BYTES ≤ ff24.length ∧
    IPCRYPT_NDX_NDIP_BYTES ≤ (zeros 32).length ∧
    ((ipcrypt_key_from_hex (zeros 16) 16 hexBadLast 48).ret = -1 →
      (ipcrypt_key_from_hex (zeros 16) 16 hexBadLast 48).out = zeros 16 ∨
      (ipcrypt_key_from_hex (zeros 16) 16 hexBadLast 48).out
        = hexDecodePrefix (48 / 2) hexBadLast
          ++ (zeros 16).drop (hexDecodePrefix (48 / 2) hexBadLast).length) ∧
    ((ipcrypt_ndip_from_hex ff24 hexBadLast 48).ret = -1 →
      (ipcrypt_ndip_from_hex ff24 hexBadLast 48).out = ff24 ∨
      (ipcrypt_ndip_from_hex ff24 hexBadLast 48).out
        = hexDecodePrefix (48 / 2) hexBadLast
          ++ ff24.drop (hexDecodePrefix (48 / 2) hexBadLast).length) ∧
    ((ipcrypt_ndx_ndip_from_hex (zeros 32) hexBadLast 48).ret = -1 →
      (ipcrypt_ndx_ndip_from_hex (zeros 32) hexBadLast 48).out = zeros 32 ∨
      (ipcrypt_ndx_ndip_from_hex (zeros 32) hexBadLast 48).out
        = hexDecodePrefix (48 / 2) hexBadLast
          ++ (zeros 32).drop (hexDecodePrefix (48 / 2) hexBadLast).length) :=
  ⟨le_of_eq (zeros_length _).symm, by decide, le_of_eq (zeros_length _).symm,
    from_hex_error_buffer (zeros 16) ff24 (zeros 32) hexBadLast 16 48
      (le_of_eq (zeros_length _).symm) (by decide) (le_of_eq (zeros_length _).symm)⟩

/-- `ipcrypt_key_from_hex` in terms of the result of `hex2bin`. -/
theorem key_from_hex_eq (key hex : Bytes) (key_len hex_len : Nat) :
    ipcrypt_key_from_hex key key_len hex hex_len
      = if hex_len = 32 ∨ hex_len = 64 then
          if (hex2bin key key_len hex hex_len).ret = key_len then
            ⟨0, (hex2bin key key_len hex hex_len).bin⟩
          else ⟨-1, (hex2bin key key_len hex hex_len).bin⟩
        else ⟨-1, key⟩ := by
  unfold ipcrypt_key_from_hex
  by_cases h : hex_len = 32 ∨ hex_len = 64
  · have h' : ¬ (hex_len ≠ 2 * IPCRYPT_KEYBYTES ∧ hex_len ≠ 2 * IPCRYPT_NDX_KEYBYTES) := by
      simp only [IPCRYPT_KEYBYTES, IPCRYPT_NDX_KEYBYTES]; omega
    rw [if_neg h', if_pos h]
    simp only []
    by_cases hr : (hex2bin key key_len hex hex_len).ret = key_len
    · rw [if_pos hr, if_neg (fun hn => hn hr)]
    · rw [if_neg hr, if_pos hr]
  · have h' : hex_len ≠ 2 * IPCRYPT_KEYBYTES ∧ hex_len ≠ 2 * IPCRYPT_NDX_KEYBYTES := by
      simp only [IPCRYPT_KEYBYTES, IPCRYPT_NDX_KEYBYTES]; omega
    rw [if_pos h', if_neg h]

/-- C16, what the code does: with `key_len = 0`, every string of 32 or 64 characters, hex digits
or not, makes `ipcrypt_key_from_hex` return 0 with the buffer untouched, although nothing was
decoded; for every other `key_len` it returns 0 exactly when `hex_len` is 32 or 64, every
character is a lowercase hex digit and `hex_len = 2 * key_len`, the buffer then holding the
decoded bytes, and returns -1 in every other case. -/
theorem ipcrypt_key_from_hex_status (key hex : Bytes) (key_len hex_len : Nat)
    (hk : key_len ≤ key.length) :
    (key_len = 0 → (hex_len = 32 ∨ hex_len = 64) →
      ipcrypt_key_from_hex key key_len hex hex_len = ⟨0, key⟩) ∧
    (key_len ≠ 0 →
      ((ipcrypt_key_from_hex key key_len hex hex_len).ret = 0 ↔
        (hex_len = 32 ∨ hex_len = 64) ∧
        (∀ j, j < hex_len → isLowerHex (hex.getD j 0) = true) ∧ hex_len = 2 * key_len) ∧
      ((ipcrypt_key_from_hex key key_len hex hex_len).ret = 0 →
        (ipcrypt_key_from_hex key key_len hex hex_len).out
          = hexDecodePrefix key_len hex ++ key.drop key_len ∧
        (hexDecodePrefix key_len hex).length = key_len) ∧
      ((ipcrypt_key_from_hex key key_len hex hex_len).ret ≠ 0 →
        (ipcrypt_key_from_hex key key_len hex hex_len).ret = -1)) := by
  have hc := hex2bin_cases key key_len hex hex_len hk
  rw [key_from_hex_eq]
  constructor
  · intro h0 hl
    subst h0
    have hbad : ¬ (hex_len % 2 = 0 ∧ hex_len / 2 ≤ 0 ∧
        ∀ j, j < hex_len → isLowerHex (hex.getD j 0) = true) := by omega
    have hret := hc.2 hbad
    have hbin : (hex2bin key 0 hex hex_len).bin = key := by
      rw [hex2bin_spec key 0 hex hex_len hk, if_pos (by omega)]
    rw [if_pos hl, if_pos hret, hbin]
  · intro hne
    by_cases hl : hex_len = 32 ∨ hex_len = 64
    · rw [if_pos hl]
      by_cases hcond : hex_len % 2 = 0 ∧ hex_len / 2 ≤ key_len ∧
          ∀ j, j < hex_len → isLowerHex (hex.getD j 0) = true
      · obtain ⟨he, hfull⟩ := hc.1 hcond
        rw [he]
        by_cases hkl : hex_len / 2 = key_len
        · rw [if_pos hkl]
          refine ⟨⟨fun _ => ⟨hl, hcond.2.2, by omega⟩, fun _ => rfl⟩, fun _ => ?_,
            fun h => absurd rfl h⟩
          rw [← hkl]
          exact ⟨rfl, hfull⟩
        · rw [if_neg hkl]
          refine ⟨⟨fun h => absurd (show (-1 : Int) = 0 from h) (by decide), fun h => ?_⟩, fun h => absurd (show (-1 : Int) = 0 from h) (by decide),
            fun _ => rfl⟩
          exact absurd (by omega) hkl
      · have hret := hc.2 hcond
        have hr : ¬ (hex2bin key key_len hex hex_len).ret = key_len := by
          rw [hret]; exact fun h => hne h.symm
        rw [if_neg hr]
        refine ⟨⟨fun h => absurd (show (-1 : Int) = 0 from h) (by decide), fun h => ?_⟩, fun h => absurd (show (-1 : Int) = 0 from h) (by decide),
          fun _ => rfl⟩
        exact absurd ⟨by omega, by omega, h.2.1⟩ hcond
    · rw [if_neg hl]
      exact ⟨⟨fun h => absurd (show (-1 : Int) = 0 from h) (by decide), fun h => absurd h.1 hl⟩,
        fun h => absurd (show (-1 : Int) = 0 from h) (by decide), fun _ => rfl⟩

/-- Witness for C16: a 32-character string of the letter `z` and `key_len = 0`. -/
theorem ipcrypt_key_from_hex_status_witness :
    0 ≤ ([] : Bytes).length ∧
    ((0 = 0 → (32 = 32 ∨ 32 = 64) →
      ipcrypt_key_from_hex [] 0 (List.replicate 32 0x7a) 32 = ⟨0, []⟩) ∧
    (0 ≠ 0 →
      ((ipcrypt_key_from_hex [] 0 (List.replicate 32 0x7a) 32).ret = 0 ↔
        (32 = 32 ∨ 32 = 64) ∧
        (∀ j, j < 32 → isLowerHex ((List.replicate 32 (0x7a : Byte)).getD j 0) = true) ∧
        32 = 2 * 0) ∧
      ((ipcrypt_key_from_hex [] 0 (List.replicate 32 0x7a) 32).ret = 0 →
        (ipcrypt_key_from_hex [] 0 (List.replicate 32 0x7a) 32).out
          = hexDecodePrefix 0 (List.replicate 32 0x7a) ++ ([] : Bytes).drop 0 ∧
        (hexDecodePrefix 0 (List.replicate 32 0x7a)).length = 0) ∧
      ((ipcrypt_key_from_hex [] 0 (List.replicate 32 0x7a) 32).ret ≠ 0 →
        (ipcrypt_key_from_hex [] 0 (List.replicate 32 0x7a) 32).ret = -1))) :=
  ⟨Nat.le_refl 0, ipcrypt_key_from_hex_status [] (List.replicate 32 0x7a) 0 32 (Nat.le_refl 0)⟩

/-- The digits of byte `i` in the reference encoding. -/
theorem hexEncode_getD : ∀ (b : Bytes) (i : Nat), i < b.length →
    (hexEncode b).getD (2 * i) 0 = lowerHexDigit ((b.getD i 0).val / 16) ∧
    (hexEncode b).getD (2 * i + 1) 0 = lowerHexDigit ((b.getD i 0).val % 16)
  | [], i, h => absurd h (Nat.not_lt_zero i)
  | x :: xs, 0, _ => ⟨rfl, rfl⟩
  | x :: xs, i + 1, h => by
    have ih := hexEncode_getD xs i (Nat.lt_of_succ_lt_succ h)
    have e1 : 2 * (i + 1) = 2 * i + 1 + 1 := by omega
    rw [e1]
    exact ih

/-- C18: for a byte sequence `bin` of `bin_len` bytes and a buffer of `hex_maxlen` bytes
(`hex_maxlen` within the size an object can have), if `hex_maxlen > 2 * bin_len` then `bin2hex`
succeeds and leaves in the buffer `2 * bin_len` characters, a NUL, and the rest untouched, where
characters `2i` and `2i + 1` are the lowercase hex digits of the high and of the low nibble of
`bin[i]`; if `hex_maxlen <= 2 * bin_len` it returns `NULL`; and the branch-free expression
`hexchar v` is the lowercase hex digit of `v` for every nibble `v`. -/
theorem bin2hex_lowercase (hex : Bytes) (hex_maxlen : Nat) (bin : Bytes) (bin_len : Nat)
    (hb : bin.length = bin_len) (hh : hex.length = hex_maxlen)
    (hobj : hex_maxlen ≤ SIZE_MAX / 2) :
    (2 * bin_len < hex_maxlen →
      ∃ digits : Bytes,
        bin2hex hex hex_maxlen bin bin_len
          = some (digits ++ 0 :: hex.drop (2 * bin_len + 1)) ∧
        digits.length = 2 * bin_len ∧
        ∀ i, i < bin_len →
          digits.getD (2 * i) 0 = lowerHexDigit ((bin.getD i 0).val / 16) ∧
          digits.getD (2 * i + 1) 0 = lowerHexDigit ((bin.getD i 0).val % 16)) ∧
    (hex_maxlen ≤ 2 * bin_len → bin2hex hex hex_maxlen bin bin_len = none) ∧
    (∀ v, v < 16 →
      hexchar v = ([0x30, 0x31, 0x32, 0x33, 0x34, 0x35, 0x36, 0x37, 0x38, 0x39,
        0x61, 0x62, 0x63, 0x64, 0x65, 0x66] : Bytes).getD v 0) := by
  refine ⟨fun hfit => ⟨hexEncode bin, bin2hex_spec hex hex_maxlen bin bin_len hb hh hobj hfit,
    by rw [hexEncode_length, hb], fun i hi => hexEncode_getD bin i (by omega)⟩,
    bin2hex_null hex hex_maxlen bin bin_len, hexchar_eq⟩

/-- Witness for C18: the bytes `01 ab ff 90` written into a buffer of 9 bytes. -/
theorem bin2hex_lowercase_witness :
    bin4.length = 4 ∧ (zeros 9).length = 9 ∧ 9 ≤ SIZE_MAX / 2 ∧
    ((2 * 4 < 9 →
      ∃ digits : Bytes,
        bin2hex (zeros 9) 9 bin4 4 = some (digits ++ 0 :: (zeros 9).drop (2 * 4 + 1)) ∧
        digits.length = 2 * 4 ∧
        ∀ i, i < 4 →
          digits.getD (2 * i) 0 = lowerHexDigit ((bin4.getD i 0).val / 16) ∧
          digits.getD (2 * i + 1) 0 = lowerHexDigit ((bin4.getD i 0).val % 16)) ∧
    (9 ≤ 2 * 4 → bin2hex (zeros 9) 9 bin4 4 = none) ∧
    (∀ v, v < 16 →
      hexchar v = ([0x30, 0x31, 0x32, 0x33, 0x34, 0x35, 0x36, 0x37, 0x38, 0x39,
        0x61, 0x62, 0x63, 0x64, 0x65, 0x66] : Bytes).getD v 0)) :=
  ⟨by decide, zeros_length 9, by decide,
    bin2hex_lowercase (zeros 9) 9 bin4 4 (by decide) (zeros_length 9) (by decide)⟩

/-- C19: for every byte sequence `b` of `N` bytes, `bin2hex` into a buffer with room for
`2N + 1` characters succeeds, and `hex2bin` on the `2N` characters it wrote, with a destination
of capacity at least `N`, returns `N` and leaves `b` in the first `N` bytes of the destination
(the rest of the destination untouched). -/
theorem hex2bin_bin2hex (b hex dst : Bytes) (hex_maxlen bin_maxlen : Nat)
    (hh : hex.length = hex_maxlen) (hobj : hex_maxlen ≤ SIZE_MAX / 2)
    (hfit : 2 * b.length < hex_maxlen) (hcap : b.length ≤ bin_maxlen)
    (hdst : bin_maxlen ≤ dst.length) :
    ∃ h : Bytes, bin2hex hex hex_maxlen b b.length = some h ∧
      hex2bin dst bin_maxlen h (2 * b.length) = ⟨b.length, b ++ dst.drop b.length⟩ := by
  refine ⟨_, bin2hex_spec hex hex_maxlen b b.length rfl hh hobj hfit, ?_⟩
  have hdiv : 2 * b.length / 2 = b.length := by omega
  have hg : ¬ (2 * b.length % 2 ≠ 0 ∨ 2 * b.length / 2 > bin_maxlen) := by omega
  rw [hex2bin_spec dst bin_maxlen _ _ hdst, if_neg hg, hdiv, hexDecodePrefix_hexEncode,
    if_pos rfl]

/-- Witness for C19: the bytes `01 ab ff 90`, a 9-byte string buffer and a 4-byte
destination. -/
theorem hex2bin_bin2hex_witness :
    (zeros 9).length = 9 ∧ 9 ≤ SIZE_MAX / 2 ∧ 2 * bin4.length < 9 ∧ bin4.length ≤ 4 ∧
    4 ≤ ff24.length ∧
    ∃ h : Bytes, bin2hex (zeros 9) 9 bin4 bin4.length = some h ∧
      hex2bin ff24 4 h (2 * bin4.length) = ⟨bin4.length, bin4 ++ ff24.drop bin4.length⟩ :=
  ⟨zeros_length 9, by decide, by decide, by decide, by decide,
    hex2bin_bin2hex bin4 (zeros 9) ff24 9 4 (zeros_length 9) (by decide) (by decide) (by decide)
      (by decide)⟩

/-! ## IP address strings -/

theorem cstr_append_nul : ∀ (s rest : Bytes), (∀ c, c ∈ s → c ≠ 0) → cstr (s ++ 0 :: rest) = s
  | [], rest, _ => by
    show List.takeWhile (fun c => c != 0) (0 :: rest) = []
    rw [List.takeWhile_cons]
    rfl
  | x :: xs, rest, h => by
    have hx : (x != 0) = true := by
      simp only [bne_iff_ne, ne_eq]
      exact h x (List.mem_cons_self x xs)
    have ih := cstr_append_nul xs rest fun c hc => h c (List.mem_cons_of_mem x hc)
    show List.takeWhile (fun c => c != 0) (x :: (xs ++ 0 :: rest)) = x :: xs
    rw [List.takeWhile_cons, hx]
    show x :: cstr (xs ++ 0 :: rest) = x :: xs
    rw [ih]

theorem cstr_storeStr (dst s : Bytes) (h : ∀ c, c ∈ s → c ≠ 0) : cstr (storeStr dst s) = s :=
  cstr_append_nul s _ h

theorem strlen_storeStr (dst s : Bytes) (h : ∀ c, c ∈ s → c ≠ 0) :
    strlen (storeStr dst s) = s.length := by
  unfold strlen
  rw [cstr_storeStr dst s h]

/-- The first loop of `ipcrypt_ip16_to_str` leaves `is_ipv4_mapped` set only if every byte it
looked at is zero. -/
theorem ipv4_mapped_scan_zero (ip16 : Bytes) : ∀ (n i : Nat), ipv4_mapped_scan ip16 n i ≠ 0 →
    ∀ j, j < n → ip16.getD (i + j) 0 = 0
  | 0, _, _, j, hj => absurd hj (Nat.not_lt_zero j)
  | n + 1, i, h, j, hj => by
    unfold ipv4_mapped_scan at h
    by_cases h0 : ip16.getD i 0 ≠ 0
    · rw [if_pos h0] at h
      exact absurd rfl h
    · rw [if_neg h0] at h
      cases j with
      | zero => exact not_not.mp h0
      | succ j =>
        have := ipv4_mapped_scan_zero ip16 n (i + 1) h j (Nat.lt_of_succ_lt_succ hj)
        rw [Nat.add_assoc, Nat.add_comm 1 j] at this
        exact this

/-- A 16-byte value for which `ipcrypt_ip16_to_str` takes the IPv4 branch is the IPv4-mapped
form of its last four bytes, which is what `ipcrypt_str_to_ip16` builds. -/
theorem ipv4_mapped_rebuild (v ip16 : Bytes) (hv : v.length = 16) (hi : ip16.length = 16)
    (hscan : ipv4_mapped_scan v 10 0 ≠ 0) (h10 : v.getD 10 0 = 0xff)
    (h11 : v.getD 11 0 = 0xff) :
    atOffset (((memset ip16 0 16).set 10 0xff).set 11 0xff) 12
        (fun p => memcpy p (memcpy (zeros 4) (v.drop 12) 4) 4) = v := by
  have hz := ipv4_mapped_scan_zero v 10 0 hscan
  obtain ⟨a0, a1, a2, a3, a4, a5, a6, a7, a8, a9, a10, a11, a12, a13, a14, a15, rfl⟩ :=
    list_length_sixteen v hv
  obtain ⟨b0, b1, b2, b3, b4, b5, b6, b7, b8, b9, b10, b11, b12, b13, b14, b15, rfl⟩ :=
    list_length_sixteen ip16 hi
  have e0 : a0 = 0 := hz 0 (by decide)
  have e1 : a1 = 0 := hz 1 (by decide)
  have e2 : a2 = 0 := hz 2 (by decide)
  have e3 : a3 = 0 := hz 3 (by decide)
  have e4 : a4 = 0 := hz 4 (by decide)
  have e5 : a5 = 0 := hz 5 (by decide)
  have e6 : a6 = 0 := hz 6 (by decide)
  have e7 : a7 = 0 := hz 7 (by decide)
  have e8 : a8 = 0 := hz 8 (by decide)
  have e9 : a9 = 0 := hz 9 (by decide)
  have e10 : a10 = 0xff := h10
  have e11 : a11 = 0xff := h11
  subst e0 e1 e2 e3 e4 e5 e6 e7 e8 e9 e10 e11
  rfl

/-- What `ipcrypt_ip16_to_str` writes for a 16-byte value on a platform whose parser inverts its
formatter: a string without NUL, the same whatever the buffer held, from which
`ipcrypt_str_to_ip16` gives the value back. -/
theorem ip16_to_str_shape (libc : Libc) (hlibc : parserInvertsFormatter libc) (v : Bytes)
    (hv : v.length = 16) :
    ∃ s : Bytes, (∀ c, c ∈ s → c ≠ 0) ∧
      (∀ buf, ipcrypt_ip16_to_str libc buf v = ⟨s.length, storeStr buf s⟩) ∧
      (∀ ip16 rest, ip16.length = 16 →
        ipcrypt_str_to_ip16 libc ip16 (s ++ 0 :: rest) = ⟨0, v⟩) := by
  by_cases hm : (if ipv4_mapped_scan v 10 0 ≠ 0 ∧ (v.getD 10 0 ≠ 0xff ∨ v.getD 11 0 ≠ 0xff)
      then 0 else ipv4_mapped_scan v 10 0) ≠ 0
  · have hscan : ipv4_mapped_scan v 10 0 ≠ 0 := by
      intro h0
      apply hm
      rw [h0]
      split <;> rfl
    have hff : v.getD 10 0 = 0xff ∧ v.getD 11 0 = 0xff := by
      by_contra hn
      apply hm
      rw [if_pos ⟨hscan, by
        by_cases ha : v.getD 10 0 = 0xff
        · exact Or.inr fun hb => hn ⟨ha, hb⟩
        · exact Or.inl ha⟩]
    have hal : (memcpy (zeros 4) (v.drop 12) 4).length = 4 := by
      rw [memcpy_eq _ _ 4 (by rw [List.length_drop, hv])]
      simp only [List.length_append, List.length_drop, hv, zeros_length]
    obtain ⟨s, hnt, _, hnul, hp6, hp4⟩ := hlibc.1 _ hal
    refine ⟨s, hnul, fun buf => ?_, fun ip16 rest hi => ?_⟩
    · unfold ipcrypt_ip16_to_str
      simp only []
      rw [if_pos hm, hnt]
      simp only []
      rw [strlen_storeStr buf s hnul]
    · unfold ipcrypt_str_to_ip16
      rw [cstr_append_nul s rest hnul, hp6, hp4]
      simp only []
      rw [ipv4_mapped_rebuild v ip16 hv hi hscan hff.1 hff.2]
  · have hal : memcpy (zeros 16) v 16 = v := by
      rw [memcpy_eq _ _ 16 hv, List.drop_eq_nil_of_le (Nat.le_of_eq (zeros_length 16)),
        List.append_nil]
    obtain ⟨s, hnt, _, hnul, hp6⟩ := hlibc.2 v hv
    refine ⟨s, hnul, fun buf => ?_, fun ip16 rest hi => ?_⟩
    · unfold ipcrypt_ip16_to_str
      simp only []
      rw [if_neg hm, hal, hnt]
      simp only []
      rw [strlen_storeStr buf s hnul]
    · unfold ipcrypt_str_to_ip16
      rw [cstr_append_nul s rest hnul, hp6]
      simp only []
      rw [memcpy_eq _ _ 16 hv, List.drop_eq_nil_of_le (Nat.le_of_eq hi), List.append_nil]

theorem encrypt_ip16_length (arch : Backend) (ipcrypt : IPCrypt) (P : Bytes)
    (hP : P.length = 16) : (ipcrypt_encrypt_ip16 arch ipcrypt P).length = 16 := by
  unfold ipcrypt_encrypt_ip16
  simp only []
  rw [aes_encrypt_eq, List.drop_eq_nil_of_le (Nat.le_of_eq hP), List.append_nil,
    block_toList_length]

theorem decrypt_ip16_of_encrypt_ip16 (arch : Backend) (ipcrypt : IPCrypt) (P : Bytes)
    (hP : P.length = 16) :
    ipcrypt_decrypt_ip16 arch ipcrypt (ipcrypt_encrypt_ip16 arch ipcrypt P) = P := by
  unfold ipcrypt_decrypt_ip16 ipcrypt_encrypt_ip16
  simp only []
  rw [aes_encrypt_eq, aes_decrypt_eq, List.drop_eq_nil_of_le (Nat.le_of_eq hP),
    List.append_nil, block_ofList_toList, block_drop_toList, List.append_nil,
    InvCipher_Cipher, block_toList_ofList P hP]

/-! ### The example platform -/

set_option maxRecDepth 100000 in
theorem lowerHexDigit_ne_zero : ∀ x : Byte,
    lowerHexDigit (x.val / 16) ≠ 0 ∧ lowerHexDigit (x.val % 16) ≠ 0 := by
  decide!

theorem hexEncode_ne_zero : ∀ (b : Bytes) (c : Byte), c ∈ hexEncode b → c ≠ 0
  | [], c, h => absurd h (List.not_mem_nil c)
  | x :: xs, c, h => by
    have hx := lowerHexDigit_ne_zero x
    have h' : c ∈ lowerHexDigit (x.val / 16) :: lowerHexDigit (x.val % 16) :: hexEncode xs := h
    rcases List.mem_cons.mp h' with h1 | h1
    · rw [h1]; exact hx.1
    · rcases List.mem_cons.mp h1 with h2 | h2
      · rw [h2]; exact hx.2
      · exact hexEncode_ne_zero xs c h2

theorem hexParse_hexEncode (n : Nat) (a : Bytes) (h : a.length = n) :
    hexParse n (hexEncode a) = some a := by
  have hd : hexDecodePrefix n (hexEncode a) = a := by
    have := hexDecodePrefix_hexEncode a []
    rw [List.append_nil, h] at this
    exact this
  unfold hexParse
  rw [hd, if_pos ⟨by rw [hexEncode_length, h], h⟩]

theorem hexParse_length (n : Nat) (s : Bytes) (h : s.length ≠ 2 * n) : hexParse n s = none := by
  unfold hexParse
  rw [if_neg fun hc => h hc.1]

/-- On the example platform the parser inverts the formatter. -/
theorem hexLibc_inverts : parserInvertsFormatter hexLibc := by
  constructor
  · intro a ha
    refine ⟨hexEncode a, ?_, ?_, hexEncode_ne_zero a, ?_, ?_⟩
    · show hexFormat a INET_ADDRSTRLEN = some (hexEncode a)
      unfold hexFormat
      rw [if_pos (by rw [ha]; decide)]
    · rw [hexEncode_length, ha]; decide
    · show hexParse 16 (hexEncode a) = none
      exact hexParse_length 16 _ (by rw [hexEncode_length, ha]; decide)
    · show hexParse 4 (hexEncode a) = some a
      exact hexParse_hexEncode 4 a ha
  · intro v hv
    refine ⟨hexEncode v, ?_, ?_, hexEncode_ne_zero v, ?_⟩
    · show hexFormat v INET6_ADDRSTRLEN = some (hexEncode v)
      unfold hexFormat
      rw [if_pos (by rw [hv]; decide)]
    · rw [hexEncode_length, hv]; decide
    · show hexParse 16 (hexEncode v) = some v
      exact hexParse_hexEncode 16 v hv

/-- When `ipcrypt_str_to_ip16` returns -1 it has not touched the buffer. -/
theorem str_to_ip16_failure (libc : Libc) (ip16 ip_str : Bytes)
    (h : (ipcrypt_str_to_ip16 libc ip16 ip_str).ret = -1) :
    (ipcrypt_str_to_ip16 libc ip16 ip_str).ip16 = ip16 := by
  unfold ipcrypt_str_to_ip16 at h ⊢
  split
  · rename_i addr6 h6
    rw [h6] at h
    exact absurd (show (0 : Int) = -1 from h) (by decide)
  · rename_i h6
    rw [h6] at h
    split
    · rename_i addr4 h4
      rw [h4] at h
      exact absurd (show (0 : Int) = -1 from h) (by decide)
    · rfl

/-- C14, what the code does: whenever `ipcrypt_str_to_ip16` returns -1 on the input string,
`ipcrypt_nd_encrypt_ip_str` still returns 48 and `ipcrypt_ndx_encrypt_ip_str` still returns 64,
not 0, and `ipcrypt_encrypt_ip_str` returns what `ipcrypt_ip16_to_str` returns for the
encryption of whatever its local array `ip16` held on entry. -/
theorem encrypt_ip_str_parse_failure (arch : Backend) (libc : Libc) (ipcrypt : IPCrypt)
    (ipcrypt_ndx : IPCryptNDX) (encrypted_ip_str ip_str random random_ndx ip16 : Bytes)
    (hfail : (ipcrypt_str_to_ip16 libc ip16 ip_str).ret = -1) :
    (ipcrypt_nd_encrypt_ip_str arch libc ipcrypt encrypted_ip_str ip_str random ip16).ret = 48 ∧
    (ipcrypt_ndx_encrypt_ip_str arch libc ipcrypt_ndx encrypted_ip_str ip_str random_ndx
      ip16).ret = 64 ∧
    ipcrypt_encrypt_ip_str arch libc ipcrypt encrypted_ip_str ip_str ip16
      = ipcrypt_ip16_to_str libc encrypted_ip_str (ipcrypt_encrypt_ip16 arch ipcrypt ip16) := by
  refine ⟨rfl, rfl, ?_⟩
  unfold ipcrypt_encrypt_ip_str
  simp only []
  rw [str_to_ip16_failure libc ip16 ip_str hfail]

/-- Witness for C14: the string `not an ip` on the example platform. -/
theorem encrypt_ip_str_parse_failure_witness :
    (ipcrypt_str_to_ip16 hexLibc (zeros 16) notAnIp).ret = -1 ∧
    (ipcrypt_nd_encrypt_ip_str .x86 hexLibc (ipcrypt_init .x86 ⟨zeros 176⟩ fipsKey) (zeros 65)
      notAnIp ndTweak (zeros 16)).ret = 48 ∧
    (ipcrypt_ndx_encrypt_ip_str .x86 hexLibc (ipcrypt_ndx_init .x86 ⟨zeros 352⟩ ndxKey)
      (zeros 65) notAnIp (zeros 16) (zeros 16)).ret = 64 ∧
    ipcrypt_encrypt_ip_str .x86 hexLibc (ipcrypt_init .x86 ⟨zeros 176⟩ fipsKey) (zeros 65)
        notAnIp (zeros 16)
      = ipcrypt_ip16_to_str hexLibc (zeros 65)
          (ipcrypt_encrypt_ip16 .x86 (ipcrypt_init .x86 ⟨zeros 176⟩ fipsKey) (zeros 16)) :=
  ⟨by decide,
    encrypt_ip_str_parse_failure .x86 hexLibc (ipcrypt_init .x86 ⟨zeros 176⟩ fipsKey)
      (ipcrypt_ndx_init .x86 ⟨zeros 352⟩ ndxKey) (zeros 65) notAnIp ndTweak (zeros 16) (zeros 16)
      (by decide)⟩

/-! ## The two instruction sets and the tweaked schedule -/

theorem expandedTweak_zeros : expandedTweak (zeros 8) = Block.zero := rfl

theorem keySchedule_at_map (rkeys : KeySchedule) (f : Block → Block) (i : Nat)
    (h : i < rkeys.length) : KeySchedule.at (rkeys.map f) i = f (rkeys.at i) := by
  unfold KeySchedule.at
  rw [List.getD_eq_getElem _ _ (by rw [List.length_map]; exact h), List.getD_eq_getElem _ _ h,
    List.getElem_map]

/-- C24: for every key schedule of eleven round keys, every tweak and every block,
`aes_decrypt_with_tweak` returns what plain `aes_decrypt` returns on the schedule
`RKS[i] xor T`, with `T` the expansion of the tweak; the round keys it uses in the middle rounds,
`RKINVERT(T) xor rkeys_inv[i]`, are the inverse schedule of that tweaked schedule; and
`InvMixColumns` distributes over the xor with `T`. -/
theorem aes_decrypt_with_tweak_is_tweaked_schedule (arch : Backend) (x : Bytes) (st : AesState)
    (tweak : Bytes) (hst : st.rkeys.length = 1 + ROUNDS) :
    aes_decrypt_with_tweak arch x st tweak
      = aes_decrypt arch x ⟨st.rkeys.map fun k => k.xor (TWEAK_EXPAND arch tweak)⟩ ∧
    (∀ i, i < ROUNDS - 1 →
      XOR128 arch (RKINVERT arch (TWEAK_EXPAND arch tweak))
          (InvKeySchedule.at (invert_keys arch st.rkeys) i)
        = InvKeySchedule.at
            (invert_keys arch (st.rkeys.map fun k => k.xor (TWEAK_EXPAND arch tweak))) i) ∧
    (∀ i, i < 1 + ROUNDS →
      InvMixColumns ((st.rkeys.at i).xor (TWEAK_EXPAND arch tweak))
        = (InvMixColumns (st.rkeys.at i)).xor (InvMixColumns (TWEAK_EXPAND arch tweak))) := by
  have hat : ∀ i, i < 11 →
      KeySchedule.at (st.rkeys.map fun k => k.xor (TWEAK_EXPAND arch tweak)) i
        = (st.rkeys.at i).xor (TWEAK_EXPAND arch tweak) :=
    fun i hi => keySchedule_at_map st.rkeys _ i (by rw [hst]; exact hi)
  refine ⟨?_, fun i hi => ?_, fun i _ => InvMixColumns_xor _ _⟩
  · have hc := InvCipher_congr (Block.ofList x)
      (fun i => (st.rkeys.at i).xor (expandedTweak tweak))
      (KeySchedule.at (st.rkeys.map fun k => k.xor (TWEAK_EXPAND arch tweak)))
      (fun i hi => by rw [hat i hi, TWEAK_EXPAND_eq])
    rw [aes_decrypt_with_tweak_eq, aes_decrypt_eq, hc]
  · have hi9 : i < 9 := hi
    rw [invert_keys_at arch _ i hi9, invert_keys_at arch _ i hi9, hat (9 - i) (by omega),
      XOR128_eq, RKINVERT_eq, InvMixColumns_xor, block_xor_comm]

/-- Witness for C24: the expanded FIPS 197 example key, the tweak `0001020304050607` and the
FIPS 197 example ciphertext on the x86 branch. -/
theorem aes_decrypt_with_tweak_is_tweaked_schedule_witness :
    (AesState.mk (expand_key .x86 AesState.uninit.rkeys fipsKey)).rkeys.length = 1 + ROUNDS ∧
    (aes_decrypt_with_tweak .x86 fipsCipher ⟨expand_key .x86 AesState.uninit.rkeys fipsKey⟩
        ndTweak
      = aes_decrypt .x86 fipsCipher
          ⟨(AesState.mk (expand_key .x86 AesState.uninit.rkeys fipsKey)).rkeys.map fun k =>
            k.xor (TWEAK_EXPAND .x86 ndTweak)⟩ ∧
    (∀ i, i < ROUNDS - 1 →
      XOR128 .x86 (RKINVERT .x86 (TWEAK_EXPAND .x86 ndTweak))
          (InvKeySchedule.at
            (invert_keys .x86
              (AesState.mk (expand_key .x86 AesState.uninit.rkeys fipsKey)).rkeys) i)
        = InvKeySchedule.at
            (invert_keys .x86
              ((AesState.mk (expand_key .x86 AesState.uninit.rkeys fipsKey)).rkeys.map fun k =>
                k.xor (TWEAK_EXPAND .x86 ndTweak))) i) ∧
    (∀ i, i < 1 + ROUNDS →
      InvMixColumns
          (((AesState.mk (expand_key .x86 AesState.uninit.rkeys fipsKey)).rkeys.at i).xor
            (TWEAK_EXPAND .x86 ndTweak))
        = (InvMixColumns
            ((AesState.mk (expand_key .x86 AesState.uninit.rkeys fipsKey)).rkeys.at i)).xor
          (InvMixColumns (TWEAK_EXPAND .x86 ndTweak)))) :=
  ⟨by decide,
    aes_decrypt_with_tweak_is_tweaked_schedule .x86 fipsCipher
      ⟨expand_key .x86 AesState.uninit.rkeys fipsKey⟩ ndTweak (by decide)⟩

/-- C25: for every key schedule and every block, the AArch64 branch of `aes_encrypt` returns
the same bytes as the x86 branch; an AArch64 round is `MixColumns(SubBytes(ShiftRows(x xor k)))`
and its last step leaves out `MixColumns`, an x86 round is
`MixColumns(SubBytes(ShiftRows(x))) xor k` and its last round leaves out `MixColumns`. -/
theorem aes_encrypt_backends_agree (x : Bytes) (st : AesState) :
    aes_encrypt .aarch64 x st = aes_encrypt .x86 x st ∧
    (∀ t k : Block, AES_XENCRYPT t k = MixColumns (SubBytes (ShiftRows (t.xor k)))) ∧
    (∀ t k : Block, AES_XENCRYPTLAST t k = SubBytes (ShiftRows (t.xor k))) ∧
    (∀ t k : Block, AES_ENCRYPT t k = (MixColumns (SubBytes (ShiftRows t))).xor k) ∧
    (∀ t k : Block, AES_ENCRYPTLAST t k = (SubBytes (ShiftRows t)).xor k) := by
  refine ⟨?_, fun t k => ?_, fun t k => ?_, fun t k => ?_, fun t k => ?_⟩
  · rw [aes_encrypt_eq, aes_encrypt_eq]
  · rw [AES_XENCRYPT_eq, SubBytes_ShiftRows]; rfl
  · rw [AES_XENCRYPTLAST_eq, SubBytes_ShiftRows]; rfl
  · rw [AES_ENCRYPT_eq, SubBytes_ShiftRows]; rfl
  · rw [AES_ENCRYPTLAST_eq, SubBytes_ShiftRows]; rfl

/-- C26: for every key schedule and every block, the AArch64 branch of `aes_decrypt` returns
the same bytes as the x86 branch; an AArch64 round is
`InvMixColumns(InvSubBytes(InvShiftRows(x xor k)))` and its last step leaves out
`InvMixColumns`, an x86 round is `InvMixColumns(InvSubBytes(InvShiftRows(x))) xor k` and its
last round leaves out `InvMixColumns`; both read the same inverted keys. -/
theorem aes_decrypt_backends_agree (x : Bytes) (st : AesState) :
    aes_decrypt .aarch64 x st = aes_decrypt .x86 x st ∧
    invert_keys .aarch64 st.rkeys = invert_keys .x86 st.rkeys ∧
    (∀ t k : Block, AES_XDECRYPT t k = InvMixColumns (InvSubBytes (InvShiftRows (t.xor k)))) ∧
    (∀ t k : Block, AES_XDECRYPTLAST t k = InvSubBytes (InvShiftRows (t.xor k))) ∧
    (∀ t k : Block, AES_DECRYPT t k = (InvMixColumns (InvSubBytes (InvShiftRows t))).xor k) ∧
    (∀ t k : Block, AES_DECRYPTLAST t k = (InvSubBytes (InvShiftRows t)).xor k) := by
  refine ⟨?_, rfl, fun t k => ?_, fun t k => ?_, fun t k => rfl, fun t k => rfl⟩
  · rw [aes_decrypt_eq, aes_decrypt_eq]
  · rw [AES_XDECRYPT_eq]; rfl
  · rw [AES_XDECRYPTLAST_eq]; rfl

/-- The AArch64 `AES_KEYGEN` gives the register that AESKEYGENASSIST gives. -/
theorem AES_KEYGEN_eq (X : Block) (rc : Nat) (hrc : rc < 256) :
    AES_KEYGEN .aarch64 X rc = AES_KEYGEN .x86 X rc := by
  cases X
  simp only [AES_KEYGEN, SET64x2_rc rc hrc]
  simp only [XOR128, veorq_u64, vmovq_n_u8, __builtin_shufflevector_u8x16, vaeseq_u8, SubBytes,
    ShiftRows, Block.xor, Block.ofFn, Block.get, _mm_aeskeygenassist_si128,
    List.getD_cons_zero, List.getD_cons_succ, Nat.reduceMod, Nat.reduceDiv, Nat.reduceAdd,
    Nat.reduceMul, Nat.reduceSub, Nat.reduceLT, if_true, if_false, byte_xor_zero,
    byte_zero_xor, Block.mk.injEq, and_self]

/-- C27: for every block `X` and every round constant `rc` below 256 (the ten constants of
AES-128 among them), the AArch64 `AES_KEYGEN` (an AES round with a zero key, the byte shuffle,
the xor of `rc` into bytes 4 and 12) equals the AESKEYGENASSIST result of x86, which is
`SubWord(X1)`, `RotWord(SubWord(X1)) xor rc`, `SubWord(X3)`, `RotWord(SubWord(X3)) xor rc`; and
`expand_key` fills an array of eleven round keys with the same keys on both. -/
theorem AES_KEYGEN_backends_agree (X : Block) (rc : Nat) (hrc : rc < 256) :
    AES_KEYGEN .aarch64 X rc = AES_KEYGEN .x86 X rc ∧
    AES_KEYGEN .x86 X rc
      = ofWords (SubWord (word X 1))
          ((RotWord (SubWord (word X 1))).xor ⟨Byte.ofNat rc, 0, 0, 0⟩)
          (SubWord (word X 3))
          ((RotWord (SubWord (word X 3))).xor ⟨Byte.ofNat rc, 0, 0, 0⟩) ∧
    (∀ (rkeys : KeySchedule) (key : Bytes), rkeys.length = 1 + ROUNDS →
      expand_key .aarch64 rkeys key = expand_key .x86 rkeys key) := by
  refine ⟨AES_KEYGEN_eq X rc hrc, ?_, fun rkeys key h => ?_⟩
  · cases X
    simp only [AES_KEYGEN, _mm_aeskeygenassist_si128, ofWords, word, SubWord, RotWord, Word.xor,
      Block.get, Block.ofFn, Nat.reduceMul, Nat.reduceAdd, byte_xor_zero]
  · rw [expand_key_eq .aarch64 rkeys key h, expand_key_eq .x86 rkeys key h]

/-- Witness for C27: the FIPS 197 example key as the block and the first round constant. -/
theorem AES_KEYGEN_backends_agree_witness :
    1 < 256 ∧
    (AES_KEYGEN .aarch64 (Block.ofList fipsKey) 1 = AES_KEYGEN .x86 (Block.ofList fipsKey) 1 ∧
    AES_KEYGEN .x86 (Block.ofList fipsKey) 1
      = ofWords (SubWord (word (Block.ofList fipsKey) 1))
          ((RotWord (SubWord (word (Block.ofList fipsKey) 1))).xor ⟨Byte.ofNat 1, 0, 0, 0⟩)
          (SubWord (word (Block.ofList fipsKey) 3))
          ((RotWord (SubWord (word (Block.ofList fipsKey) 3))).xor ⟨Byte.ofNat 1, 0, 0, 0⟩) ∧
    (∀ (rkeys : KeySchedule) (key : Bytes), rkeys.length = 1 + ROUNDS →
      expand_key .aarch64 rkeys key = expand_key .x86 rkeys key)) :=
  ⟨by decide, AES_KEYGEN_backends_agree (Block.ofList fipsKey) 1 (by decide)⟩

theorem aes_decrypt_with_zero_tweak (arch : Backend) (x : Bytes) (st : AesState) :
    aes_decrypt_with_tweak arch x st (zeros 8) = aes_decrypt arch x st := by
  rw [aes_decrypt_with_tweak_eq, aes_decrypt_eq, expandedTweak_zeros]
  simp only [block_xor_zero]

theorem aes_encrypt_with_zero_tweak (arch : Backend) (x : Bytes) (st : AesState) :
    aes_encrypt_with_tweak arch x st (zeros 8) = aes_encrypt arch x st := by
  rw [aes_encrypt_with_tweak_eq, aes_encrypt_eq, expandedTweak_zeros]
  simp only [block_xor_zero]

/-- C29: for every key `K` and every 16-byte block `P`, the bundle that
`ipcrypt_nd_encrypt_ip16` writes with the all-zero 8-byte tweak has 24 bytes, of which bytes 8 to
23 are what `ipcrypt_encrypt_ip16` returns for `P` under the same context; and with the zero
tweak `aes_encrypt_with_tweak` is `aes_encrypt` and `aes_decrypt_with_tweak` is `aes_decrypt`,
for every state and buffer. `ndip0` is what the bundle buffer held before. -/
theorem nd_zero_tweak_is_deterministic (arch : Backend) (ctx0 : IPCrypt) (K P ndip0 : Bytes)
    (hP : P.length = 16) (hnd : ndip0.length = IPCRYPT_NDIP_BYTES) :
    (ipcrypt_nd_encrypt_ip16 arch (ipcrypt_init arch ctx0 K) ndip0 P (zeros 8)).length = 24 ∧
    (ipcrypt_nd_encrypt_ip16 arch (ipcrypt_init arch ctx0 K) ndip0 P (zeros 8)).drop 8
      = ipcrypt_encrypt_ip16 arch (ipcrypt_init arch ctx0 K) P ∧
    (∀ (x : Bytes) (st : AesState),
      aes_encrypt_with_tweak arch x st (zeros 8) = aes_encrypt arch x st) ∧
    (∀ (x : Bytes) (st : AesState),
      aes_decrypt_with_tweak arch x st (zeros 8) = aes_decrypt arch x st) := by
  have he : ipcrypt_encrypt_ip16 arch (ipcrypt_init arch ctx0 K) P
      = (Cipher (Block.ofList P) (ctxKeys (ipcrypt_init arch ctx0 K))).toList := by
    unfold ipcrypt_encrypt_ip16
    simp only []
    rw [aes_encrypt_eq, List.drop_eq_nil_of_le (Nat.le_of_eq hP), List.append_nil]
    rfl
  rw [ipcrypt_nd_encrypt_ip16_eq arch _ ndip0 P (zeros 8) (zeros_length 8) hP hnd, he,
    expandedTweak_zeros]
  simp only [block_xor_zero]
  refine ⟨?_, ?_, aes_encrypt_with_zero_tweak arch, aes_decrypt_with_zero_tweak arch⟩
  · rw [List.length_append, zeros_length, block_toList_length]
  · exact List.drop_left' (zeros_length 8)

/-- Witness for C29: the FIPS 197 example key and the block of 192.0.2.1 on the AArch64
branch. -/
theorem nd_zero_tweak_is_deterministic_witness :
    ipBlock.length = 16 ∧ (zeros 24).length = IPCRYPT_NDIP_BYTES ∧
    (ipcrypt_nd_encrypt_ip16 .aarch64 (ipcrypt_init .aarch64 ⟨zeros 176⟩ fipsKey) (zeros 24)
      ipBlock (zeros 8)).length = 24 ∧
    (ipcrypt_nd_encrypt_ip16 .aarch64 (ipcrypt_init .aarch64 ⟨zeros 176⟩ fipsKey) (zeros 24)
        ipBlock (zeros 8)).drop 8
      = ipcrypt_encrypt_ip16 .aarch64 (ipcrypt_init .aarch64 ⟨zeros 176⟩ fipsKey) ipBlock ∧
    (∀ (x : Bytes) (st : AesState),
      aes_encrypt_with_tweak .aarch64 x st (zeros 8) = aes_encrypt .aarch64 x st) ∧
    (∀ (x : Bytes) (st : AesState),
      aes_decrypt_with_tweak .aarch64 x st (zeros 8) = aes_decrypt .aarch64 x st) :=
  ⟨by decide, zeros_length 24,
    nd_zero_tweak_is_deterministic .aarch64 ⟨zeros 176⟩ fipsKey ipBlock (zeros 24) (by decide)
      (zeros_length 24)⟩

/-! ## Hex strings that are rejected -/

/-- `hex2bin` into a buffer of `n` bytes returns `n` only for a string of `2 * n` lowercase hex
characters. -/
theorem hex2bin_ret_full (bin hex : Bytes) (n hex_len : Nat) (hcap : n ≤ bin.length)
    (hn : n ≠ 0)
    (h : ¬ (hex_len = 2 * n ∧ ∀ j, j < 2 * n → isLowerHex (hex.getD j 0) = true)) :
    (hex2bin bin n hex hex_len).ret ≠ n := by
  have hc := hex2bin_cases bin n hex hex_len hcap
  by_cases hcond : hex_len % 2 = 0 ∧ hex_len / 2 ≤ n ∧
      ∀ j, j < hex_len → isLowerHex (hex.getD j 0) = true
  · rw [(hc.1 hcond).1]
    intro he
    have hl : hex_len = 2 * n := by
      have : hex_len / 2 = n := he
      omega
    exact h ⟨hl, fun j hj => hcond.2.2 j (by omega)⟩
  · rw [hc.2 hcond]
    exact fun he => hn he.symm

theorem memset_getD (dst : Bytes) (n i : Nat) (h : i < n) : (memset dst 0 n).getD i 0 = 0 := by
  unfold memset
  rw [List.getD_append _ _ _ _ (by rw [List.length_replicate]; exact h),
    List.getD_eq_getElem _ _ (by rw [List.length_replicate]; exact h), List.getElem_replicate]

/-- C21: for every input string that is not exactly 48 lowercase hex characters,
`ipcrypt_nd_decrypt_ip_str` returns 0 and leaves the string buffer as the initial `memset` left
it, and so does `ipcrypt_ndx_decrypt_ip_str` for every input string that is not exactly 64
lowercase hex characters; the first `IPCRYPT_MAX_IP_STR_BYTES` bytes of that buffer are zero. The
result does not depend on the context: nothing was decrypted. -/
theorem nd_decrypt_ip_str_rejects (arch : Backend) (libc : Libc) (ipcrypt : IPCrypt)
    (ipcrypt_ndx : IPCryptNDX) (ip_str encrypted_ip_str : Bytes) :
    (¬ (strlen encrypted_ip_str = 48 ∧
        ∀ j, j < 48 → isLowerHex (encrypted_ip_str.getD j 0) = true) →
      ipcrypt_nd_decrypt_ip_str arch libc ipcrypt ip_str encrypted_ip_str
        = ⟨0, memset ip_str 0 IPCRYPT_MAX_IP_STR_BYTES⟩) ∧
    (¬ (strlen encrypted_ip_str = 64 ∧
        ∀ j, j < 64 → isLowerHex (encrypted_ip_str.getD j 0) = true) →
      ipcrypt_ndx_decrypt_ip_str arch libc ipcrypt_ndx ip_str encrypted_ip_str
        = ⟨0, memset ip_str 0 IPCRYPT_MAX_IP_STR_BYTES⟩) ∧
    (∀ i, i < IPCRYPT_MAX_IP_STR_BYTES →
      (memset ip_str 0 IPCRYPT_MAX_IP_STR_BYTES).getD i 0 = 0) := by
  refine ⟨fun h => ?_, fun h => ?_, fun i hi => memset_getD ip_str _ i hi⟩
  · have hr := hex2bin_ret_full (zeros IPCRYPT_NDIP_BYTES) encrypted_ip_str IPCRYPT_NDIP_BYTES
      (strlen encrypted_ip_str) (le_of_eq (zeros_length _).symm) (by decide) h
    unfold ipcrypt_nd_decrypt_ip_str
    simp only []
    rw [if_pos hr]
  · have hr := hex2bin_ret_full (zeros IPCRYPT_NDX_NDIP_BYTES) encrypted_ip_str
      IPCRYPT_NDX_NDIP_BYTES (strlen encrypted_ip_str) (le_of_eq (zeros_length _).symm)
      (by decide) h
    unfold ipcrypt_ndx_decrypt_ip_str
    simp only []
    rw [if_pos hr]

/-- Witness for C21: 48 characters of which the last is an uppercase `G`, in a buffer that held
`ff` bytes. -/
theorem nd_decrypt_ip_str_rejects_witness :
    ¬ (strlen hexUpperLast = 48 ∧ ∀ j, j < 48 → isLowerHex (hexUpperLast.getD j 0) = true) ∧
    ((¬ (strlen hexUpperLast = 48 ∧
        ∀ j, j < 48 → isLowerHex (hexUpperLast.getD j 0) = true) →
      ipcrypt_nd_decrypt_ip_str .x86 hexLibc (ipcrypt_init .x86 ⟨zeros 176⟩ fipsKey)
          (List.replicate 46 0xff) hexUpperLast
        = ⟨0, memset (List.replicate 46 0xff) 0 IPCRYPT_MAX_IP_STR_BYTES⟩) ∧
    (¬ (strlen hexUpperLast = 64 ∧
        ∀ j, j < 64 → isLowerHex (hexUpperLast.getD j 0) = true) →
      ipcrypt_ndx_decrypt_ip_str .x86 hexLibc (ipcrypt_ndx_init .x86 ⟨zeros 352⟩ ndxKey)
          (List.replicate 46 0xff) hexUpperLast
        = ⟨0, memset (List.replicate 46 0xff) 0 IPCRYPT_MAX_IP_STR_BYTES⟩) ∧
    (∀ i, i < IPCRYPT_MAX_IP_STR_BYTES →
      (memset (List.replicate 46 0xff) 0 IPCRYPT_MAX_IP_STR_BYTES).getD i 0 = 0)) :=
  ⟨fun h => absurd (h.2 47 (by decide)) (by decide),
    nd_decrypt_ip_str_rejects .x86 hexLibc (ipcrypt_init .x86 ⟨zeros 176⟩ fipsKey)
      (ipcrypt_ndx_init .x86 ⟨zeros 352⟩ ndxKey) (List.replicate 46 0xff) hexUpperLast⟩

/-! ## Socket addresses -/

theorem memcmp_eq_zero : ∀ (n : Nat) (a b : Bytes),
    memcmp a b n = 0 ↔ ∀ i, i < n → a.getD i 0 = b.getD i 0
  | 0, a, b => ⟨fun _ i hi => absurd hi (Nat.not_lt_zero i), fun _ => rfl⟩
  | n + 1, a, b => by
    have ih := memcmp_eq_zero n (a.drop 1) (b.drop 1)
    have hd : ∀ (l : Bytes) (i : Nat), (l.drop 1).getD i 0 = l.getD (i + 1) 0 := by
      intro l i
      cases l with
      | nil => rfl
      | cons x xs => rfl
    unfold memcmp
    by_cases h0 : a.getD 0 0 = b.getD 0 0
    · rw [if_pos h0, ih]
      constructor
      · intro h i hi
        cases i with
        | zero => exact h0
        | succ i =>
          have := h i (Nat.lt_of_succ_lt_succ hi)
          rw [hd, hd] at this
          exact this
      · intro h i hi
        rw [hd, hd]
        exact h (i + 1) (Nat.succ_lt_succ hi)
    · rw [if_neg h0]
      constructor
      · intro h
        exfalso
        apply h0
        apply Fin.ext
        omega
      · intro h
        exact absurd (h 0 (Nat.succ_pos n)) h0

/-- The test of `ipcrypt_ip16_to_sockaddr` holds exactly for the IPv4-mapped form. -/
theorem memcmp_ipv4_mapped (ip16 : Bytes) :
    memcmp ip16 [0, 0, 0, 0, 0, 0, 0, 0, 0, 0, 0xff, 0xff] 12 = 0 ↔ isIPv4Mapped ip16 := by
  rw [memcmp_eq_zero]
  constructor
  · intro h
    refine ⟨fun i hi => ?_, h 10 (by decide), h 11 (by decide)⟩
    have := h i (by omega)
    interval_cases i <;> exact this
  · rintro ⟨h, h10, h11⟩ i hi
    by_cases h9 : i < 10
    · have := h i h9
      interval_cases i <;> exact this
    · have : i = 10 ∨ i = 11 := by omega
      rcases this with rfl | rfl
      · exact h10
      · exact h11

theorem ipv4_mapped_scan_of_zero (ip16 : Bytes) : ∀ (n i : Nat),
    (∀ j, j < n → ip16.getD (i + j) 0 = 0) → ipv4_mapped_scan ip16 n i = 1
  | 0, _, _ => rfl
  | n + 1, i, h => by
    unfold ipv4_mapped_scan
    have h0 : ¬ ip16.getD i 0 ≠ 0 := not_not.mpr (h 0 (Nat.succ_pos n))
    rw [if_neg h0]
    apply ipv4_mapped_scan_of_zero ip16 n (i + 1)
    intro j hj
    have := h (j + 1) (Nat.succ_lt_succ hj)
    rw [Nat.add_assoc, Nat.add_comm 1 j]
    exact this

/-- The flag `is_ipv4_mapped` of `ipcrypt_ip16_to_str` is set exactly for the IPv4-mapped
form. -/
theorem is_ipv4_mapped_iff (ip16 : Bytes) :
    (if ipv4_mapped_scan ip16 10 0 ≠ 0 ∧ (ip16.getD 10 0 ≠ 0xff ∨ ip16.getD 11 0 ≠ 0xff) then 0
      else ipv4_mapped_scan ip16 10 0) ≠ 0 ↔ isIPv4Mapped ip16 := by
  constructor
  · intro hm
    have hscan : ipv4_mapped_scan ip16 10 0 ≠ 0 := by
      intro h0
      apply hm
      rw [h0]
      split <;> rfl
    have hz := ipv4_mapped_scan_zero ip16 10 0 hscan
    have hff : ip16.getD 10 0 = 0xff ∧ ip16.getD 11 0 = 0xff := by
      by_contra hn
      apply hm
      rw [if_pos ⟨hscan, by
        by_cases ha : ip16.getD 10 0 = 0xff
        · exact Or.inr fun hb => hn ⟨ha, hb⟩
        · exact Or.inl ha⟩]
    refine ⟨fun i hi => ?_, hff.1, hff.2⟩
    have := hz i hi
    rw [Nat.zero_add] at this
    exact this
  · rintro ⟨h, h10, h11⟩
    have hs : ipv4_mapped_scan ip16 10 0 = 1 :=
      ipv4_mapped_scan_of_zero ip16 10 0 fun j hj => by rw [Nat.zero_add]; exact h j hj
    have hn : ¬ (ipv4_mapped_scan ip16 10 0 ≠ 0 ∧
        (ip16.getD 10 0 ≠ 0xff ∨ ip16.getD 11 0 ≠ 0xff)) := by
      rintro ⟨_, h1 | h1⟩
      · exact h1 h10
      · exact h1 h11
    rw [if_neg hn, hs]
    exact Nat.one_ne_zero

/-- The 16 bytes that both conversions build from an IPv4 address. -/
theorem ipv4_mapped_build (ip16 addr : Bytes) (hi : ip16.length = 16) (ha : addr.length = 4) :
    atOffset (((memset ip16 0 10).set 10 0xff).set 11 0xff) 12 (fun p => memcpy p addr 4)
      = [0, 0, 0, 0, 0, 0, 0, 0, 0, 0, 0xff, 0xff] ++ addr ∧
    atOffset (((memset ip16 0 16).set 10 0xff).set 11 0xff) 12 (fun p => memcpy p addr 4)
      = [0, 0, 0, 0, 0, 0, 0, 0, 0, 0, 0xff, 0xff] ++ addr := by
  obtain ⟨b0, b1, b2, b3, b4, b5, b6, b7, b8, b9, b10, b11, b12, b13, b14, b15, rfl⟩ :=
    list_length_sixteen ip16 hi
  match addr, ha with
  | [a, b, c, d], _ => exact ⟨rfl, rfl⟩

/-- A 16-byte value of the IPv4-mapped form is the prefix followed by its last four bytes. -/
theorem ipv4_mapped_split (v : Bytes) (hv : v.length = 16) (hm : isIPv4Mapped v) :
    [0, 0, 0, 0, 0, 0, 0, 0, 0, 0, 0xff, 0xff] ++ v.drop 12 = v := by
  obtain ⟨h, h10, h11⟩ := hm
  obtain ⟨a0, a1, a2, a3, a4, a5, a6, a7, a8, a9, a10, a11, a12, a13, a14, a15, rfl⟩ :=
    list_length_sixteen v hv
  have e0 : a0 = 0 := h 0 (by decide)
  have e1 : a1 = 0 := h 1 (by decide)
  have e2 : a2 = 0 := h 2 (by decide)
  have e3 : a3 = 0 := h 3 (by decide)
  have e4 : a4 = 0 := h 4 (by decide)
  have e5 : a5 = 0 := h 5 (by decide)
  have e6 : a6 = 0 := h 6 (by decide)
  have e7 : a7 = 0 := h 7 (by decide)
  have e8 : a8 = 0 := h 8 (by decide)
  have e9 : a9 = 0 := h 9 (by decide)
  have e10 : a10 = 0xff := h10
  have e11 : a11 = 0xff := h11
  subst e0 e1 e2 e3 e4 e5 e6 e7 e8 e9 e10 e11
  rfl

theorem drop_twelve_length (v : Bytes) (hv : v.length = 16) : (v.drop 12).length = 4 := by
  rw [List.length_drop, hv]

theorem memcpy_zeros (src : Bytes) (n : Nat) (h : src.length = n) :
    memcpy (zeros n) src n = src := by
  rw [memcpy_eq _ _ n h, List.drop_eq_nil_of_le (Nat.le_of_eq (zeros_length n)),
    List.append_nil]

/-- What `ipcrypt_ip16_to_sockaddr` builds, by the form of the value. -/
theorem ip16_to_sockaddr_eq (os : Sockets) (v : Bytes) (hv : v.length = 16) :
    (isIPv4Mapped v → ipcrypt_ip16_to_sockaddr os v
      = ⟨if os.sin_len then os.sizeof_sockaddr_in else 0, os.AF_INET, v.drop 12, zeros 16⟩) ∧
    (¬ isIPv4Mapped v → ipcrypt_ip16_to_sockaddr os v
      = ⟨if os.sin_len then os.sizeof_sockaddr_in6 else 0, os.AF_INET6, zeros 4, v⟩) := by
  constructor
  · intro hm
    have hc : memcmp v [0, 0, 0, 0, 0, 0, 0, 0, 0, 0, 0xff, 0xff]
        ([0, 0, 0, 0, 0, 0, 0, 0, 0, 0, 0xff, 0xff] : Bytes).length = 0 :=
      (memcmp_ipv4_mapped v).mpr hm
    unfold ipcrypt_ip16_to_sockaddr
    simp only []
    rw [if_pos hc]
    simp only [sockaddr_storage.zero]
    rw [memcpy_zeros _ 4 (drop_twelve_length v hv)]
    cases os.sin_len <;> rfl
  · intro hm
    have hc : ¬ memcmp v [0, 0, 0, 0, 0, 0, 0, 0, 0, 0, 0xff, 0xff]
        ([0, 0, 0, 0, 0, 0, 0, 0, 0, 0, 0xff, 0xff] : Bytes).length = 0 :=
      fun h => hm ((memcmp_ipv4_mapped v).mp h)
    unfold ipcrypt_ip16_to_sockaddr
    simp only []
    rw [if_neg hc]
    simp only [sockaddr_storage.zero]
    rw [memcpy_zeros _ 16 hv]
    cases os.sin_len <;> rfl

/-- C22: for every IPv4 address with octets `a`, `b`, `c`, `d` and every 16-byte buffer,
`ipcrypt_sockaddr_to_ip16` on an `AF_INET` socket address with that address, and
`ipcrypt_str_to_ip16` on a string that the platform parses as that IPv4 address and not as IPv6,
return 0 and leave `00 x10, ff, ff, a, b, c, d` in the buffer whatever it held; an `AF_INET6`
socket address is copied verbatim; any other family makes `ipcrypt_sockaddr_to_ip16` return -1
with the buffer untouched. -/
theorem ipv4_is_mapped (os : Sockets) (libc : Libc) (ip16 ip_str : Bytes) (a b c d : Byte)
    (sa : sockaddr_storage) (hbuf : ip16.length = 16) (hos : os.AF_INET ≠ os.AF_INET6) :
    (sa.ss_family = os.AF_INET → sa.sin_addr = [a, b, c, d] →
      ipcrypt_sockaddr_to_ip16 os ip16 sa
        = ⟨0, [0, 0, 0, 0, 0, 0, 0, 0, 0, 0, 0xff, 0xff, a, b, c, d]⟩) ∧
    (libc.inet_pton .AF_INET6 (cstr ip_str) = none →
      libc.inet_pton .AF_INET (cstr ip_str) = some [a, b, c, d] →
      ipcrypt_str_to_ip16 libc ip16 ip_str
        = ⟨0, [0, 0, 0, 0, 0, 0, 0, 0, 0, 0, 0xff, 0xff, a, b, c, d]⟩) ∧
    (sa.ss_family = os.AF_INET6 → sa.sin6_addr.length = 16 →
      ipcrypt_sockaddr_to_ip16 os ip16 sa = ⟨0, sa.sin6_addr⟩) ∧
    (sa.ss_family ≠ os.AF_INET → sa.ss_family ≠ os.AF_INET6 →
      ipcrypt_sockaddr_to_ip16 os ip16 sa = ⟨-1, ip16⟩) := by
  have hb := ipv4_mapped_build ip16 [a, b, c, d] hbuf rfl
  refine ⟨fun hf ha => ?_, fun h6 h4 => ?_, fun hf hl => ?_, fun h4 h6 => ?_⟩
  · unfold ipcrypt_sockaddr_to_ip16
    rw [if_pos hf, ha]
    simp only []
    rw [hb.1]
    rfl
  · unfold ipcrypt_str_to_ip16
    rw [h6, h4]
    simp only []
    rw [hb.2]
    rfl
  · have hne : ¬ sa.ss_family = os.AF_INET := by rw [hf]; exact fun h => hos h.symm
    unfold ipcrypt_sockaddr_to_ip16
    rw [if_neg hne, if_pos hf, memcpy_eq _ _ 16 hl, List.drop_eq_nil_of_le (Nat.le_of_eq hbuf),
      List.append_nil]
  · unfold ipcrypt_sockaddr_to_ip16
    rw [if_neg h4, if_neg h6]

/-- Witness for C22: the address 192.0.2.1 with the Linux constants and the example platform,
in a buffer that held 16 `ff` bytes. -/
theorem ipv4_is_mapped_witness :
    (List.replicate 16 (0xff : Byte)).length = 16 ∧
    linuxSockets.AF_INET ≠ linuxSockets.AF_INET6 ∧
    ((((⟨0, 2, [0xc0, 0x00, 0x02, 0x01], zeros 16⟩ : sockaddr_storage).ss_family
          = linuxSockets.AF_INET →
        (⟨0, 2, [0xc0, 0x00, 0x02, 0x01], zeros 16⟩ : sockaddr_storage).sin_addr
          = [0xc0, 0x00, 0x02, 0x01] →
      ipcrypt_sockaddr_to_ip16 linuxSockets (List.replicate 16 0xff)
          ⟨0, 2, [0xc0, 0x00, 0x02, 0x01], zeros 16⟩
        = ⟨0, [0, 0, 0, 0, 0, 0, 0, 0, 0, 0, 0xff, 0xff, 0xc0, 0x00, 0x02, 0x01]⟩) ∧
    (hexLibc.inet_pton .AF_INET6 (cstr hexIp4) = none →
      hexLibc.inet_pton .AF_INET (cstr hexIp4) = some [0xc0, 0x00, 0x02, 0x01] →
      ipcrypt_str_to_ip16 hexLibc (List.replicate 16 0xff) hexIp4
        = ⟨0, [0, 0, 0, 0, 0, 0, 0, 0, 0, 0, 0xff, 0xff, 0xc0, 0x00, 0x02, 0x01]⟩) ∧
    ((⟨0, 2, [0xc0, 0x00, 0x02, 0x01], zeros 16⟩ : sockaddr_storage).ss_family
          = linuxSockets.AF_INET6 →
        (⟨0, 2, [0xc0, 0x00, 0x02, 0x01], zeros 16⟩ : sockaddr_storage).sin6_addr.length = 16 →
      ipcrypt_sockaddr_to_ip16 linuxSockets (List.replicate 16 0xff)
          ⟨0, 2, [0xc0, 0x00, 0x02, 0x01], zeros 16⟩
        = ⟨0, (⟨0, 2, [0xc0, 0x00, 0x02, 0x01], zeros 16⟩ : sockaddr_storage).sin6_addr⟩) ∧
    ((⟨0, 2, [0xc0, 0x00, 0x02, 0x01], zeros 16⟩ : sockaddr_storage).ss_family
          ≠ linuxSockets.AF_INET →
        (⟨0, 2, [0xc0, 0x00, 0x02, 0x01], zeros 16⟩ : sockaddr_storage).ss_family
          ≠ linuxSockets.AF_INET6 →
      ipcrypt_sockaddr_to_ip16 linuxSockets (List.replicate 16 0xff)
          ⟨0, 2, [0xc0, 0x00, 0x02, 0x01], zeros 16⟩
        = ⟨-1, List.replicate 16 0xff⟩)) ∧
    (⟨0, 2, [0xc0, 0x00, 0x02, 0x01], zeros 16⟩ : sockaddr_storage).ss_family
      = linuxSockets.AF_INET ∧
    hexLibc.inet_pton .AF_INET6 (cstr hexIp4) = none ∧
    hexLibc.inet_pton .AF_INET (cstr hexIp4) = some [0xc0, 0x00, 0x02, 0x01]) :=
  ⟨by decide, by decide,
    ipv4_is_mapped linuxSockets hexLibc (List.replicate 16 0xff) hexIp4 0xc0 0x00 0x02 0x01
      ⟨0, 2, [0xc0, 0x00, 0x02, 0x01], zeros 16⟩ (by decide) (by decide),
    by decide, by decide, by decide⟩

/-- C23: for every 16-byte value, `ipcrypt_ip16_to_str` formats bytes 12 to 15 as IPv4 if bytes
0 to 9 are zero and bytes 10 and 11 are `ff`, and formats the 16 bytes as IPv6 otherwise; its
flag `is_ipv4_mapped` is set exactly in the first case; `ipcrypt_ip16_to_sockaddr` builds an
`AF_INET` address with `sin_addr` bytes 12 to 15 in the first case and an `AF_INET6` address with
the 16 bytes otherwise, so its family is `AF_INET` exactly in the first case. -/
theorem ipv4_mapped_classification (os : Sockets) (libc : Libc) (ip_str ip16 : Bytes)
    (hv : ip16.length = 16) (hos : os.AF_INET ≠ os.AF_INET6) :
    (isIPv4Mapped ip16 →
      ipcrypt_ip16_to_str libc ip_str ip16
        = match libc.inet_ntop .AF_INET (ip16.drop 12) INET_ADDRSTRLEN with
          | none => ⟨0, ip_str⟩
          | some s => ⟨strlen (storeStr ip_str s), storeStr ip_str s⟩) ∧
    (¬ isIPv4Mapped ip16 →
      ipcrypt_ip16_to_str libc ip_str ip16
        = match libc.inet_ntop .AF_INET6 ip16 INET6_ADDRSTRLEN with
          | none => ⟨0, ip_str⟩
          | some s => ⟨strlen (storeStr ip_str s), storeStr ip_str s⟩) ∧
    ((if ipv4_mapped_scan ip16 10 0 ≠ 0 ∧ (ip16.getD 10 0 ≠ 0xff ∨ ip16.getD 11 0 ≠ 0xff)
        then 0 else ipv4_mapped_scan ip16 10 0) ≠ 0 ↔ isIPv4Mapped ip16) ∧
    (isIPv4Mapped ip16 →
      ipcrypt_ip16_to_sockaddr os ip16
        = ⟨if os.sin_len then os.sizeof_sockaddr_in else 0, os.AF_INET, ip16.drop 12,
            zeros 16⟩) ∧
    (¬ isIPv4Mapped ip16 →
      ipcrypt_ip16_to_sockaddr os ip16
        = ⟨if os.sin_len then os.sizeof_sockaddr_in6 else 0, os.AF_INET6, zeros 4, ip16⟩) ∧
    ((ipcrypt_ip16_to_sockaddr os ip16).ss_family = os.AF_INET ↔ isIPv4Mapped ip16) := by
  have hs := ip16_to_sockaddr_eq os ip16 hv
  refine ⟨fun hm => ?_, fun hm => ?_, is_ipv4_mapped_iff ip16, hs.1, hs.2, ?_⟩
  · unfold ipcrypt_ip16_to_str
    simp only []
    rw [if_pos ((is_ipv4_mapped_iff ip16).mpr hm),
      memcpy_zeros _ 4 (drop_twelve_length ip16 hv)]
  · unfold ipcrypt_ip16_to_str
    simp only []
    rw [if_neg fun h => hm ((is_ipv4_mapped_iff ip16).mp h), memcpy_zeros _ 16 hv]
  · constructor
    · intro hf
      by_contra hm
      rw [hs.2 hm] at hf
      exact hos hf.symm
    · intro hm
      rw [hs.1 hm]

/-- Witness for C23: the value of 192.0.2.1 with the FreeBSD constants and the example
platform. -/
theorem ipv4_mapped_classification_witness :
    ipBlock.length = 16 ∧ bsdSockets.AF_INET ≠ bsdSockets.AF_INET6 ∧ isIPv4Mapped ipBlock ∧
    (ipcrypt_ip16_to_sockaddr bsdSockets ipBlock).ss_family = bsdSockets.AF_INET ∧
    ((isIPv4Mapped ipBlock →
      ipcrypt_ip16_to_str hexLibc (zeros 46) ipBlock
        = match hexLibc.inet_ntop .AF_INET (ipBlock.drop 12) INET_ADDRSTRLEN with
          | none => ⟨0, zeros 46⟩
          | some s => ⟨strlen (storeStr (zeros 46) s), storeStr (zeros 46) s⟩) ∧
    (¬ isIPv4Mapped ipBlock →
      ipcrypt_ip16_to_str hexLibc (zeros 46) ipBlock
        = match hexLibc.inet_ntop .AF_INET6 ipBlock INET6_ADDRSTRLEN with
          | none => ⟨0, zeros 46⟩
          | some s => ⟨strlen (storeStr (zeros 46) s), storeStr (zeros 46) s⟩) ∧
    ((if ipv4_mapped_scan ipBlock 10 0 ≠ 0 ∧
          (ipBlock.getD 10 0 ≠ 0xff ∨ ipBlock.getD 11 0 ≠ 0xff)
        then 0 else ipv4_mapped_scan ipBlock 10 0) ≠ 0 ↔ isIPv4Mapped ipBlock) ∧
    (isIPv4Mapped ipBlock →
      ipcrypt_ip16_to_sockaddr bsdSockets ipBlock
        = ⟨if bsdSockets.sin_len then bsdSockets.sizeof_sockaddr_in else 0, bsdSockets.AF_INET,
            ipBlock.drop 12, zeros 16⟩) ∧
    (¬ isIPv4Mapped ipBlock →
      ipcrypt_ip16_to_sockaddr bsdSockets ipBlock
        = ⟨if bsdSockets.sin_len then bsdSockets.sizeof_sockaddr_in6 else 0,
            bsdSockets.AF_INET6, zeros 4, ipBlock⟩) ∧
    ((ipcrypt_ip16_to_sockaddr bsdSockets ipBlock).ss_family = bsdSockets.AF_INET ↔
      isIPv4Mapped ipBlock)) :=
  ⟨by decide, by decide,
    ((ipv4_mapped_classification bsdSockets hexLibc (zeros 46) ipBlock (by decide)
      (by decide)).2.2.2.2.2).mp (by decide),
    by decide,
    ipv4_mapped_classification bsdSockets hexLibc (zeros 46) ipBlock (by decide) (by decide)⟩

/-- C28: for every 16-byte value and every 16-byte buffer, `ipcrypt_sockaddr_to_ip16` applied to
the socket address that `ipcrypt_ip16_to_sockaddr` builds from the value returns 0 and leaves
the value in the buffer, whether or not the platform has the length field. -/
theorem sockaddr_to_ip16_of_ip16_to_sockaddr (os : Sockets) (ip16 buf : Bytes)
    (hv : ip16.length = 16) (hbuf : buf.length = 16) (hos : os.AF_INET ≠ os.AF_INET6) :
    ipcrypt_sockaddr_to_ip16 os buf (ipcrypt_ip16_to_sockaddr os ip16) = ⟨0, ip16⟩ := by
  have hs := ip16_to_sockaddr_eq os ip16 hv
  by_cases hm : isIPv4Mapped ip16
  · rw [hs.1 hm]
    unfold ipcrypt_sockaddr_to_ip16
    simp only []
    rw [if_pos trivial, (ipv4_mapped_build buf _ hbuf (drop_twelve_length ip16 hv)).1,
      ipv4_mapped_split ip16 hv hm]
  · rw [hs.2 hm]
    unfold ipcrypt_sockaddr_to_ip16
    simp only []
    rw [if_neg fun h => hos h.symm, if_pos trivial, memcpy_eq _ _ 16 hv,
      List.drop_eq_nil_of_le (Nat.le_of_eq hbuf), List.append_nil]

/-- Witness for C28: the value of 192.0.2.1 with the Linux constants and the value of
`2001:db8::1` with the FreeBSD constants. -/
theorem sockaddr_to_ip16_of_ip16_to_sockaddr_witness :
    ipBlock.length = 16 ∧ (List.replicate 16 (0xee : Byte)).length = 16 ∧
    linuxSockets.AF_INET ≠ linuxSockets.AF_INET6 ∧
    ipcrypt_sockaddr_to_ip16 linuxSockets (List.replicate 16 0xee)
        (ipcrypt_ip16_to_sockaddr linuxSockets ipBlock) = ⟨0, ipBlock⟩ ∧
    ipcrypt_sockaddr_to_ip16 bsdSockets (List.replicate 16 0xee)
        (ipcrypt_ip16_to_sockaddr bsdSockets ip6Example) = ⟨0, ip6Example⟩ :=
  ⟨by decide, by decide, by decide,
    sockaddr_to_ip16_of_ip16_to_sockaddr linuxSockets ipBlock (List.replicate 16 0xee)
      (by decide) (by decide) (by decide),
    sockaddr_to_ip16_of_ip16_to_sockaddr bsdSockets ip6Example (List.replicate 16 0xee)
      (by decide) (by decide) (by decide)⟩

/-! ## The round trip through IP strings -/

theorem isIPv4Mapped_ipBlock : isIPv4Mapped ipBlock :=
  ⟨fun i hi => by interval_cases i <;> rfl, rfl, rfl⟩

theorem not_isIPv4Mapped_ip6Example : ¬ isIPv4Mapped ip6Example :=
  fun h => absurd (h.1 0 (by decide)) (by decide)

/-- The string that `ipcrypt_ip16_to_str` writes for a 16-byte value on a platform whose parser
inverts its formatter: it is the string that `inet_ntop` gives for bytes 12 to 15 (IPv4-mapped
form) or for the 16 bytes, without NUL, and `ipcrypt_str_to_ip16` gives the value back from
it. -/
theorem ip16_to_str_string (libc : Libc) (hlibc : parserInvertsFormatter libc) (v : Bytes)
    (hv : v.length = 16) :
    ∃ s : Bytes, (∀ c, c ∈ s → c ≠ 0) ∧
      (isIPv4Mapped v → libc.inet_ntop .AF_INET (v.drop 12) INET_ADDRSTRLEN = some s) ∧
      (¬ isIPv4Mapped v → libc.inet_ntop .AF_INET6 v INET6_ADDRSTRLEN = some s) ∧
      (∀ buf, ipcrypt_ip16_to_str libc buf v = ⟨s.length, storeStr buf s⟩) ∧
      (∀ ip16 rest, ip16.length = 16 →
        ipcrypt_str_to_ip16 libc ip16 (s ++ 0 :: rest) = ⟨0, v⟩) := by
  by_cases hm : isIPv4Mapped v
  · obtain ⟨s, hnt, _, hnul, hp6, hp4⟩ := hlibc.1 (v.drop 12) (drop_twelve_length v hv)
    refine ⟨s, hnul, fun _ => hnt, fun h => absurd hm h, fun buf => ?_, fun ip16 rest hi => ?_⟩
    · unfold ipcrypt_ip16_to_str
      simp only []
      rw [if_pos ((is_ipv4_mapped_iff v).mpr hm), memcpy_zeros _ 4 (drop_twelve_length v hv),
        hnt]
      simp only []
      rw [strlen_storeStr buf s hnul]
    · unfold ipcrypt_str_to_ip16
      rw [cstr_append_nul s rest hnul, hp6, hp4]
      simp only []
      rw [(ipv4_mapped_build ip16 _ hi (drop_twelve_length v hv)).2, ipv4_mapped_split v hv hm]
  · obtain ⟨s, hnt, _, hnul, hp6⟩ := hlibc.2 v hv
    refine ⟨s, hnul, fun h => absurd h hm, fun _ => hnt, fun buf => ?_, fun ip16 rest hi => ?_⟩
    · unfold ipcrypt_ip16_to_str
      simp only []
      rw [if_neg fun h => hm ((is_ipv4_mapped_iff v).mp h), memcpy_zeros _ 16 hv, hnt]
      simp only []
      rw [strlen_storeStr buf s hnul]
    · unfold ipcrypt_str_to_ip16
      rw [cstr_append_nul s rest hnul, hp6]
      simp only []
      rw [memcpy_eq _ _ 16 hv, List.drop_eq_nil_of_le (Nat.le_of_eq hi), List.append_nil]

/-- Decrypting the string that `ipcrypt_encrypt_ip_str` wrote, for any context: the result is
the string `s` that `inet_ntop` gives for the parsed value `P`, stored in the cleared buffer. -/
theorem ip_str_round_trip (arch : Backend) (libc : Libc) (ipcrypt : IPCrypt)
    (S P ebuf dbuf ip16a ip16b : Bytes) (hlibc : parserInvertsFormatter libc)
    (hparse : ipcrypt_str_to_ip16 libc ip16a S = ⟨0, P⟩) (hP : P.length = 16)
    (hb : ip16b.length = 16) :
    ∃ s : Bytes, (∀ c, c ∈ s → c ≠ 0) ∧
      (isIPv4Mapped P → libc.inet_ntop .AF_INET (P.drop 12) INET_ADDRSTRLEN = some s) ∧
      (¬ isIPv4Mapped P → libc.inet_ntop .AF_INET6 P INET6_ADDRSTRLEN = some s) ∧
      (∀ buf, ipcrypt_ip16_to_str libc buf P = ⟨s.length, storeStr buf s⟩) ∧
      ipcrypt_decrypt_ip_str arch libc ipcrypt dbuf
          (ipcrypt_encrypt_ip_str arch libc ipcrypt ebuf S ip16a).str ip16b
        = ⟨s.length, storeStr (memset dbuf 0 IPCRYPT_MAX_IP_STR_BYTES) s⟩ ∧
      (∀ ip16 rest, ip16.length = 16 →
        ipcrypt_str_to_ip16 libc ip16 (s ++ 0 :: rest) = ⟨0, P⟩) := by
  obtain ⟨se, _, _, _, hse, hpe⟩ := ip16_to_str_string libc hlibc
    (ipcrypt_encrypt_ip16 arch ipcrypt P) (encrypt_ip16_length arch _ P hP)
  obtain ⟨sp, hnul, h4, h6, hsp, hpp⟩ := ip16_to_str_string libc hlibc P hP
  refine ⟨sp, hnul, h4, h6, hsp, ?_, hpp⟩
  unfold ipcrypt_decrypt_ip_str ipcrypt_encrypt_ip_str
  simp only []
  rw [hparse]
  simp only []
  rw [hse ebuf]
  simp only [storeStr]
  rw [hpe ip16b _ hb]
  simp only []
  rw [decrypt_ip16_of_encrypt_ip16 arch _ P hP, hsp]
  rfl

set_option maxRecDepth 100000 in
theorem dottedQuad_no_nul : ∀ c, c ∈ dottedQuad → c ≠ 0 := by decide

set_option maxRecDepth 100000 in
theorem colonHex_no_nul : ∀ c, c ∈ colonHex → c ≠ 0 := by decide

/-- On the example platform of the specification's strings the parser inverts the formatter. -/
theorem specLibc_inverts : parserInvertsFormatter specLibc := by
  constructor
  · intro a ha
    by_cases hq : a = dottedQuadAddr
    · subst hq
      exact ⟨dottedQuad, rfl, by decide, dottedQuad_no_nul, rfl, rfl⟩
    · have hl : (hexEncode a).length = 8 := by rw [hexEncode_length, ha]
      have h1 : hexEncode a ≠ colonHex := fun h => by rw [h] at hl; exact absurd hl (by decide)
      have h2 : hexEncode a ≠ dottedQuad := fun h => by rw [h] at hl; exact absurd hl (by decide)
      refine ⟨hexEncode a, ?_, by rw [hl]; decide, hexEncode_ne_zero a, ?_, ?_⟩
      · show (if a = dottedQuadAddr then _ else hexFormat a INET_ADDRSTRLEN) = _
        rw [if_neg hq]
        unfold hexFormat
        rw [if_pos (by rw [ha]; decide)]
      · show (if hexEncode a = colonHex then _ else hexParse 16 (hexEncode a)) = none
        rw [if_neg h1]
        exact hexParse_length 16 _ (by rw [hl]; decide)
      · show (if hexEncode a = dottedQuad then _ else hexParse 4 (hexEncode a)) = some a
        rw [if_neg h2]
        exact hexParse_hexEncode 4 a ha
  · intro v hv
    by_cases hq : v = ip6Example
    · subst hq
      exact ⟨colonHex, rfl, by decide, colonHex_no_nul, rfl⟩
    · have hl : (hexEncode v).length = 32 := by rw [hexEncode_length, hv]
      have h1 : hexEncode v ≠ colonHex := fun h => by rw [h] at hl; exact absurd hl (by decide)
      refine ⟨hexEncode v, ?_, by rw [hl]; decide, hexEncode_ne_zero v, ?_⟩
      · show (if v = ip6Example then _ else hexFormat v INET6_ADDRSTRLEN) = _
        rw [if_neg hq]
        unfold hexFormat
        rw [if_pos (by rw [hv]; decide)]
      · show (if hexEncode v = colonHex then _ else hexParse 16 (hexEncode v)) = some v
        rw [if_neg h1]
        exact hexParse_hexEncode 16 v hv

/-- The string `192.0.2.1` parses to the IPv4-mapped value `::ffff:c000:201` on a platform that
reads it as the IPv4 address `c0 00 02 01` and not as IPv6. -/
theorem str_to_ip16_dottedQuad (libc : Libc) (ip16 : Bytes) (hi : ip16.length = 16)
    (h6 : libc.inet_pton .AF_INET6 dottedQuad = none)
    (h4 : libc.inet_pton .AF_INET dottedQuad = some dottedQuadAddr) :
    ipcrypt_str_to_ip16 libc ip16 (dottedQuad ++ [0]) = ⟨0, ipBlock⟩ := by
  unfold ipcrypt_str_to_ip16
  rw [cstr_append_nul dottedQuad [] dottedQuad_no_nul, h6, h4]
  simp only []
  rw [(ipv4_mapped_build ip16 dottedQuadAddr hi rfl).2]
  rfl

/-- The string `2001:db8::1` parses to its 16 bytes on a platform that reads it so. -/
theorem str_to_ip16_colonHex (libc : Libc) (ip16 : Bytes) (hi : ip16.length = 16)
    (h6 : libc.inet_pton .AF_INET6 colonHex = some ip6Example) :
    ipcrypt_str_to_ip16 libc ip16 (colonHex ++ [0]) = ⟨0, ip6Example⟩ := by
  unfold ipcrypt_str_to_ip16
  rw [cstr_append_nul colonHex [] colonHex_no_nul, h6]
  simp only []
  rw [memcpy_eq ip16 ip6Example 16 rfl, List.drop_eq_nil_of_le (Nat.le_of_eq hi),
    List.append_nil]

/-- On the example platform, `ipcrypt_encrypt_ip_str` turns `192.0.2.1` under the key
`2b7e151628aed2a6abf7158809cf4f3c` into the string of `1dbd:c1b9:fff1:7586:7d0b:67b4:e76e:4777`. -/
theorem encrypt_ip_str_dottedQuad (arch : Backend) (ctx0 : IPCrypt) (ebuf ip16 : Bytes)
    (hi : ip16.length = 16) :
    cstr (ipcrypt_encrypt_ip_str arch specLibc (ipcrypt_init arch ctx0 specKey) ebuf
      (dottedQuad ++ [0]) ip16).str = encryptedDottedQuad := by
  have he : ipcrypt_encrypt_ip16 arch (ipcrypt_init arch ctx0 specKey) ipBlock
      = [0x1d, 0xbd, 0xc1, 0xb9, 0xff, 0xf1, 0x75, 0x86, 0x7d, 0x0b, 0x67, 0xb4, 0xe7, 0x6e,
          0x47, 0x77] := by
    have h1 : ipcrypt_encrypt_ip16 arch (ipcrypt_init arch ctx0 specKey) ipBlock
        = (AES128_encrypt (Block.ofList specKey) (Block.ofList ipBlock)).toList := by
      unfold ipcrypt_encrypt_ip16 AES128_encrypt
      simp only []
      have hd : ipBlock.drop 16 = [] := rfl
      rw [aes_encrypt_eq, hd, List.append_nil]
      exact congrArg Block.toList (Cipher_congr _ _ _ (ctxKeys_init arch ctx0 specKey))
    rw [h1]
    decide!
  obtain ⟨s, hnul, _, h6, hs, _⟩ := ip16_to_str_string specLibc specLibc_inverts
    [0x1d, 0xbd, 0xc1, 0xb9, 0xff, 0xf1, 0x75, 0x86, 0x7d, 0x0b, 0x67, 0xb4, 0xe7, 0x6e,
      0x47, 0x77] rfl
  have hse : s = encryptedDottedQuad := by
    have h := h6 fun h => absurd (h.1 0 (by decide)) (by decide)
    have e : specLibc.inet_ntop .AF_INET6
        [0x1d, 0xbd, 0xc1, 0xb9, 0xff, 0xf1, 0x75, 0x86, 0x7d, 0x0b, 0x67, 0xb4, 0xe7, 0x6e,
          0x47, 0x77] INET6_ADDRSTRLEN = some encryptedDottedQuad := by decide
    rw [e] at h
    exact (Option.some.inj h).symm
  subst hse
  unfold ipcrypt_encrypt_ip_str
  simp only []
  rw [str_to_ip16_dottedQuad specLibc ip16 hi rfl rfl]
  simp only []
  rw [he, hs ebuf]
  exact cstr_storeStr _ _ hnul

/-- C20: on a platform whose parser inverts its formatter, for every key `K` and every string `S`
that `ipcrypt_str_to_ip16` parses to a 16-byte value `P`, there is a string `s` without NUL,
the one that `inet_ntop` gives for `P` (for bytes 12 to 15 if `P` has the IPv4-mapped form, for
the 16 bytes otherwise), such that `ipcrypt_ip16_to_str` writes `s` for `P` and returns its
length, and `ipcrypt_decrypt_ip_str` applied to the string that `ipcrypt_encrypt_ip_str` produced
from `S` returns the length of `s` and leaves `s` and a NUL in the cleared buffer; parsing that
output gives `P` again. In particular, under the key `2b7e151628aed2a6abf7158809cf4f3c`, on
every such platform that reads `192.0.2.1` as the IPv4 address `c0 00 02 01` and writes that
address as `192.0.2.1`, the string `192.0.2.1` comes back unchanged with length 9, and on every
such platform that reads `2001:db8::1` as `2001:0db8::1` and writes that address as
`2001:db8::1`, the string `2001:db8::1` comes back unchanged with length 11. The output buffer
`dbuf` is distinct from the input string; the buffers `ebuf`, `dbuf`, `fbuf` and the local arrays
`ip16a`, `ip16b` may hold anything on entry. -/
theorem ipcrypt_decrypt_encrypt_ip_str (arch : Backend) (libc : Libc) (ctx0 : IPCrypt)
    (K S P ebuf dbuf fbuf ip16a ip16b ip16c : Bytes) (hlibc : parserInvertsFormatter libc)
    (hparse : ipcrypt_str_to_ip16 libc ip16a S = ⟨0, P⟩) (hP : P.length = 16)
    (ha : ip16a.length = 16) (hb : ip16b.length = 16) (hc : ip16c.length = 16) :
    (∃ s : Bytes, (∀ c, c ∈ s → c ≠ 0) ∧
      (isIPv4Mapped P → libc.inet_ntop .AF_INET (P.drop 12) INET_ADDRSTRLEN = some s) ∧
      (¬ isIPv4Mapped P → libc.inet_ntop .AF_INET6 P INET6_ADDRSTRLEN = some s) ∧
      ipcrypt_ip16_to_str libc fbuf P = ⟨s.length, storeStr fbuf s⟩ ∧
      ipcrypt_decrypt_ip_str arch libc (ipcrypt_init arch ctx0 K) dbuf
        (ipcrypt_encrypt_ip_str arch libc (ipcrypt_init arch ctx0 K) ebuf S
          ip16a).str ip16b
        = ⟨s.length, storeStr (memset dbuf 0 IPCRYPT_MAX_IP_STR_BYTES) s⟩ ∧
      cstr (ipcrypt_decrypt_ip_str arch libc (ipcrypt_init arch ctx0 K) dbuf
          (ipcrypt_encrypt_ip_str arch libc (ipcrypt_init arch ctx0 K) ebuf S
            ip16a).str ip16b).str = s ∧
      cstr (ipcrypt_ip16_to_str libc fbuf P).str = s ∧
      ipcrypt_str_to_ip16 libc ip16c
          (ipcrypt_decrypt_ip_str arch libc (ipcrypt_init arch ctx0 K) dbuf
              (ipcrypt_encrypt_ip_str arch libc (ipcrypt_init arch ctx0 K) ebuf S
                ip16a).str ip16b).str
        = ⟨0, P⟩) ∧
    (libc.inet_pton .AF_INET6 dottedQuad = none →
      libc.inet_pton .AF_INET dottedQuad = some dottedQuadAddr →
      libc.inet_ntop .AF_INET dottedQuadAddr INET_ADDRSTRLEN = some dottedQuad →
      ipcrypt_decrypt_ip_str arch libc (ipcrypt_init arch ctx0 specKey) dbuf
        (ipcrypt_encrypt_ip_str arch libc (ipcrypt_init arch ctx0 specKey) ebuf (dottedQuad ++ [0])
          ip16a).str ip16b
        = ⟨9, storeStr (memset dbuf 0 IPCRYPT_MAX_IP_STR_BYTES) dottedQuad⟩ ∧
      cstr (ipcrypt_decrypt_ip_str arch libc (ipcrypt_init arch ctx0 specKey) dbuf
          (ipcrypt_encrypt_ip_str arch libc (ipcrypt_init arch ctx0 specKey) ebuf (dottedQuad ++ [0])
            ip16a).str ip16b).str = dottedQuad) ∧
    (libc.inet_pton .AF_INET6 colonHex = some ip6Example →
      libc.inet_ntop .AF_INET6 ip6Example INET6_ADDRSTRLEN = some colonHex →
      ipcrypt_decrypt_ip_str arch libc (ipcrypt_init arch ctx0 specKey) dbuf
        (ipcrypt_encrypt_ip_str arch libc (ipcrypt_init arch ctx0 specKey) ebuf (colonHex ++ [0])
          ip16a).str ip16b
        = ⟨11, storeStr (memset dbuf 0 IPCRYPT_MAX_IP_STR_BYTES) colonHex⟩ ∧
      cstr (ipcrypt_decrypt_ip_str arch libc (ipcrypt_init arch ctx0 specKey) dbuf
          (ipcrypt_encrypt_ip_str arch libc (ipcrypt_init arch ctx0 specKey) ebuf (colonHex ++ [0])
            ip16a).str ip16b).str = colonHex) := by
  refine ⟨?_, fun h6 h4 hn => ?_, fun h6 hn => ?_⟩
  · obtain ⟨s, hnul, h4, h6, hs, hd, hp⟩ := ip_str_round_trip arch libc
      (ipcrypt_init arch ctx0 K) S P ebuf dbuf ip16a ip16b hlibc hparse hP hb
    refine ⟨s, hnul, h4, h6, hs fbuf, hd, ?_, ?_, ?_⟩
    · rw [hd]
      exact cstr_storeStr _ s hnul
    · rw [hs fbuf]
      exact cstr_storeStr _ s hnul
    · rw [hd]
      exact hp ip16c _ hc
  · obtain ⟨s, hnul, h4', _, _, hd, _⟩ := ip_str_round_trip arch libc
      (ipcrypt_init arch ctx0 specKey) (dottedQuad ++ [0]) ipBlock ebuf dbuf ip16a ip16b hlibc
      (str_to_ip16_dottedQuad libc ip16a ha h6 h4) rfl hb
    have hs : s = dottedQuad := by
      have h := h4' isIPv4Mapped_ipBlock
      have e : ipBlock.drop 12 = dottedQuadAddr := rfl
      rw [e, hn] at h
      exact (Option.some.inj h).symm
    subst hs
    rw [hd]
    exact ⟨rfl, cstr_storeStr _ dottedQuad hnul⟩
  · obtain ⟨s, hnul, _, h6', _, hd, _⟩ := ip_str_round_trip arch libc
      (ipcrypt_init arch ctx0 specKey) (colonHex ++ [0]) ip6Example ebuf dbuf ip16a ip16b hlibc
      (str_to_ip16_colonHex libc ip16a ha h6) rfl hb
    have hs : s = colonHex := by
      have h := h6' not_isIPv4Mapped_ip6Example
      rw [hn] at h
      exact (Option.some.inj h).symm
    subst hs
    rw [hd]
    exact ⟨rfl, cstr_storeStr _ colonHex hnul⟩

/-- Witness for C20: the string `192.0.2.1` under the key `2b7e151628aed2a6abf7158809cf4f3c` on
the example platform and the x86 branch; the two strings of the specification come back
unchanged, and the encrypted string in between is that of
`1dbd:c1b9:fff1:7586:7d0b:67b4:e76e:4777`. -/
theorem ipcrypt_decrypt_encrypt_ip_str_witness :
    parserInvertsFormatter specLibc ∧
    ipcrypt_str_to_ip16 specLibc (zeros 16) (dottedQuad ++ [0]) = ⟨0, ipBlock⟩ ∧
    ipBlock.length = 16 ∧ (zeros 16).length = 16 ∧
    specLibc.inet_pton .AF_INET6 dottedQuad = none ∧
    specLibc.inet_pton .AF_INET dottedQuad = some dottedQuadAddr ∧
    specLibc.inet_ntop .AF_INET dottedQuadAddr INET_ADDRSTRLEN = some dottedQuad ∧
    specLibc.inet_pton .AF_INET6 colonHex = some ip6Example ∧
    specLibc.inet_ntop .AF_INET6 ip6Example INET6_ADDRSTRLEN = some colonHex ∧
    ((∃ s : Bytes, (∀ c, c ∈ s → c ≠ 0) ∧
      (isIPv4Mapped ipBlock → specLibc.inet_ntop .AF_INET (ipBlock.drop 12) INET_ADDRSTRLEN = some s) ∧
      (¬ isIPv4Mapped ipBlock → specLibc.inet_ntop .AF_INET6 ipBlock INET6_ADDRSTRLEN = some s) ∧
      ipcrypt_ip16_to_str specLibc (zeros 46) ipBlock = ⟨s.length, storeStr (zeros 46) s⟩ ∧
      ipcrypt_decrypt_ip_str .x86 specLibc (ipcrypt_init .x86 ⟨zeros 176⟩ specKey) (zeros 46)
        (ipcrypt_encrypt_ip_str .x86 specLibc (ipcrypt_init .x86 ⟨zeros 176⟩ specKey) (zeros 46) (dottedQuad ++ [0])
          (zeros 16)).str (zeros 16)
        = ⟨s.length, storeStr (memset (zeros 46) 0 IPCRYPT_MAX_IP_STR_BYTES) s⟩ ∧
      cstr (ipcrypt_decrypt_ip_str .x86 specLibc (ipcrypt_init .x86 ⟨zeros 176⟩ specKey) (zeros 46)
          (ipcrypt_encrypt_ip_str .x86 specLibc (ipcrypt_init .x86 ⟨zeros 176⟩ specKey) (zeros 46) (dottedQuad ++ [0])
            (zeros 16)).str (zeros 16)).str = s ∧
      cstr (ipcrypt_ip16_to_str specLibc (zeros 46) ipBlock).str = s ∧
      ipcrypt_str_to_ip16 specLibc (zeros 16)
          (ipcrypt_decrypt_ip_str .x86 specLibc (ipcrypt_init .x86 ⟨zeros 176⟩ specKey) (zeros 46)
              (ipcrypt_encrypt_ip_str .x86 specLibc (ipcrypt_init .x86 ⟨zeros 176⟩ specKey) (zeros 46) (dottedQuad ++ [0])
                (zeros 16)).str (zeros 16)).str
        = ⟨0, ipBlock⟩) ∧
    (specLibc.inet_pton .AF_INET6 dottedQuad = none →
      specLibc.inet_pton .AF_INET dottedQuad = some dottedQuadAddr →
      specLibc.inet_ntop .AF_INET dottedQuadAddr INET_ADDRSTRLEN = some dottedQuad →
      ipcrypt_decrypt_ip_str .x86 specLibc (ipcrypt_init .x86 ⟨zeros 176⟩ specKey) (zeros 46)
        (ipcrypt_encrypt_ip_str .x86 specLibc (ipcrypt_init .x86 ⟨zeros 176⟩ specKey) (zeros 46) (dottedQuad ++ [0])
          (zeros 16)).str (zeros 16)
        = ⟨9, storeStr (memset (zeros 46) 0 IPCRYPT_MAX_IP_STR_BYTES) dottedQuad⟩ ∧
      cstr (ipcrypt_decrypt_ip_str .x86 specLibc (ipcrypt_init .x86 ⟨zeros 176⟩ specKey) (zeros 46)
          (ipcrypt_encrypt_ip_str .x86 specLibc (ipcrypt_init .x86 ⟨zeros 176⟩ specKey) (zeros 46) (dottedQuad ++ [0])
            (zeros 16)).str (zeros 16)).str = dottedQuad) ∧
    (specLibc.inet_pton .AF_INET6 colonHex = some ip6Example →
      specLibc.inet_ntop .AF_INET6 ip6Example INET6_ADDRSTRLEN = some colonHex →
      ipcrypt_decrypt_ip_str .x86 specLibc (ipcrypt_init .x86 ⟨zeros 176⟩ specKey) (zeros 46)
        (ipcrypt_encrypt_ip_str .x86 specLibc (ipcrypt_init .x86 ⟨zeros 176⟩ specKey) (zeros 46) (colonHex ++ [0])
          (zeros 16)).str (zeros 16)
        = ⟨11, storeStr (memset (zeros 46) 0 IPCRYPT_MAX_IP_STR_BYTES) colonHex⟩ ∧
      cstr (ipcrypt_decrypt_ip_str .x86 specLibc (ipcrypt_init .x86 ⟨zeros 176⟩ specKey) (zeros 46)
          (ipcrypt_encrypt_ip_str .x86 specLibc (ipcrypt_init .x86 ⟨zeros 176⟩ specKey) (zeros 46) (colonHex ++ [0])
            (zeros 16)).str (zeros 16)).str = colonHex)) ∧
    (ipcrypt_decrypt_ip_str .x86 specLibc (ipcrypt_init .x86 ⟨zeros 176⟩ specKey) (zeros 46)
        (ipcrypt_encrypt_ip_str .x86 specLibc (ipcrypt_init .x86 ⟨zeros 176⟩ specKey) (zeros 46) (dottedQuad ++ [0])
          (zeros 16)).str (zeros 16)
        = ⟨9, storeStr (memset (zeros 46) 0 IPCRYPT_MAX_IP_STR_BYTES) dottedQuad⟩ ∧
      cstr (ipcrypt_decrypt_ip_str .x86 specLibc (ipcrypt_init .x86 ⟨zeros 176⟩ specKey) (zeros 46)
        (ipcrypt_encrypt_ip_str .x86 specLibc (ipcrypt_init .x86 ⟨zeros 176⟩ specKey) (zeros 46) (dottedQuad ++ [0])
          (zeros 16)).str (zeros 16)).str = dottedQuad) ∧
    (ipcrypt_decrypt_ip_str .x86 specLibc (ipcrypt_init .x86 ⟨zeros 176⟩ specKey) (zeros 46)
        (ipcrypt_encrypt_ip_str .x86 specLibc (ipcrypt_init .x86 ⟨zeros 176⟩ specKey) (zeros 46) (colonHex ++ [0])
          (zeros 16)).str (zeros 16)
        = ⟨11, storeStr (memset (zeros 46) 0 IPCRYPT_MAX_IP_STR_BYTES) colonHex⟩ ∧
      cstr (ipcrypt_decrypt_ip_str .x86 specLibc (ipcrypt_init .x86 ⟨zeros 176⟩ specKey) (zeros 46)
        (ipcrypt_encrypt_ip_str .x86 specLibc (ipcrypt_init .x86 ⟨zeros 176⟩ specKey) (zeros 46) (colonHex ++ [0])
          (zeros 16)).str (zeros 16)).str = colonHex) ∧
    cstr (ipcrypt_encrypt_ip_str .x86 specLibc (ipcrypt_init .x86 ⟨zeros 176⟩ specKey) (zeros 46)
      (dottedQuad ++ [0]) (zeros 16)).str = encryptedDottedQuad :=
  ⟨specLibc_inverts, str_to_ip16_dottedQuad specLibc (zeros 16) (zeros_length 16) rfl rfl,
    rfl, zeros_length 16, rfl, rfl, rfl, rfl, rfl,
    ipcrypt_decrypt_encrypt_ip_str .x86 specLibc ⟨zeros 176⟩ specKey (dottedQuad ++ [0]) ipBlock
      (zeros 46) (zeros 46) (zeros 46) (zeros 16) (zeros 16) (zeros 16) specLibc_inverts
      (str_to_ip16_dottedQuad specLibc (zeros 16) (zeros_length 16) rfl rfl) rfl
      (zeros_length 16) (zeros_length 16) (zeros_length 16),
    (ipcrypt_decrypt_encrypt_ip_str .x86 specLibc ⟨zeros 176⟩ specKey (dottedQuad ++ [0]) ipBlock
      (zeros 46) (zeros 46) (zeros 46) (zeros 16) (zeros 16) (zeros 16) specLibc_inverts
      (str_to_ip16_dottedQuad specLibc (zeros 16) (zeros_length 16) rfl rfl) rfl
      (zeros_length 16) (zeros_length 16) (zeros_length 16)).2.1 rfl rfl rfl,
    (ipcrypt_decrypt_encrypt_ip_str .x86 specLibc ⟨zeros 176⟩ specKey (dottedQuad ++ [0]) ipBlock
      (zeros 46) (zeros 46) (zeros 46) (zeros 16) (zeros 16) (zeros 16) specLibc_inverts
      (str_to_ip16_dottedQuad specLibc (zeros 16) (zeros_length 16) rfl rfl) rfl
      (zeros_length 16) (zeros_length 16) (zeros_length 16)).2.2 rfl rfl,
    encrypt_ip_str_dottedQuad .x86 ⟨zeros 176⟩ (zeros 46) (zeros 16) (zeros_length 16)⟩

end IPCrypt2
